import Mathlib

/-! Van Gogh LIC (line integral convolution): a shallow embedding.

The definitions below follow `src/lib/libgimpcolor.hpp` and `src/lib/vglic.hpp`
function by function and keep their names.

Conventions of the embedding.

* `gdouble` is an exact number: every definition is generic in a linearly
  ordered field `K` with a floor function (`ℚ` to evaluate, `ℝ` to reason
  about square roots).  Rounding, infinities and NaN are not modelled; a
  division by zero has the value `0` as everywhere in Mathlib.
* `gint`, `glong` are `Int` (no overflow is modelled), `guchar` values are `Nat`.
* A function that can read outside a buffer, divide an integer by zero, fail
  an assertion, throw, or loop forever returns `Except Fault _`.  A loop is
  given as many rounds of fuel as it can need when it ends at all, and reports
  `nonTermination` when its guard still holds after them.
* Functions of the C and C++ run-time libraries (`sqrt`, `cos`, `sin`, the
  constant `M_PI`, the stream of numbers drawn from a random engine) are the
  fields of a parameter `Libm`.
* The global grid `G` and the object are passed in and handed back (`Run`).

The file has three parts: the embedding of the source, definitions that follow
the words of the specification together with concrete inputs, and the theorems.
-/

/-- The ways a call can end without a result. -/
inductive Fault where
  /-- The exception `std::invalid_argument` thrown by `compute`. -/
  | invalidArgument
  /-- The `assert` of `rgb_to_hsl` failed. -/
  | assertFailed
  /-- An element was read outside its buffer (undefined behaviour in the source). -/
  | outOfRange
  /-- Integer remainder by zero. -/
  | divideByZero
  /-- A loop whose guard never becomes false. -/
  | nonTermination
deriving DecidableEq, Repr

deriving instance DecidableEq for Except

/-- The type `cv::Vec4d`: four doubles, read as `v[0]`, ..., `v[3]`. -/
structure Vec4d (K : Type) where
  v0 : K
  v1 : K
  v2 : K
  v3 : K
deriving DecidableEq, Repr

/-- The macro `GimpRGBA`, which is `cv::Vec4d`: red, green, blue, alpha. -/
abbrev GimpRGBA (K : Type) := Vec4d K

/-- The macro `GimpHSL`, which is `cv::Vec4d`: hue, saturation, lightness, alpha. -/
abbrev GimpHSL (K : Type) := Vec4d K

/-- The element `v[i]` of a `cv::Vec4d`; indices outside `0..3` read `v[3]`
here and are never used by the embedded code. -/
def Vec4d.get {K : Type} (v : Vec4d K) (i : Int) : K :=
  if i = 0 then v.v0 else if i = 1 then v.v1 else if i = 2 then v.v2 else v.v3

/-- The OpenCV type code `CV_64FC4` (depth `CV_64F = 6`, four channels). -/
def CV_64FC4 : Int := 30

/-- A `cv::Mat` as far as the source uses it: its type code, its size and,
when the type is `CV_64FC4`, its pixels in row-major order. -/
structure Mat (K : Type) where
  type : Int
  rows : Nat
  cols : Nat
  data : List (Vec4d K)
deriving DecidableEq

/-- A matrix holds exactly `rows * cols` pixels. -/
def Mat.WF {K : Type} (m : Mat K) : Prop := m.data.length = m.rows * m.cols

/-- Run-time library functions the source calls: `sqrt`, `cos`, `sin`, `M_PI`,
and `uniform1 k`, the `k`-th number (from `k = 0`) that
`std::uniform_real_distribution<double>` draws from a default-constructed
`std::mt19937`. -/
structure Libm (K : Type) where
  sqrt : K → K
  cos : K → K
  sin : K → K
  pi : K
  uniform1 : Nat → K

/-- The loop nest `for (y = 0; y < rows; y++) for (x = 0; x < cols; x++)`
with a body that yields one value for each position `(x, y)` or ends the run:
the values in the order of the rounds, that is, row by row. -/
def forEachPixel {β : Type} (rows cols : Nat) (body : Nat → Nat → Except Fault β) :
    Except Fault (List β) :=
  ((List.range rows).mapM fun y => (List.range cols).mapM fun x => body x y).map List.flatten

section Libgimpcolor

variable {K : Type} [LinearOrderedField K] [FloorRing K]

/-- The macro `CLAMP(VALUE,MIN_VALUE,MAX_VALUE)`, which is
`MAX((MIN_VALUE),MIN((MAX_VALUE),(VALUE)))`. -/
def CLAMP {α : Type} [LinearOrder α] (value min_value max_value : α) : α :=
  max min_value (min max_value value)

/-- The macro `CLAMP0255(a)`. -/
def CLAMP0255 (a : Int) : Int := CLAMP a 0 255

/-- The macro `GIMP_HSL_UNDEFINED`. -/
def GIMP_HSL_UNDEFINED : K := -1

/-- The macro `RINT(x)`, which is `floor ((x) + 0.5)`. -/
def RINT (x : K) : Int := ⌊x + 1 / 2⌋

/-- The conversion `(gint) u` of a double: truncation toward zero. -/
def toGint (u : K) : Int := if 0 ≤ u then ⌊u⌋ else ⌈u⌉

/-- The call `fmod (x, 1.0)`: the fractional part with the sign of `x`. -/
def fmod1 (x : K) : K := x - (toGint x : K)

/-- Integer `a % b` of C: remainder of the division truncated toward zero. -/
def cmod (a b : Int) : Except Fault Int :=
  if b = 0 then .error .divideByZero else .ok (a.tmod b)

/-- The loop `while (x < 0) x += w;` run for at most `fuel` rounds; `none`
when `x` is still negative after them. -/
def whileNegAdd (w : Int) : Nat → Int → Option Int
  | 0, x => if x < 0 then none else some x
  | fuel + 1, x => if x < 0 then whileNegAdd w fuel (x + w) else some x

def gimp_rgba_multiply (rgb : GimpRGBA K) (factor : K) : GimpRGBA K :=
  ⟨rgb.v0 * factor, rgb.v1 * factor, rgb.v2 * factor, rgb.v3 * factor⟩

def gimp_rgba_add (rgba1 rgba2 : GimpRGBA K) : GimpRGBA K :=
  ⟨rgba1.v0 + rgba2.v0, rgba1.v1 + rgba2.v1, rgba1.v2 + rgba2.v2, rgba1.v3 + rgba2.v3⟩

def gimp_rgba_clamp (rgb : GimpRGBA K) : GimpRGBA K :=
  ⟨CLAMP rgb.v0 0 1, CLAMP rgb.v1 0 1, CLAMP rgb.v2 0 1, CLAMP rgb.v3 0 1⟩

/-- The function `gimp_bilinear_rgba (x, y, values)`; `p0 .. p3` are `values[0 .. 3]`. -/
def gimp_bilinear_rgba (x y : K) (p0 p1 p2 p3 : GimpRGBA K) : GimpRGBA K :=
  let x := fmod1 x
  let y := fmod1 y
  let x := if x < 0 then x + 1 else x
  let y := if y < 0 then y + 1 else y
  let ix := 1 - x
  let iy := 1 - y
  let a0 := p0.v3
  let a1 := p1.v3
  let a2 := p2.v3
  let a3 := p3.v3
  let alpha := iy * (ix * a0 + x * a1) + y * (ix * a2 + x * a3)
  if 0 < alpha then
    ⟨(iy * (ix * a0 * p0.v0 + x * a1 * p1.v0) + y * (ix * a2 * p2.v0 + x * a3 * p3.v0)) / alpha,
     (iy * (ix * a0 * p0.v1 + x * a1 * p1.v1) + y * (ix * a2 * p2.v1 + x * a3 * p3.v1)) / alpha,
     (iy * (ix * a0 * p0.v2 + x * a1 * p1.v2) + y * (ix * a2 * p2.v2 + x * a3 * p3.v2)) / alpha,
     alpha⟩
  else ⟨0, 0, 0, alpha⟩

def gimp_rgba_max (rgb : GimpRGBA K) : K :=
  if rgb.v0 > rgb.v1 then (if rgb.v0 > rgb.v2 then rgb.v0 else rgb.v2)
  else (if rgb.v1 > rgb.v2 then rgb.v1 else rgb.v2)

def gimp_rgba_min (rgb : GimpRGBA K) : K :=
  if rgb.v0 < rgb.v1 then (if rgb.v0 < rgb.v2 then rgb.v0 else rgb.v2)
  else (if rgb.v1 < rgb.v2 then rgb.v1 else rgb.v2)

def gimp_rgba_to_hsl (rgb : GimpRGBA K) : GimpHSL K :=
  let max := gimp_rgba_max rgb
  let min := gimp_rgba_min rgb
  let hsl2 := (max + min) / 2
  if max = min then ⟨GIMP_HSL_UNDEFINED, 0, hsl2, rgb.v3⟩
  else
    let hsl1 := if hsl2 ≤ 1 / 2 then (max - min) / (max + min) else (max - min) / (2 - max - min)
    let delta := max - min
    let delta := if delta = 0 then 1 else delta
    let hsl0 :=
      if rgb.v0 = max then (rgb.v1 - rgb.v2) / delta
      else if rgb.v1 = max then 2 + (rgb.v2 - rgb.v0) / delta
      else 4 + (rgb.v0 - rgb.v1) / delta
    let hsl0 := hsl0 / 6
    let hsl0 := if hsl0 < 0 then hsl0 + 1 else hsl0
    ⟨hsl0, hsl1, hsl2, rgb.v3⟩

end Libgimpcolor

/-- The enumerators `HUE`, `SATURATION`, `BRIGHTNESS` of `EffectChannel`, as
the integers C++ gives them; a field of that type can hold other integers. -/
def HUE : Int := 0

def SATURATION : Int := 1

def BRIGHTNESS : Int := 2

/-- The enumeration `EffectOperator`; a field holding another integer is not modelled. -/
inductive EffectOperator where
  | DERIVATIVE
  | GRADIENT
deriving DecidableEq, Repr

/-- The enumeration `ConvolveWith`; a field holding another integer, for which
`compute_lic` pokes a colour it never set, is not modelled. -/
inductive ConvolveWith where
  | WHITE_NOISE
  | SOURCE_IMAGE
deriving DecidableEq, Repr

def numx : Nat := 40

def numy : Nat := 40

/-- The global `static gdouble G[numx][numy][2]`: `G i j` is the pair
`(G[i][j][0], G[i][j][1])`; only indices below `numx`, `numy` are used. -/
abbrev Grid (K : Type) := Nat → Nat → K × K

/-- The grid at process start: a static array is zero-initialised. -/
def Grid.start {K : Type} [Zero K] : Grid K := fun _ _ => (0, 0)

/-- The fields of `class VanGoghLIC`, public parameters first. -/
structure VanGoghLIC (K : Type) where
  filter_length : K
  noise_magnitude : K
  integration_steps : K
  minimum_value : K
  maximum_value : K
  effect_channel : Int
  effect_operator : EffectOperator
  convolve_with : ConvolveWith
  l : K
  dx : K
  dy : K
  minv : K
  maxv : K
  isteps : K
  effect_width : Int
  effect_height : Int
  scalarfield : List Nat

/-- What a call of `compute` leaves behind: the global grid, the object, and
either the output image or the way the call ended. -/
structure Run (K : Type) where
  G : Grid K
  self : VanGoghLIC K
  output : Except Fault (Mat K)

namespace VanGoghLIC

variable {K : Type} [LinearOrderedField K] [FloorRing K]

/-- The constructor `VanGoghLIC()`; the members it leaves unset
(`effect_width`, `effect_height`) are taken as `0`, `scalarfield` is empty. -/
def new : VanGoghLIC K where
  filter_length := 5
  noise_magnitude := 2
  integration_steps := 25
  minimum_value := -25
  maximum_value := 25
  effect_channel := BRIGHTNESS
  effect_operator := .GRADIENT
  convolve_with := .SOURCE_IMAGE
  l := 10
  dx := 2
  dy := 2
  minv := -5 / 2
  maxv := 5 / 2
  isteps := 20
  effect_width := 0
  effect_height := 0
  scalarfield := []

/-- The accessor `buffer.at<GimpRGBA>(y, x)` read by `peek`; a position
outside the matrix is a fault. -/
def peek (buffer : Mat K) (x y : Int) : Except Fault (GimpRGBA K) :=
  if 0 ≤ x ∧ x < buffer.cols ∧ 0 ≤ y ∧ y < buffer.rows then
    match buffer.data.get? (y * buffer.cols + x).toNat with
    | some color => .ok color
    | none => .error .outOfRange
  else .error .outOfRange

/-- One wrapped coordinate of `peekmap`: `while (x < 0) x += w; x %= w;`.
Each round adds `w`, so for `w ≥ 1` at most `|x|` rounds run; for `w ≤ 0` and
`x < 0` the source loop never ends, and so do the `|x|` rounds here. -/
def wrap (w x : Int) : Except Fault Int :=
  match whileNegAdd w x.natAbs x with
  | none => .error .nonTermination
  | some x => cmod x w

def peekmap (self : VanGoghLIC K) (scalarfield : List Nat) (x y : Int) : Except Fault Int :=
  match wrap self.effect_width x with
  | .error e => .error e
  | .ok x =>
    match wrap self.effect_height y with
    | .error e => .error e
    | .ok y =>
      if 0 ≤ x + self.effect_width * y then
        match scalarfield.get? (x + self.effect_width * y).toNat with
        | some v => .ok (v : Int)
        | none => .error .outOfRange
      else .error .outOfRange

def gradx (self : VanGoghLIC K) (scalarfield : List Nat) (x y : Int) : Except Fault Int := do
  let val : Int := 0
  let val := val + (← peekmap self scalarfield (x - 1) (y - 1))
  let val := val - (← peekmap self scalarfield (x + 1) (y - 1))
  let val := val + (← peekmap self scalarfield (x - 1) y) * 2
  let val := val - (← peekmap self scalarfield (x + 1) y) * 2
  let val := val + (← peekmap self scalarfield (x - 1) (y + 1))
  let val := val - (← peekmap self scalarfield (x + 1) (y + 1))
  return val

def grady (self : VanGoghLIC K) (scalarfield : List Nat) (x y : Int) : Except Fault Int := do
  let val : Int := 0
  let val := val + (← peekmap self scalarfield (x - 1) (y - 1))
  let val := val + (← peekmap self scalarfield x (y - 1)) * 2
  let val := val + (← peekmap self scalarfield (x + 1) (y - 1))
  let val := val - (← peekmap self scalarfield (x - 1) (y + 1))
  let val := val - (← peekmap self scalarfield x (y + 1)) * 2
  let val := val - (← peekmap self scalarfield (x + 1) (y + 1))
  return val

def cubic (t : K) : K :=
  let a := |t|
  if a < 1 then a * a * (2 * a - 3) + 1 else 0

/-- The function `omega (u, v, i, j)`; its two `while` loops add `numx = numy = 40`
and so always end. -/
def omega (G : Grid K) (u v : K) (i j : Int) : Except Fault K := do
  let i ← (whileNegAdd numx i.natAbs i).elim (.error .nonTermination) .ok
  let j ← (whileNegAdd numy j.natAbs j).elim (.error .nonTermination) .ok
  let i ← cmod i numx
  let j ← cmod j numy
  return cubic u * cubic v * ((G i.toNat j.toNat).1 * u + (G i.toNat j.toNat).2 * v)

/-- The function `noise (x, y)`; the two nested loops over `i = sti, sti + 1`
and `j = stj, stj + 1` are written out in their order. -/
def noise (self : VanGoghLIC K) (G : Grid K) (x y : K) : Except Fault K := do
  let sti : Int := ⌊x / self.dx⌋
  let stj : Int := ⌊y / self.dy⌋
  let term (i j : Int) : Except Fault K :=
    omega G ((x - (i : K) * self.dx) / self.dx) ((y - (j : K) * self.dy) / self.dy) i j
  let sum : K := 0
  let sum := sum + (← term sti stj)
  let sum := sum + (← term sti (stj + 1))
  let sum := sum + (← term (sti + 1) stj)
  let sum := sum + (← term (sti + 1) (stj + 1))
  return sum

/-- The function `generatevectors`: cell `(i, j)` is the `(i * numy + j)`-th
cell written, with the `(i * numy + j)`-th number of a fresh engine. -/
def generatevectors (libm : Libm K) (G : Grid K) : Grid K := fun i j =>
  if i < numx ∧ j < numy then
    let alpha := libm.uniform1 (i * numy + j) * 2 * libm.pi
    (libm.cos alpha, libm.sin alpha)
  else G i j

def filter (self : VanGoghLIC K) (u : K) : K :=
  let f := 1 - |u| / self.l
  if f < 0 then 0 else f

/-- The `for` loop of `lic_noise`, entered with the current `u`, `f1` and `i`:
`for (...; u <= l; u += step) { f2 = ...; i += (f1 + f2) * 0.5 * step; f1 = f2; }`.
It runs at most `fuel` rounds and reports `nonTermination` when the guard
still holds after them.  The loop variable is advanced exactly, `u + step`; in
doubles the accumulated sum can overshoot `l` by a rounding error at the last
node, and the source then runs one round fewer. -/
def lic_noise_loop (self : VanGoghLIC K) (G : Grid K) (xx yy c s step : K) :
    Nat → K → K → K → Except Fault K
  | 0, u, _, i => if u ≤ self.l then .error .nonTermination else .ok i
  | fuel + 1, u, f1, i =>
    if u ≤ self.l then
      match noise self G (xx - u * c) (yy - u * s) with
      | .error e => .error e
      | .ok n =>
        let f2 := filter self u * n
        lic_noise_loop self G xx yy c s step fuel (u + step) f2 (i + (f1 + f2) * (1 / 2) * step)
    else .ok i

/-- The function `lic_noise (x, y, vx, vy)`.  With `l > 0` the loop guard
`u <= l` fails after exactly `⌊isteps⌋` rounds when `isteps > 0` and never
when `isteps < 0`, so `⌊isteps⌋` rounds of fuel decide termination.  For
`isteps = 0` the step of the source is an IEEE infinity; here it is `0` and the
loop is reported as not ending.  For `maxv = minv` the source divides by zero
(an infinity or a NaN, which the clamp then maps into `[0, 1]`), while the
quotient here is `0`; likewise inside `noise` for `dx = 0` or `dy = 0`. -/
def lic_noise (self : VanGoghLIC K) (G : Grid K) (x y : Int) (vx vy : K) : Except Fault K := do
  let step := 2 * self.l / self.isteps
  let xx : K := x
  let yy : K := y
  let c := vx
  let s := vy
  let f1 := filter self (-self.l) * (← noise self G (xx + self.l * c) (yy + self.l * s))
  let i ← lic_noise_loop self G xx yy c s step ⌊self.isteps⌋₊ (-self.l + step) f1 0
  let i := (i - self.minv) / (self.maxv - self.minv)
  let i := CLAMP i 0 1
  let i := i / 2 + 1 / 2
  return i

def getpixel (buffer : Mat K) (u v : K) : Except Fault (GimpRGBA K) := do
  let width : Int := buffer.cols
  let height : Int := buffer.rows
  let x1 := toGint u
  let y1 := toGint v
  let x1 ← (if x1 < 0 then (cmod (-x1) width).map (fun r => width - r) else cmod x1 width)
  let y1 ← (if y1 < 0 then (cmod (-y1) height).map (fun r => height - r) else cmod y1 height)
  let x2 ← cmod (x1 + 1) width
  let y2 ← cmod (y1 + 1) height
  let pp0 ← peek buffer x1 y1
  let pp1 ← peek buffer x2 y1
  let pp2 ← peek buffer x1 y2
  let pp3 ← peek buffer x2 y2
  return gimp_bilinear_rgba u v pp0 pp1 pp2 pp3

/-- The `for` loop of `lic_image`, entered with the current `u`, `col1` and
`col`; fuel and the exact advance of the loop variable as in `lic_noise_loop`. -/
def lic_image_loop (self : VanGoghLIC K) (buffer : Mat K) (xx yy c s step : K) :
    Nat → K → GimpRGBA K → GimpRGBA K → Except Fault (GimpRGBA K)
  | 0, u, _, col => if u ≤ self.l then .error .nonTermination else .ok col
  | fuel + 1, u, col1, col =>
    if u ≤ self.l then
      match getpixel buffer (xx - u * c) (yy - u * s) with
      | .error e => .error e
      | .ok col2 =>
        let col2 := gimp_rgba_multiply col2 (filter self u)
        let col3 := col1
        let col3 := gimp_rgba_add col3 col2
        let col3 := gimp_rgba_multiply col3 (1 / 2 * step)
        lic_image_loop self buffer xx yy c s step fuel (u + step) col2 (gimp_rgba_add col col3)
    else .ok col

/-- The function `lic_image (buffer, x, y, vx, vy, color)`; the result is
`color`.  Fuel as in `lic_noise`. -/
def lic_image (self : VanGoghLIC K) (buffer : Mat K) (x y : Int) (vx vy : K) :
    Except Fault (GimpRGBA K) := do
  let col : GimpRGBA K := ⟨0, 0, 0, 0⟩
  let step := 2 * self.l / self.isteps
  let xx : K := x
  let yy : K := y
  let c := vx
  let s := vy
  let col1 ← getpixel buffer (xx + self.l * c) (yy + self.l * s)
  let col1 := gimp_rgba_multiply col1 (filter self (-self.l))
  let col ← lic_image_loop self buffer xx yy c s step ⌊self.isteps⌋₊ (-self.l + step) col1 col
  let col := gimp_rgba_multiply col (1 / self.l)
  let col := gimp_rgba_clamp col
  return col

/-- The value written to `themap[index]` for one pixel of `rgb_to_hsl`, the
`index`-th pixel in row-major order, which gets the `index`-th random number. -/
def rgb_to_hsl_entry (libm : Libm K) (channel_idx : Int) (color : GimpRGBA K) (index : Nat) : Nat :=
  let color_hsl := gimp_rgba_to_hsl color
  let val := color_hsl.get channel_idx * 255
  let val := val + (libm.uniform1 index * 2 - 1)
  (CLAMP0255 (RINT val)).toNat

/-- The function `rgb_to_hsl (effect_image, effect_channel, themap)`; the
result is `themap`, filled row by row. -/
def rgb_to_hsl (libm : Libm K) (effect_image : Mat K) (effect_channel : Int) :
    Except Fault (List Nat) := do
  let channel_idx : Int :=
    if effect_channel = HUE then 0
    else if effect_channel = SATURATION then 1
    else if effect_channel = BRIGHTNESS then 2 else -1
  if channel_idx = -1 then throw Fault.assertFailed
  forEachPixel effect_image.rows effect_image.cols fun x y => do
    let color ← peek effect_image x y
    return rgb_to_hsl_entry libm channel_idx color (y * effect_image.cols + x)

/-- The vector `(vx, vy)` that `compute_lic` derives from the two gradients:
rotation for `GRADIENT`, then scaling when the length is at least `0.000001`. -/
def flow (libm : Libm K) (effect_operator : EffectOperator) (gx gy : Int) : K × K :=
  let vx : K := gx
  let vy : K := gy
  let (vx, vy) := if effect_operator = .GRADIENT then (vy, -vx) else (vx, vy)
  let tmp := libm.sqrt (vx * vx + vy * vy)
  if tmp ≥ 1 / 1000000 then
    let tmp := 1 / tmp
    (vx * tmp, vy * tmp)
  else (vx, vy)

/-- The body of the two loops of `compute_lic` for the pixel `(xcount, ycount)`:
the colour that is poked into the output image. -/
def compute_lic_pixel (libm : Libm K) (self : VanGoghLIC K) (G : Grid K) (input_image : Mat K)
    (scalarfield : List Nat) (effect_operator : EffectOperator) (xcount ycount : Nat) :
    Except Fault (GimpRGBA K) := do
  let gx ← gradx self scalarfield xcount ycount
  let gy ← grady self scalarfield xcount ycount
  let v := flow libm effect_operator gx gy
  match self.convolve_with with
  | .WHITE_NOISE =>
    let color ← peek input_image xcount ycount
    let tmp ← lic_noise self G xcount ycount v.1 v.2
    return gimp_rgba_multiply color tmp
  | .SOURCE_IMAGE => lic_image self input_image xcount ycount v.1 v.2

/-- The function `compute_lic`.  The loops poke every pixel of the output
image once, row by row, so the image they leave is the list of the poked
colours in that order. -/
def compute_lic (libm : Libm K) (self : VanGoghLIC K) (G : Grid K) (input_image : Mat K)
    (scalarfield : List Nat) (effect_operator : EffectOperator) : Except Fault (Mat K) := do
  let colors ← forEachPixel input_image.rows input_image.cols fun xcount ycount =>
    compute_lic_pixel libm self G input_image scalarfield effect_operator xcount ycount
  return ⟨CV_64FC4, input_image.rows, input_image.cols, colors⟩

/-- The member function `compute (input_image, effect_image, output_image)`. -/
def compute (libm : Libm K) (G : Grid K) (self : VanGoghLIC K) (input_image effect_image : Mat K) :
    Run K :=
  if input_image.type ≠ CV_64FC4 then ⟨G, self, .error .invalidArgument⟩
  else if effect_image.type ≠ CV_64FC4 then ⟨G, self, .error .invalidArgument⟩
  else
    let G := if self.convolve_with = .WHITE_NOISE then generatevectors libm G else G
    let self :=
      if self.filter_length < 1 / 10 then { self with filter_length := 1 / 10 } else self
    let self :=
      { self with
        l := self.filter_length
        dx := self.noise_magnitude
        dy := self.noise_magnitude
        minv := self.minimum_value / 10
        maxv := self.maximum_value / 10
        isteps := self.integration_steps
        effect_width := effect_image.cols
        effect_height := effect_image.rows }
    let themap : Except Fault (List Nat) :=
      if self.effect_channel = HUE then rgb_to_hsl libm effect_image HUE
      else if self.effect_channel = SATURATION then rgb_to_hsl libm effect_image SATURATION
      else if self.effect_channel = BRIGHTNESS then rgb_to_hsl libm effect_image BRIGHTNESS
      else .error .invalidArgument
    match themap with
    | .error e => ⟨G, self, .error e⟩
    | .ok scalarfield =>
      let self := { self with scalarfield := scalarfield }
      ⟨G, self, compute_lic libm self G input_image self.scalarfield self.effect_operator⟩

end VanGoghLIC

/-! ## Definitions that follow the words of the specification -/

/-- The toroidal lookup `f(a, b)` of the specification: the stored entry at
column `a mod W` and row `b mod H` (Euclidean modulo) of a field stored row by row. -/
def lookup (W H : Nat) (f : List Nat) (a b : Int) : Int :=
  (f.getD (a % W + W * (b % H)).toNat 0 : Nat)

/-- The value `gradX` of the specification at the pixel `(x, y)`. -/
def gradXSpec (W H : Nat) (f : List Nat) (x y : Int) : Int :=
  (lookup W H f (x - 1) (y - 1) + 2 * lookup W H f (x - 1) y + lookup W H f (x - 1) (y + 1))
    - (lookup W H f (x + 1) (y - 1) + 2 * lookup W H f (x + 1) y + lookup W H f (x + 1) (y + 1))

/-- The value `gradY` of the specification at the pixel `(x, y)`. -/
def gradYSpec (W H : Nat) (f : List Nat) (x y : Int) : Int :=
  (lookup W H f (x - 1) (y - 1) + 2 * lookup W H f x (y - 1) + lookup W H f (x + 1) (y - 1))
    - (lookup W H f (x - 1) (y + 1) + 2 * lookup W H f x (y + 1) + lookup W H f (x + 1) (y + 1))

/-- The pixel stored at column `x` and row `y` of a matrix (the zero vector
outside it). -/
def Mat.pix {K : Type} [Zero K] (m : Mat K) (x y : Nat) : Vec4d K :=
  m.data.getD (y * m.cols + x) ⟨0, 0, 0, 0⟩

/-- The bilinear blend at `(u, v)` of the four stored pixels whose upper left
one is at column `x1` and row `y1`, the right and lower neighbours wrapping
to column `0` and row `0`. -/
def blendAt {K : Type} [LinearOrderedField K] [FloorRing K] (buffer : Mat K) (u v : K)
    (x1 y1 : Nat) : GimpRGBA K :=
  gimp_bilinear_rgba u v (buffer.pix x1 y1) (buffer.pix ((x1 + 1) % buffer.cols) y1)
    (buffer.pix x1 ((y1 + 1) % buffer.rows))
    (buffer.pix ((x1 + 1) % buffer.cols) ((y1 + 1) % buffer.rows))

/-- The noise field of the specification: with `(sti, stj) = (floor (x/dx),
floor (y/dy))`, the sum over the four cells `i ∈ {sti, sti+1}`,
`j ∈ {stj, stj+1}` of `cubic u * cubic v * (Gx[i,j] * u + Gy[i,j] * v)` where
`u = (x - i dx)/dx`, `v = (y - j dy)/dy` and grid indices wrap modulo 40. -/
def noiseSpec {K : Type} [LinearOrderedField K] [FloorRing K] (G : Grid K) (dx dy x y : K) : K :=
  let cell (i j : Int) : K :=
    VanGoghLIC.cubic ((x - (i : K) * dx) / dx) * VanGoghLIC.cubic ((y - (j : K) * dy) / dy) *
      ((G (i % 40).toNat (j % 40).toNat).1 * ((x - (i : K) * dx) / dx)
        + (G (i % 40).toNat (j % 40).toNat).2 * ((y - (j : K) * dy) / dy))
  cell ⌊x / dx⌋ ⌊y / dy⌋ + cell ⌊x / dx⌋ (⌊y / dy⌋ + 1) + cell (⌊x / dx⌋ + 1) ⌊y / dy⌋
    + cell (⌊x / dx⌋ + 1) (⌊y / dy⌋ + 1)

/-- The `k`-th integration node `u_k = -l + k * step`. -/
def node {K : Type} [LinearOrderedField K] (l step : K) (k : Nat) : K := -l + (k : K) * step

/-- The trapezoidal rule of the specification with `n` panels of width `step`
from `-l`: the sum over `k < n` of `(g (u_k) + g (u_(k+1))) * step / 2`. -/
def trapezoid {K : Type} [LinearOrderedField K] (g : K → K) (l step : K) (n : Nat) : K :=
  ∑ k ∈ Finset.range n, (g (node l step k) + g (node l step (k + 1))) * (1 / 2 * step)

/-- The filter kernel of the specification, `filter (u) = max (0, 1 - |u| / L)`. -/
def tent {K : Type} [LinearOrderedField K] (l u : K) : K := max 0 (1 - |u| / l)

/-- The trapezoidal sum of the filter weights over the `⌊isteps⌋` panels of
width `2 L / isteps` that the integration loops run through. -/
def tentSum {K : Type} [LinearOrderedField K] [FloorRing K] (l isteps : K) : K :=
  trapezoid (tent l) l (2 * l / isteps) ⌊isteps⌋₊

/-- All four channels of a pixel lie in `[0, 1]`. -/
def Vec4d.In01 {K : Type} [LinearOrderedField K] (p : Vec4d K) : Prop :=
  (0 ≤ p.v0 ∧ p.v0 ≤ 1) ∧ (0 ≤ p.v1 ∧ p.v1 ≤ 1) ∧ (0 ≤ p.v2 ∧ p.v2 ≤ 1) ∧ (0 ≤ p.v3 ∧ p.v3 ≤ 1)

/-- The `CV_64FC4` image of the given size whose every pixel is `p`. -/
def uniformImage {K : Type} (rows cols : Nat) (p : Vec4d K) : Mat K :=
  ⟨CV_64FC4, rows, cols, List.replicate (rows * cols) p⟩

/-- The gray pixel `RGBA = (0.5, 0.5, 0.5, 1)`. -/
def gray {K : Type} [LinearOrderedField K] : Vec4d K := ⟨1 / 2, 1 / 2, 1 / 2, 1⟩

/-- The object as the specification describes it once `compute` has set it
up: `filter_length` floored at `0.1`, `l = filter_length`,
`dx = dy = noise_magnitude`, the bounds divided by 10, the step count, the size
of the effect image, and the extracted scalar field. -/
def VanGoghLIC.configured {K : Type} [LinearOrderedField K] (self : VanGoghLIC K)
    (effect_image : Mat K) (scalarfield : List Nat) : VanGoghLIC K :=
  { self with
    filter_length := max self.filter_length (1 / 10)
    l := max self.filter_length (1 / 10)
    dx := self.noise_magnitude
    dy := self.noise_magnitude
    minv := self.minimum_value / 10
    maxv := self.maximum_value / 10
    isteps := self.integration_steps
    effect_width := effect_image.cols
    effect_height := effect_image.rows
    scalarfield := scalarfield }

/-- The grid after `compute` has passed its type checks: regenerated exactly
when the convolution source is `WHITE_NOISE`. -/
def gridAfter {K : Type} [LinearOrderedField K] (libm : Libm K) (G : Grid K)
    (self : VanGoghLIC K) : Grid K :=
  if self.convolve_with = .WHITE_NOISE then VanGoghLIC.generatevectors libm G else G

/-- The scalar of Mode A of the specification for the pixel `(x, y)` with
flow `(vx, vy)`: the trapezoidal integral of `filter (u) * noise (x - u vx,
y - u vy)`, rescaled from `[minv, maxv]` to `[0, 1]`, clamped, then mapped to
`[0.5, 1]`. -/
def noiseScalar {K : Type} [LinearOrderedField K] [FloorRing K] (self : VanGoghLIC K)
    (G : Grid K) (x y : Nat) (vx vy : K) : K :=
  CLAMP ((trapezoid
      (fun u => VanGoghLIC.filter self u *
        noiseSpec G self.dx self.dy ((x : K) - u * vx) ((y : K) - u * vy))
      self.l (2 * self.l / self.isteps) ⌊self.isteps⌋₊ - self.minv)
    / (self.maxv - self.minv)) 0 1 / 2 + 1 / 2

/-- A grid entry `(G0, G1)` has unit length: `G0² + G1² = 1`. -/
def unitLength {K : Type} [LinearOrderedField K] (p : K × K) : Prop := p.1 * p.1 + p.2 * p.2 = 1

/-- The grids a process can hold: the zero-initialised array of process start,
and the grid left by a call of `compute`, with any object and any two images,
made when the process holds such a grid. -/
inductive ReachableGrid {K : Type} [LinearOrderedField K] [FloorRing K] (libm : Libm K) :
    Grid K → Prop where
  | start : ReachableGrid libm Grid.start
  | call (G : Grid K) (self : VanGoghLIC K) (input_image effect_image : Mat K) :
      ReachableGrid libm G →
      ReachableGrid libm (VanGoghLIC.compute libm G self input_image effect_image).G

/-! ## Concrete inputs used to evaluate the definitions -/

/-- An object whose `effect_width`, `effect_height` are `3` and `2`. -/
def self32 : VanGoghLIC ℚ :=
  { (VanGoghLIC.new : VanGoghLIC ℚ) with effect_width := 3, effect_height := 2 }

/-- A scalar field of 3 columns and 2 rows. -/
def field32 : List Nat := [10, 20, 40, 80, 160, 255]

/-- Library functions over `ℚ` for evaluation: the rational square root of
Mathlib (exact on squares of rationals), a random stream that always draws `0`
(so that every angle of `generatevectors` is `0` and every dither is `-1`), and
for the cosine and sine their series cut after the second term, exact at the
angle `0`. -/
def libq : Libm ℚ :=
  ⟨Rat.sqrt, fun a => 1 - a * a / 2, fun a => a, 355 / 113, fun _ => 0⟩

/-- An image of one row and one column holding the pixel `p`. -/
def onePixel (p : Vec4d ℚ) : Mat ℚ := ⟨CV_64FC4, 1, 1, [p]⟩

/-- An image of one row and three columns: an opaque red, green and blue pixel. -/
def rgb3 : Mat ℚ := ⟨CV_64FC4, 1, 3, [⟨1, 0, 0, 1⟩, ⟨0, 1, 0, 1⟩, ⟨0, 0, 1, 1⟩]⟩

/-- The default object set to convolve with white noise in two steps. -/
def selfNoise : VanGoghLIC ℚ :=
  { (VanGoghLIC.new : VanGoghLIC ℚ) with convolve_with := .WHITE_NOISE, integration_steps := 2 }

/-- The default object with the integration step count `-1`. -/
def selfNegativeSteps : VanGoghLIC ℚ :=
  { (VanGoghLIC.new : VanGoghLIC ℚ) with integration_steps := -1 }

/-- The default object with the integration step count `4`. -/
def selfFourSteps : VanGoghLIC ℚ :=
  { (VanGoghLIC.new : VanGoghLIC ℚ) with integration_steps := 4 }

/-- A scalar field of 3 columns and 2 rows whose entries are all `7`. -/
def fieldConst32 : List Nat := [7, 7, 7, 7, 7, 7]

/-- A matrix that is not `CV_64FC4`: the type code `0` is `CV_8UC1`. -/
def badTypeImage : Mat ℚ := ⟨0, 1, 1, []⟩

/-- The default object with `filter_length` set to `0.01`, below the floor. -/
def selfShortFilter : VanGoghLIC ℚ :=
  { (VanGoghLIC.new : VanGoghLIC ℚ) with filter_length := 1 / 100 }

/-- An image of two rows and two columns. -/
def image22 : Mat ℚ :=
  ⟨CV_64FC4, 2, 2, [⟨1, 0, 0, 1⟩, ⟨0, 1, 0, 1⟩, ⟨0, 0, 1, 1⟩, ⟨1, 1, 1, 1⟩]⟩

/-- A grid whose every entry is `(3, 4)`. -/
def gridThreeFour : Grid ℚ := fun _ _ => (3, 4)


/-! ## Sequencing in `Except` -/

theorem mapM_except_ok {ε α β : Type} (f : α → Except ε β) (g : α → β) :
    ∀ l : List α, (∀ a ∈ l, f a = .ok (g a)) → l.mapM f = .ok (l.map g) := by
  intro l
  induction l with
  | nil => intro _; rfl
  | cons a t ih =>
    intro h
    rw [List.mapM_cons, h a (List.mem_cons_self a t), ih (fun b hb => h b (List.mem_cons_of_mem a hb))]
    rfl

theorem mapM_except_forall₂ {ε α β : Type} (f : α → Except ε β) :
    ∀ (l : List α) (r : List β), l.mapM f = .ok r → List.Forall₂ (fun a b => f a = .ok b) l r := by
  intro l
  induction l with
  | nil =>
    intro r h
    rw [List.mapM_nil] at h
    cases h
    exact List.Forall₂.nil
  | cons a t ih =>
    intro r h
    rw [List.mapM_cons] at h
    cases hfa : f a with
    | error e => rw [hfa] at h; cases h
    | ok b =>
      rw [hfa] at h
      cases ht : t.mapM f with
      | error e => rw [ht] at h; cases h
      | ok r' =>
        rw [ht] at h
        cases h
        exact List.Forall₂.cons hfa (ih r' ht)

theorem mapM_except_error {ε α β : Type} (f : α → Except ε β) (e : ε) :
    ∀ l : List α, l.mapM f = .error e → ∃ a ∈ l, f a = .error e := by
  intro l
  induction l with
  | nil => intro h; rw [List.mapM_nil] at h; cases h
  | cons a t ih =>
    intro h
    rw [List.mapM_cons] at h
    cases hfa : f a with
    | error e' =>
      rw [hfa] at h
      cases h
      exact ⟨a, List.mem_cons_self a t, hfa⟩
    | ok b =>
      rw [hfa] at h
      cases ht : t.mapM f with
      | error e' =>
        rw [ht] at h
        cases h
        obtain ⟨x, hx, hfx⟩ := ih ht
        exact ⟨x, List.mem_cons_of_mem a hx, hfx⟩
      | ok r' => rw [ht] at h; cases h

theorem flatten_get? {β : Type} (c : Nat) :
    ∀ (L : List (List β)), (∀ row ∈ L, row.length = c) → ∀ (y x : Nat), x < c →
      L.flatten.get? (y * c + x) = (L.get? y).bind fun row => row.get? x := by
  intro L
  induction L with
  | nil => intro _ y x _; simp
  | cons row t ih =>
    intro h y x hx
    have hrow : row.length = c := h row (List.mem_cons_self row t)
    cases y with
    | zero =>
      simp only [List.flatten_cons, Nat.zero_mul, Nat.zero_add, List.get?_eq_getElem?,
        List.getElem?_cons_zero, Option.some_bind]
      rw [List.getElem?_append_left (by omega)]
    | succ y =>
      have hidx : (y + 1) * c + x = row.length + (y * c + x) := by rw [hrow]; ring
      simp only [List.flatten_cons, List.get?_eq_getElem?, List.getElem?_cons_succ, hidx]
      rw [List.getElem?_append_right (by omega)]
      have := ih (fun r hr => h r (List.mem_cons_of_mem row hr)) y x hx
      simp only [List.get?_eq_getElem?] at this
      simpa using this

theorem flatten_length_of_rows {β : Type} (c : Nat) :
    ∀ (L : List (List β)), (∀ row ∈ L, row.length = c) → L.flatten.length = L.length * c := by
  intro L
  induction L with
  | nil => intro _; simp
  | cons row t ih =>
    intro h
    rw [List.flatten_cons, List.length_append, ih (fun r hr => h r (List.mem_cons_of_mem row hr)),
      h row (List.mem_cons_self row t), List.length_cons]
    ring

/-- When the body succeeds at every position, the loop nest returns the list of
its values, `rows * cols` of them, the value for `(x, y)` at index `y * cols + x`. -/
theorem forEachPixel_ok {β : Type} (rows cols : Nat) (body : Nat → Nat → Except Fault β)
    (g : Nat → Nat → β) (h : ∀ y, y < rows → ∀ x, x < cols → body x y = .ok (g x y)) :
    ∃ L, forEachPixel rows cols body = .ok L ∧ L.length = rows * cols ∧
      ∀ y, y < rows → ∀ x, x < cols → L.get? (y * cols + x) = some (g x y) := by
  have hrow : ∀ y ∈ List.range rows,
      (List.range cols).mapM (fun x => body x y) = .ok ((List.range cols).map fun x => g x y) := by
    intro y hy
    exact mapM_except_ok _ _ _ (fun x hx => h y (List.mem_range.mp hy) x (List.mem_range.mp hx))
  have hall := mapM_except_ok (fun y => (List.range cols).mapM fun x => body x y)
    (fun y => (List.range cols).map fun x => g x y) (List.range rows) hrow
  have hlen : ∀ row ∈ (List.range rows).map (fun y => (List.range cols).map fun x => g x y),
      row.length = cols := by
    intro row hr
    obtain ⟨y, _, rfl⟩ := List.mem_map.mp hr
    simp
  refine ⟨_, by rw [forEachPixel, hall]; rfl, ?_, ?_⟩
  · rw [flatten_length_of_rows cols _ hlen]; simp
  · intro y hy x hx
    rw [flatten_get? cols _ hlen y x hx]
    simp [hy, hx]

/-- When the loop nest returns a list, the body succeeded at every position and
the list holds its values, the value for `(x, y)` at index `y * cols + x`. -/
theorem forEachPixel_inv {β : Type} (rows cols : Nat) (body : Nat → Nat → Except Fault β)
    (L : List β) (h : forEachPixel rows cols body = .ok L) :
    L.length = rows * cols ∧
      ∀ y, y < rows → ∀ x, x < cols → ∃ v, body x y = .ok v ∧ L.get? (y * cols + x) = some v := by
  unfold forEachPixel at h
  cases hR : (List.range rows).mapM (fun y => (List.range cols).mapM fun x => body x y) with
  | error e => rw [hR] at h; cases h
  | ok R =>
    rw [hR] at h
    have hL : L = R.flatten := by cases h; rfl
    have hF := mapM_except_forall₂ _ _ _ hR
    have hRlen : R.length = rows := by simpa using hF.length_eq.symm
    have hrows : ∀ y (hy : y < rows), List.Forall₂ (fun x v => body x y = .ok v) (List.range cols)
        (R.get ⟨y, by omega⟩) := by
      intro y hy
      have := List.forall₂_iff_get.mp hF |>.2 y (by simpa using hy) (by omega)
      simp only [List.get_eq_getElem, List.getElem_range] at this
      exact mapM_except_forall₂ _ _ _ this
    have hlen : ∀ row ∈ R, row.length = cols := by
      intro row hr
      obtain ⟨i, hi, rfl⟩ := List.getElem_of_mem hr
      have := (hrows i (by omega)).length_eq
      simpa using this.symm
    subst hL
    refine ⟨by rw [flatten_length_of_rows cols R hlen, hRlen], ?_⟩
    intro y hy x hx
    have hrl : (R.get ⟨y, by omega⟩).length = cols := hlen _ (List.get_mem _ _ _)
    have hx' : x < (R.get ⟨y, by omega⟩).length := by omega
    refine ⟨(R.get ⟨y, by omega⟩).get ⟨x, hx'⟩, ?_, ?_⟩
    · have := (List.forall₂_iff_get.mp (hrows y hy)).2 x (by simpa using hx) hx'
      simpa using this
    · rw [flatten_get? cols R hlen y x hx]
      simp [List.getElem?_eq_getElem (show y < R.length by omega), List.getElem?_eq_getElem hx']

/-- When the loop nest ends with a fault, the body ended with it at some position. -/
theorem forEachPixel_error {β : Type} (rows cols : Nat) (body : Nat → Nat → Except Fault β)
    (e : Fault) (h : forEachPixel rows cols body = .error e) :
    ∃ y, y < rows ∧ ∃ x, x < cols ∧ body x y = .error e := by
  unfold forEachPixel at h
  cases hR : (List.range rows).mapM (fun y => (List.range cols).mapM fun x => body x y) with
  | ok R => rw [hR] at h; cases h
  | error e' =>
    rw [hR] at h
    have he : e' = e := by cases h; rfl
    subst he
    obtain ⟨y, hy, hrow⟩ := mapM_except_error _ _ _ hR
    obtain ⟨x, hx, hb⟩ := mapM_except_error _ _ _ hrow
    exact ⟨y, List.mem_range.mp hy, x, List.mem_range.mp hx, hb⟩


namespace VanGoghLIC

theorem whileNegAdd_of_pos (w : Int) (hw : 0 < w) :
    ∀ (fuel : Nat) (x : Int), -x ≤ fuel →
      ∃ r, whileNegAdd w fuel x = some r ∧ 0 ≤ r ∧ r % w = x % w := by
  intro fuel
  induction fuel with
  | zero =>
    intro x hx
    have h0 : ¬ x < 0 := by simp at hx; omega
    exact ⟨x, by simp [whileNegAdd, h0], by omega, rfl⟩
  | succ n ih =>
    intro x hx
    by_cases h0 : x < 0
    · obtain ⟨r, hr, hr0, hrm⟩ := ih (x + w) (by push_cast at hx; omega)
      refine ⟨r, by simp [whileNegAdd, h0, hr], hr0, ?_⟩
      rw [hrm, Int.add_emod_self]
    · exact ⟨x, by simp [whileNegAdd, h0], by omega, rfl⟩

theorem wrap_of_pos (w : Int) (hw : 0 < w) (x : Int) : wrap w x = .ok (x % w) := by
  obtain ⟨r, hr, hr0, hrm⟩ := whileNegAdd_of_pos w hw x.natAbs x (by omega)
  have hne : w ≠ 0 := by omega
  simp only [wrap, hr, cmod, hne, if_false]
  rw [Int.tmod_eq_emod hr0 (le_of_lt hw), hrm]

theorem toroidal_index_lt (W H : Nat) (hW : 0 < W) (hH : 0 < H) (a b : Int) :
    0 ≤ a % (W : Int) + W * (b % (H : Int)) ∧ (a % (W : Int) + W * (b % (H : Int))).toNat < W * H := by
  have hW' : (0 : Int) < W := by exact_mod_cast hW
  have hH' : (0 : Int) < H := by exact_mod_cast hH
  have h1 := Int.emod_nonneg a (ne_of_gt hW')
  have h2 := Int.emod_lt_of_pos a hW'
  have h3 := Int.emod_nonneg b (ne_of_gt hH')
  have h4 := Int.emod_lt_of_pos b hH'
  have h5 : (W : Int) * (b % (H : Int)) ≤ W * (H - 1) :=
    mul_le_mul_of_nonneg_left (by omega) (le_of_lt hW')
  have h6 : 0 ≤ (W : Int) * (b % (H : Int)) := mul_nonneg (le_of_lt hW') h3
  refine ⟨by omega, ?_⟩
  have : a % (W : Int) + W * (b % (H : Int)) < (W : Int) * H := by nlinarith
  zify
  rw [Int.toNat_of_nonneg (by omega)]
  exact this

theorem peekmap_eq {K : Type} [LinearOrderedField K] [FloorRing K] (self : VanGoghLIC K)
    (f : List Nat) (W H : Nat) (hW : 0 < W) (hH : 0 < H)
    (hw : self.effect_width = W) (hh : self.effect_height = H) (hlen : f.length = W * H)
    (a b : Int) : peekmap self f a b = .ok (lookup W H f a b) := by
  obtain ⟨h0, hlt⟩ := toroidal_index_lt W H hW hH a b
  have hW' : (0 : Int) < W := by exact_mod_cast hW
  have hH' : (0 : Int) < H := by exact_mod_cast hH
  simp only [peekmap, hw, hh, wrap_of_pos _ hW', wrap_of_pos _ hH', h0, if_true, lookup]
  rw [← hlen] at hlt
  simp only [List.get?_eq_getElem?, List.getD_eq_getElem?_getD, List.getElem?_eq_getElem hlt,
    Option.getD_some]

theorem gradx_eq {K : Type} [LinearOrderedField K] [FloorRing K] (self : VanGoghLIC K)
    (f : List Nat) (W H : Nat) (hW : 1 ≤ W) (hH : 1 ≤ H)
    (hw : self.effect_width = W) (hh : self.effect_height = H) (hlen : f.length = W * H)
    (x y : Int) :
    gradx self f x y = .ok
      ((lookup W H f (x - 1) (y - 1) + 2 * lookup W H f (x - 1) y + lookup W H f (x - 1) (y + 1))
        - (lookup W H f (x + 1) (y - 1) + 2 * lookup W H f (x + 1) y
            + lookup W H f (x + 1) (y + 1))) := by
  simp only [gradx, peekmap_eq self f W H hW hH hw hh hlen]
  simp only [bind, Except.bind, pure, Except.pure]
  congr 1
  ring

theorem grady_eq {K : Type} [LinearOrderedField K] [FloorRing K] (self : VanGoghLIC K)
    (f : List Nat) (W H : Nat) (hW : 1 ≤ W) (hH : 1 ≤ H)
    (hw : self.effect_width = W) (hh : self.effect_height = H) (hlen : f.length = W * H)
    (x y : Int) :
    grady self f x y = .ok
      ((lookup W H f (x - 1) (y - 1) + 2 * lookup W H f x (y - 1) + lookup W H f (x + 1) (y - 1))
        - (lookup W H f (x - 1) (y + 1) + 2 * lookup W H f x (y + 1)
            + lookup W H f (x + 1) (y + 1))) := by
  simp only [grady, peekmap_eq self f W H hW hH hw hh hlen]
  simp only [bind, Except.bind, pure, Except.pure]
  congr 1
  ring

/-- C4: on a field of `W` columns and `H` rows (both at least 1) `peekmap`
returns, for every pair of integers, the entry stored at column `a mod W` and
row `b mod H`, whose index lies inside the field; `gradx` and `grady` return the
two differences of weighted sums of those toroidal lookups. -/
theorem gradx_grady_toroidal {K : Type} [LinearOrderedField K] [FloorRing K]
    (self : VanGoghLIC K) (f : List Nat) (W H : Nat) (hW : 1 ≤ W) (hH : 1 ≤ H)
    (hw : self.effect_width = W) (hh : self.effect_height = H) (hlen : f.length = W * H)
    (x y : Int) :
    (∀ a b : Int, 0 ≤ a % (W : Int) + W * (b % (H : Int)) ∧
        (a % (W : Int) + W * (b % (H : Int))).toNat < f.length ∧
        peekmap self f a b = .ok (lookup W H f a b)) ∧
    gradx self f x y = .ok
      ((lookup W H f (x - 1) (y - 1) + 2 * lookup W H f (x - 1) y + lookup W H f (x - 1) (y + 1))
        - (lookup W H f (x + 1) (y - 1) + 2 * lookup W H f (x + 1) y
            + lookup W H f (x + 1) (y + 1))) ∧
    grady self f x y = .ok
      ((lookup W H f (x - 1) (y - 1) + 2 * lookup W H f x (y - 1) + lookup W H f (x + 1) (y - 1))
        - (lookup W H f (x - 1) (y + 1) + 2 * lookup W H f x (y + 1)
            + lookup W H f (x + 1) (y + 1))) := by
  refine ⟨fun a b => ?_, gradx_eq self f W H hW hH hw hh hlen x y,
    grady_eq self f W H hW hH hw hh hlen x y⟩
  obtain ⟨h0, hlt⟩ := toroidal_index_lt W H hW hH a b
  exact ⟨h0, hlen ▸ hlt, peekmap_eq self f W H hW hH hw hh hlen a b⟩

/-- C4 at a concrete input: a field of 3 columns and 2 rows, read at the pixel
`(-1, 7)` outside it. -/
theorem gradx_grady_toroidal_witness :
    gradx self32 field32 (-1) 7 = .ok 180 ∧ grady self32 field32 (-1) 7 = .ok 0 := by
  have h := gradx_grady_toroidal self32 field32 3 2 (by decide) (by decide) rfl rfl rfl (-1) 7
  exact ⟨h.2.1.trans (congrArg Except.ok (by decide)), h.2.2.trans (congrArg Except.ok (by decide))⟩

end VanGoghLIC


namespace VanGoghLIC

theorem flow_derivative {K : Type} [LinearOrderedField K] [FloorRing K] (libm : Libm K)
    (gx gy : Int) :
    flow libm .DERIVATIVE gx gy =
      if libm.sqrt ((gx : K) * gx + (gy : K) * gy) ≥ 1 / 1000000 then
        ((gx : K) * (1 / libm.sqrt ((gx : K) * gx + (gy : K) * gy)),
          (gy : K) * (1 / libm.sqrt ((gx : K) * gx + (gy : K) * gy)))
      else ((gx : K), (gy : K)) := rfl

theorem flow_gradient {K : Type} [LinearOrderedField K] [FloorRing K] (libm : Libm K)
    (gx gy : Int) :
    flow libm .GRADIENT gx gy =
      if libm.sqrt ((gx : K) * gx + (gy : K) * gy) ≥ 1 / 1000000 then
        ((gy : K) * (1 / libm.sqrt ((gx : K) * gx + (gy : K) * gy)),
          -(gx : K) * (1 / libm.sqrt ((gx : K) * gx + (gy : K) * gy)))
      else ((gy : K), -(gx : K)) := by
  have harg : (gy : K) * gy + -(gx : K) * -(gx : K) = (gx : K) * gx + (gy : K) * gy := by ring
  have h : flow libm .GRADIENT gx gy =
      if libm.sqrt ((gy : K) * gy + -(gx : K) * -(gx : K)) ≥ 1 / 1000000 then
        ((gy : K) * (1 / libm.sqrt ((gy : K) * gy + -(gx : K) * -(gx : K))),
          -(gx : K) * (1 / libm.sqrt ((gy : K) * gy + -(gx : K) * -(gx : K))))
      else ((gy : K), -(gx : K)) := rfl
  rw [h, harg]

end VanGoghLIC


namespace VanGoghLIC

theorem toGint_intCast {K : Type} [LinearOrderedField K] [FloorRing K] (z : Int) :
    toGint (z : K) = z := by
  unfold toGint
  split <;> simp

theorem toGint_of_nonneg {K : Type} [LinearOrderedField K] [FloorRing K] (u : K) (hu : 0 ≤ u) :
    toGint u = (⌊u⌋₊ : Int) := by
  simp only [toGint, hu, if_true]
  exact (Int.natCast_floor_eq_floor hu).symm

theorem fmod1_intCast {K : Type} [LinearOrderedField K] [FloorRing K] (z : Int) :
    fmod1 (z : K) = 0 := by
  simp [fmod1, toGint_intCast]

theorem cmod_natCast (a b : Nat) (hb : 0 < b) :
    cmod (a : Int) (b : Int) = .ok ((a % b : Nat) : Int) := by
  have hne : (b : Int) ≠ 0 := by omega
  simp only [cmod, hne, if_false]
  rw [Int.tmod_eq_emod (by omega) (by omega)]
  norm_cast

/-- A position inside a well-formed matrix is read without fault and yields
the stored pixel. -/
theorem peek_of_WF {K : Type} [Zero K] (buffer : Mat K) (hwf : buffer.WF) (x y : Nat)
    (hx : x < buffer.cols) (hy : y < buffer.rows) :
    peek buffer x y = .ok (buffer.pix x y) := by
  have hlt : y * buffer.cols + x < buffer.data.length := by
    rw [hwf]
    calc y * buffer.cols + x < y * buffer.cols + buffer.cols := by omega
      _ = (y + 1) * buffer.cols := by ring
      _ ≤ buffer.rows * buffer.cols := Nat.mul_le_mul_right _ hy
  have hidx : ((y : Int) * buffer.cols + x).toNat = y * buffer.cols + x := by
    have : ((y : Int) * buffer.cols + x) = ((y * buffer.cols + x : Nat) : Int) := by push_cast; ring
    rw [this, Int.toNat_ofNat]
  have hc : (0 : Int) ≤ x ∧ (x : Int) < buffer.cols ∧ (0 : Int) ≤ y ∧ (y : Int) < buffer.rows :=
    ⟨by omega, by exact_mod_cast hx, by omega, by exact_mod_cast hy⟩
  simp only [peek, hc, and_self, if_true, hidx, List.get?_eq_getElem?,
    List.getElem?_eq_getElem hlt, Mat.pix, List.getD_eq_getElem?_getD, Option.getD_some]

/-- Once the two wrapped cell indices `x1`, `y1` are inside a well-formed image,
`getpixel` returns the blend of the four pixels around them. -/
theorem getpixel_of_cells {K : Type} [LinearOrderedField K] [FloorRing K] (buffer : Mat K)
    (hwf : buffer.WF) (u v : K) (a b : Nat) (ha : a < buffer.cols) (hb : b < buffer.rows)
    (hx : (if toGint u < 0 then (cmod (-toGint u) buffer.cols).map (fun r => (buffer.cols : Int) - r)
            else cmod (toGint u) buffer.cols) = .ok (a : Int))
    (hy : (if toGint v < 0 then (cmod (-toGint v) buffer.rows).map (fun r => (buffer.rows : Int) - r)
            else cmod (toGint v) buffer.rows) = .ok (b : Int)) :
    getpixel buffer u v = .ok (blendAt buffer u v a b) := by
  have hc : 0 < buffer.cols := by omega
  have hr : 0 < buffer.rows := by omega
  have hx2 : cmod ((a : Int) + 1) buffer.cols = .ok (((a + 1) % buffer.cols : Nat) : Int) := by
    have := cmod_natCast (a + 1) buffer.cols hc
    simpa using this
  have hy2 : cmod ((b : Int) + 1) buffer.rows = .ok (((b + 1) % buffer.rows : Nat) : Int) := by
    have := cmod_natCast (b + 1) buffer.rows hr
    simpa using this
  have ha2 : (a + 1) % buffer.cols < buffer.cols := Nat.mod_lt _ hc
  have hb2 : (b + 1) % buffer.rows < buffer.rows := Nat.mod_lt _ hr
  simp only [getpixel, hx, hy, bind, Except.bind, hx2, hy2, peek_of_WF buffer hwf _ _ ha hb,
    peek_of_WF buffer hwf _ _ ha2 hb, peek_of_WF buffer hwf _ _ ha hb2,
    peek_of_WF buffer hwf _ _ ha2 hb2, pure, Except.pure, blendAt]

/-- For non-negative coordinates the cell of `getpixel` is the integer part of
each coordinate, wrapped into the image. -/
theorem getpixel_of_nonneg {K : Type} [LinearOrderedField K] [FloorRing K] (buffer : Mat K)
    (hwf : buffer.WF) (hc : 0 < buffer.cols) (hr : 0 < buffer.rows) (u v : K)
    (hu : 0 ≤ u) (hv : 0 ≤ v) :
    getpixel buffer u v = .ok (blendAt buffer u v (⌊u⌋₊ % buffer.cols) (⌊v⌋₊ % buffer.rows)) := by
  apply getpixel_of_cells buffer hwf u v _ _ (Nat.mod_lt _ hc) (Nat.mod_lt _ hr)
  · rw [toGint_of_nonneg u hu, if_neg (by omega)]
    exact cmod_natCast _ _ hc
  · rw [toGint_of_nonneg v hv, if_neg (by omega)]
    exact cmod_natCast _ _ hr

/-- With both fractional parts zero the bilinear blend reads `values[0]` alone. -/
theorem gimp_bilinear_rgba_intCast {K : Type} [LinearOrderedField K] [FloorRing K]
    (zx zy : Int) (p0 p1 p2 p3 : GimpRGBA K) :
    gimp_bilinear_rgba (zx : K) (zy : K) p0 p1 p2 p3 =
      if 0 < p0.v3 then p0 else ⟨0, 0, 0, p0.v3⟩ := by
  simp only [gimp_bilinear_rgba, fmod1_intCast, lt_irrefl, if_false, sub_zero, one_mul, zero_mul,
    add_zero]
  split
  · next h =>
    have hne : p0.v3 ≠ 0 := ne_of_gt h
    cases p0
    simp only [Vec4d.mk.injEq, and_true] at *
    refine ⟨?_, ?_, ?_⟩ <;> field_simp
  · rfl

/-- C9, amended: at exact integer coordinates inside a well-formed image
`getpixel` returns the stored pixel unchanged when its alpha is positive, and
otherwise the colour `(0, 0, 0)` with the stored alpha. -/
theorem getpixel_at_integer {K : Type} [LinearOrderedField K] [FloorRing K] (buffer : Mat K)
    (hwf : buffer.WF) (x y : Nat) (hx : x < buffer.cols) (hy : y < buffer.rows) :
    getpixel buffer (x : K) (y : K) =
      .ok (if 0 < (buffer.pix x y).v3 then buffer.pix x y
           else ⟨0, 0, 0, (buffer.pix x y).v3⟩) := by
  rw [getpixel_of_nonneg buffer hwf (by omega) (by omega) _ _ (Nat.cast_nonneg x)
    (Nat.cast_nonneg y)]
  simp only [Nat.floor_natCast, Nat.mod_eq_of_lt hx, Nat.mod_eq_of_lt hy, blendAt]
  have := gimp_bilinear_rgba_intCast (K := K) (x : Int) (y : Int)
  simp only [Int.cast_natCast] at this
  rw [this]

/-- C9 at a concrete input: the opaque green pixel of `rgb3` is returned as stored. -/
theorem getpixel_at_integer_witness : getpixel rgb3 ((1 : Nat) : ℚ) ((0 : Nat) : ℚ) = .ok ⟨0, 1, 0, 1⟩ :=
  (getpixel_at_integer rgb3 rfl 1 0 (by decide) (by decide)).trans (by decide!)

/-- C9 as stated fails: a stored pixel with alpha `0` and colour `(1, 1/2, 1/4)`
is returned with the colour `(0, 0, 0)`. -/
theorem getpixel_transparent_counterexample :
    peek (onePixel ⟨1, 1 / 2, 1 / 4, 0⟩) 0 0 = .ok ⟨1, 1 / 2, 1 / 4, 0⟩ ∧
      getpixel (onePixel ⟨1, 1 / 2, 1 / 4, 0⟩) 0 0 = .ok ⟨0, 0, 0, 0⟩ := by
  decide!

end VanGoghLIC


namespace VanGoghLIC

/-- Two calls of `getpixel` in the same row agree when their `x` coordinates
wrap to the same cell and have the same fractional part. -/
theorem getpixel_congr_x {K : Type} [LinearOrderedField K] [FloorRing K] (buffer : Mat K)
    (u w v : K) (hfrac : fmod1 u = fmod1 w)
    (hcell : (if toGint u < 0
        then (cmod (-toGint u) buffer.cols).map (fun r => (buffer.cols : Int) - r)
        else cmod (toGint u) buffer.cols) =
      (if toGint w < 0
        then (cmod (-toGint w) buffer.cols).map (fun r => (buffer.cols : Int) - r)
        else cmod (toGint w) buffer.cols)) :
    getpixel buffer u v = getpixel buffer w v := by
  simp only [getpixel, gimp_bilinear_rgba, hfrac, hcell]

/-- The part of C8 that holds: on an image at least two pixels wide, sampling
at `x = -1` equals sampling at `x = width - 1`; on every image, sampling at
`x = width` equals sampling at `x = 0`. -/
theorem getpixel_wrap_x {K : Type} [LinearOrderedField K] [FloorRing K] (buffer : Mat K) (v : K) :
    (2 ≤ buffer.cols → getpixel buffer (-1) v = getpixel buffer ((buffer.cols : K) - 1) v) ∧
      getpixel buffer (buffer.cols : K) v = getpixel buffer 0 v := by
  constructor
  · intro h2
    have e1 : (-1 : K) = ((-1 : Int) : K) := by simp
    have e2 : (buffer.cols : K) - 1 = (((buffer.cols : Int) - 1 : Int) : K) := by simp
    rw [e1, e2]
    apply getpixel_congr_x
    · rw [fmod1_intCast, fmod1_intCast]
    · rw [toGint_intCast, toGint_intCast, if_pos (by decide), if_neg (by omega)]
      have hne : (buffer.cols : Int) ≠ 0 := by omega
      simp only [cmod, hne, if_false, Except.map, neg_neg]
      rw [Int.tmod_eq_emod (by omega) (by omega), Int.tmod_eq_emod (by omega) (by omega),
        Int.emod_eq_of_lt (by omega) (by omega), Int.emod_eq_of_lt (by omega) (by omega)]
  · have e1 : (buffer.cols : K) = (((buffer.cols : Int)) : K) := by simp
    have e2 : (0 : K) = ((0 : Int) : K) := by simp
    rw [e1, e2]
    apply getpixel_congr_x
    · rw [fmod1_intCast, fmod1_intCast]
    · rw [toGint_intCast, toGint_intCast, if_neg (by omega), if_neg (by omega)]
      simp only [cmod]
      split
      · rfl
      · simp

/-- C8 at its failing input: on an image one pixel wide, `getpixel` at `x = -1`
reads column `1`, outside the image, while at `x = width - 1 = 0` it returns
the stored pixel. -/
theorem getpixel_minus_one_width_one :
    getpixel (onePixel ⟨1, 1 / 2, 1 / 4, 1⟩) (-1) 0 = .error .outOfRange ∧
      getpixel (onePixel ⟨1, 1 / 2, 1 / 4, 1⟩) (((onePixel ⟨1, 1 / 2, 1 / 4, 1⟩).cols : ℚ) - 1) 0
        = .ok ⟨1, 1 / 2, 1 / 4, 1⟩ := by
  decide!

/-- C7 at its failing inputs, on an image of width 3: the sample at `u = -1/2`
blends columns 0 and 1 while the sample one period further, at `u = -1/2 + 3`,
blends columns 2 and 0; and the sample at `u = 0 - 3` reads column `3`, outside
the image, while the sample at `u = 0` returns the stored pixel. -/
theorem getpixel_not_periodic :
    getpixel rgb3 (-1 / 2) 0 = .ok ⟨1 / 2, 1 / 2, 0, 1⟩ ∧
      getpixel rgb3 (-1 / 2 + 1 * (rgb3.cols : ℚ)) 0 = .ok ⟨1 / 2, 0, 1 / 2, 1⟩ ∧
      getpixel rgb3 (0 + (-1) * (rgb3.cols : ℚ)) 0 = .error .outOfRange ∧
      getpixel rgb3 0 0 = .ok ⟨1, 0, 0, 1⟩ := by
  decide!

end VanGoghLIC


namespace VanGoghLIC

theorem CLAMP0255_eq (z : Int) : CLAMP0255 z = min 255 (max 0 z) := by
  simp only [CLAMP0255, CLAMP]
  omega

theorem rgb_to_hsl_entry_eq {K : Type} [LinearOrderedField K] [FloorRing K] (libm : Libm K)
    (idx : Int) (color : GimpRGBA K) (index : Nat) :
    rgb_to_hsl_entry libm idx color index ≤ 255 ∧
      (rgb_to_hsl_entry libm idx color index : Int) =
        min 255 (max 0 ⌊255 * (gimp_rgba_to_hsl color).get idx
          + (libm.uniform1 index * 2 - 1) + 1 / 2⌋) := by
  have harg : (gimp_rgba_to_hsl color).get idx * 255 + (libm.uniform1 index * 2 - 1) + 1 / 2
      = 255 * (gimp_rgba_to_hsl color).get idx + (libm.uniform1 index * 2 - 1) + 1 / 2 := by ring
  simp only [rgb_to_hsl_entry, RINT, CLAMP0255_eq, harg]
  omega

theorem rgb_to_hsl_of_valid {K : Type} [LinearOrderedField K] [FloorRing K] (libm : Libm K)
    (effect_image : Mat K) (ch : Int) (hch : ch = HUE ∨ ch = SATURATION ∨ ch = BRIGHTNESS) :
    rgb_to_hsl libm effect_image ch =
      forEachPixel effect_image.rows effect_image.cols fun x y =>
        (peek effect_image x y).map fun color =>
          rgb_to_hsl_entry libm ch color (y * effect_image.cols + x) := by
  rcases hch with h | h | h <;> subst h <;> rfl

/-- For a well-formed effect image and each of the three channel selectors,
`rgb_to_hsl` returns a field of `cols * rows` entries. -/
theorem rgb_to_hsl_returns {K : Type} [LinearOrderedField K] [FloorRing K] (libm : Libm K)
    (effect_image : Mat K) (hwf : effect_image.WF) (ch : Int)
    (hch : ch = HUE ∨ ch = SATURATION ∨ ch = BRIGHTNESS) :
    ∃ themap, rgb_to_hsl libm effect_image ch = .ok themap ∧
      themap.length = effect_image.cols * effect_image.rows := by
  rw [rgb_to_hsl_of_valid libm effect_image ch hch]
  obtain ⟨L, hL, hlen, _⟩ := forEachPixel_ok effect_image.rows effect_image.cols
    (fun x y => (peek effect_image x y).map fun color =>
      rgb_to_hsl_entry libm ch color (y * effect_image.cols + x))
    (fun x y => rgb_to_hsl_entry libm ch (effect_image.pix x y) (y * effect_image.cols + x))
    (fun y hy x hx => by
      show (peek effect_image x y).map _ = _
      rw [peek_of_WF effect_image hwf x y hx hy]; rfl)
  exact ⟨L, hL, by rw [hlen, Nat.mul_comm]⟩

/-- C10: for a well-formed effect image and each of the three channel
selectors, `rgb_to_hsl` returns a field of exactly `cols * rows` entries, stored
row by row; the entry for `(x, y)`, at index `x + cols * y`, is
`min (255, max (0, floor (255 * c + d + 0.5)))` for the selected HSL channel `c`
of the pixel and its dither `d`, whatever the dither, and so lies in `[0, 255]`. -/
theorem rgb_to_hsl_entries {K : Type} [LinearOrderedField K] [FloorRing K] (libm : Libm K)
    (effect_image : Mat K) (hwf : effect_image.WF) (ch : Int)
    (hch : ch = HUE ∨ ch = SATURATION ∨ ch = BRIGHTNESS) :
    ∃ themap, rgb_to_hsl libm effect_image ch = .ok themap ∧
      themap.length = effect_image.cols * effect_image.rows ∧
      ∀ x y, x < effect_image.cols → y < effect_image.rows →
        ∃ e : Nat, themap.get? (x + effect_image.cols * y) = some e ∧ e ≤ 255 ∧
          (e : Int) = min 255 (max 0
            ⌊255 * (gimp_rgba_to_hsl (effect_image.pix x y)).get ch
              + (libm.uniform1 (x + effect_image.cols * y) * 2 - 1) + 1 / 2⌋) := by
  rw [rgb_to_hsl_of_valid libm effect_image ch hch]
  obtain ⟨L, hL, hlen, hget⟩ := forEachPixel_ok effect_image.rows effect_image.cols
    (fun x y => (peek effect_image x y).map fun color =>
      rgb_to_hsl_entry libm ch color (y * effect_image.cols + x))
    (fun x y => rgb_to_hsl_entry libm ch (effect_image.pix x y) (y * effect_image.cols + x))
    (fun y hy x hx => by
      show (peek effect_image x y).map _ = _
      rw [peek_of_WF effect_image hwf x y hx hy]; rfl)
  refine ⟨L, hL, by rw [hlen, Nat.mul_comm], fun x y hx hy => ?_⟩
  have hidx : x + effect_image.cols * y = y * effect_image.cols + x := by ring
  rw [hidx]
  exact ⟨_, hget y hy x hx, (rgb_to_hsl_entry_eq libm ch _ _).1,
    (rgb_to_hsl_entry_eq libm ch _ _).2⟩

/-- C10 at a concrete input: the one-row image `rgb3`, channel `BRIGHTNESS`,
every dither `-1`: each pixel has lightness `1/2`, so each entry is
`floor (127.5 - 1 + 0.5) = 127`. -/
theorem rgb_to_hsl_entries_witness : rgb_to_hsl libq rgb3 BRIGHTNESS = .ok [127, 127, 127] := by
  obtain ⟨themap, h, _, _⟩ := rgb_to_hsl_entries libq rgb3 rfl BRIGHTNESS (Or.inr (Or.inr rfl))
  rw [h]
  exact h.symm.trans (by decide!)

end VanGoghLIC


namespace VanGoghLIC

/-! ## The noise field -/

theorem omega_eq {K : Type} [LinearOrderedField K] [FloorRing K] (G : Grid K) (u v : K)
    (i j : Int) :
    omega G u v i j = .ok (cubic u * cubic v *
      ((G (i % 40).toNat (j % 40).toNat).1 * u + (G (i % 40).toNat (j % 40).toNat).2 * v)) := by
  obtain ⟨ri, hri, hri0, hrim⟩ := whileNegAdd_of_pos (numx : Int) (by decide) i.natAbs i (by omega)
  obtain ⟨rj, hrj, hrj0, hrjm⟩ := whileNegAdd_of_pos (numy : Int) (by decide) j.natAbs j (by omega)
  have hx : ((numx : Nat) : Int) = 40 := rfl
  have hy : ((numy : Nat) : Int) = 40 := rfl
  have hci : cmod ri (numx : Int) = .ok (i % 40) := by
    simp only [cmod, hx, show (40 : Int) ≠ 0 by decide, if_false]
    rw [Int.tmod_eq_emod hri0 (by decide), ← hx, hrim]
  have hcj : cmod rj (numy : Int) = .ok (j % 40) := by
    simp only [cmod, hy, show (40 : Int) ≠ 0 by decide, if_false]
    rw [Int.tmod_eq_emod hrj0 (by decide), ← hy, hrjm]
  simp only [omega, hri, hrj, Option.elim, bind, Except.bind, hci, hcj, pure, Except.pure]

/-- The function `noise` always returns, and returns the noise field of the
specification. -/
theorem noise_eq {K : Type} [LinearOrderedField K] [FloorRing K] (self : VanGoghLIC K)
    (G : Grid K) (x y : K) : noise self G x y = .ok (noiseSpec G self.dx self.dy x y) := by
  simp only [noise, omega_eq, bind, Except.bind, pure, Except.pure, noiseSpec, zero_add,
    Int.cast_add, Int.cast_one]

end VanGoghLIC

namespace VanGoghLIC

/-! ## The integration loops -/

theorem node_succ {K : Type} [LinearOrderedField K] (l step : K) (k : Nat) :
    node l step k + step = node l step (k + 1) := by
  simp only [node]; push_cast; ring

/-- With `l > 0` and `isteps > 0` the node `u_k` passes the loop guard `u <= l`
exactly when `k ≤ isteps`. -/
theorem node_le_iff {K : Type} [LinearOrderedField K] (l isteps : K) (hl : 0 < l)
    (hs : 0 < isteps) (k : Nat) : node l (2 * l / isteps) k ≤ l ↔ (k : K) ≤ isteps := by
  simp only [node]
  rw [show (k : K) * (2 * l / isteps) = (2 * l) * ((k : K) / isteps) by ring]
  constructor
  · intro h
    have h1 : (2 * l) * ((k : K) / isteps) ≤ (2 * l) * 1 := by linarith
    have h2 : (k : K) / isteps ≤ 1 := le_of_mul_le_mul_left h1 (by linarith)
    exact (div_le_one hs).mp h2
  · intro h
    have h2 : (k : K) / isteps ≤ 1 := (div_le_one hs).mpr h
    have h1 : (2 * l) * ((k : K) / isteps) ≤ (2 * l) * 1 :=
      mul_le_mul_of_nonneg_left h2 (by linarith)
    linarith

/-- The guard holds at the nodes `1 .. ⌊isteps⌋` and fails at the next one. -/
theorem node_guard {K : Type} [LinearOrderedField K] [FloorRing K] (l isteps : K) (hl : 0 < l)
    (hs : 0 < isteps) :
    (∀ i : Nat, i ≤ ⌊isteps⌋₊ → node l (2 * l / isteps) i ≤ l) ∧
      l < node l (2 * l / isteps) (⌊isteps⌋₊ + 1) := by
  constructor
  · intro i hi
    rw [node_le_iff l isteps hl hs]
    exact (Nat.le_floor_iff (le_of_lt hs)).mp hi
  · rw [← not_le, node_le_iff l isteps hl hs, not_le]
    have := Nat.lt_floor_add_one isteps
    push_cast
    exact this

theorem lic_noise_loop_eq {K : Type} [LinearOrderedField K] [FloorRing K] (self : VanGoghLIC K)
    (G : Grid K) (xx yy c s step : K) :
    ∀ (m j : Nat) (acc : K),
      (∀ i : Nat, i ≤ j + m → node self.l step i ≤ self.l) →
      self.l < node self.l step (j + m + 1) →
      lic_noise_loop self G xx yy c s step m (node self.l step (j + 1))
          (filter self (node self.l step j) *
            noiseSpec G self.dx self.dy (xx - node self.l step j * c) (yy - node self.l step j * s))
          acc =
        .ok (acc + ∑ i ∈ Finset.range m,
          (filter self (node self.l step (j + i)) *
              noiseSpec G self.dx self.dy (xx - node self.l step (j + i) * c)
                (yy - node self.l step (j + i) * s)
            + filter self (node self.l step (j + i + 1)) *
              noiseSpec G self.dx self.dy (xx - node self.l step (j + i + 1) * c)
                (yy - node self.l step (j + i + 1) * s)) * (1 / 2 * step)) := by
  intro m
  induction m with
  | zero =>
    intro j acc _ hlast
    simp only [lic_noise_loop, Nat.add_zero] at hlast ⊢
    rw [if_neg (not_le.mpr hlast)]
    simp
  | succ m ih =>
    intro j acc hle hlast
    have hguard : node self.l step (j + 1) ≤ self.l := hle (j + 1) (by omega)
    simp only [lic_noise_loop, if_pos hguard, noise_eq, node_succ]
    rw [ih (j + 1) _ (fun i hi => hle i (by omega)) (by
      have : j + 1 + m + 1 = j + (m + 1) + 1 := by omega
      rw [this]; exact hlast)]
    congr 1
    rw [Finset.sum_range_succ' _ m]
    simp only [Nat.add_zero]
    have hidx : ∀ i : Nat, j + 1 + i = j + (i + 1) := fun i => by omega
    simp only [hidx]
    ring

end VanGoghLIC


namespace VanGoghLIC

theorem CLAMP_unit {K : Type} [LinearOrderedField K] (a : K) :
    0 ≤ CLAMP a 0 1 ∧ CLAMP a 0 1 ≤ 1 := by
  simp only [CLAMP]
  exact ⟨le_max_left _ _, max_le (by norm_num) (min_le_left _ _)⟩

/-- With `l > 0` and `isteps > 0`, `lic_noise` returns: its loop runs
`⌊isteps⌋` rounds and sums the trapezoidal rule for
`filter (u) * noise (x - u vx, y - u vy)`, which is then rescaled from
`[minv, maxv]`, clamped to `[0, 1]` and mapped to `[0.5, 1]`. -/
theorem lic_noise_eq {K : Type} [LinearOrderedField K] [FloorRing K] (self : VanGoghLIC K)
    (G : Grid K) (x y : Int) (vx vy : K) (hl : 0 < self.l) (hs : 0 < self.isteps) :
    lic_noise self G x y vx vy = .ok
      (CLAMP ((trapezoid
          (fun u => filter self u * noiseSpec G self.dx self.dy ((x : K) - u * vx) ((y : K) - u * vy))
          self.l (2 * self.l / self.isteps) ⌊self.isteps⌋₊ - self.minv)
        / (self.maxv - self.minv)) 0 1 / 2 + 1 / 2) := by
  obtain ⟨hle, hlast⟩ := node_guard self.l self.isteps hl hs
  have h := lic_noise_loop_eq self G (x : K) (y : K) vx vy (2 * self.l / self.isteps)
    ⌊self.isteps⌋₊ 0 0 (fun i hi => hle i (by omega)) (by simpa using hlast)
  have e1 : -self.l + 2 * self.l / self.isteps = node self.l (2 * self.l / self.isteps) (0 + 1) := by
    simp [node]
  have e0 : filter self (-self.l) *
        noiseSpec G self.dx self.dy ((x : K) + self.l * vx) ((y : K) + self.l * vy) =
      filter self (node self.l (2 * self.l / self.isteps) 0) *
        noiseSpec G self.dx self.dy ((x : K) - node self.l (2 * self.l / self.isteps) 0 * vx)
          ((y : K) - node self.l (2 * self.l / self.isteps) 0 * vy) := by
    simp [node]
  simp only [lic_noise, noise_eq, bind, Except.bind, pure, Except.pure]
  rw [e1, e0, h]
  simp only [zero_add, trapezoid]

/-- Whatever the parameters and the grid, a value returned by `lic_noise` lies
in `[0.5, 1]`. -/
theorem lic_noise_range {K : Type} [LinearOrderedField K] [FloorRing K] (self : VanGoghLIC K)
    (G : Grid K) (x y : Int) (vx vy s : K) (h : lic_noise self G x y vx vy = .ok s) :
    1 / 2 ≤ s ∧ s ≤ 1 := by
  simp only [lic_noise, noise_eq, bind, Except.bind, pure, Except.pure] at h
  split at h
  · cases h
  · next i hi =>
    cases h
    have := CLAMP_unit ((i - self.minv) / (self.maxv - self.minv))
    constructor <;> linarith [this.1, this.2]

end VanGoghLIC


namespace VanGoghLIC

/-! ## The orchestrator -/

/-- When both images are `CV_64FC4`, the channel selector is one of the three
enumerators and the scalar field is extracted, `compute` leaves the grid and
the object as the specification describes and returns what `compute_lic` returns. -/
theorem compute_eq {K : Type} [LinearOrderedField K] [FloorRing K] (libm : Libm K) (G : Grid K)
    (self : VanGoghLIC K) (input_image effect_image : Mat K) (sf : List Nat)
    (hti : input_image.type = CV_64FC4) (hte : effect_image.type = CV_64FC4)
    (hch : self.effect_channel = HUE ∨ self.effect_channel = SATURATION
      ∨ self.effect_channel = BRIGHTNESS)
    (hsf : rgb_to_hsl libm effect_image self.effect_channel = .ok sf) :
    compute libm G self input_image effect_image =
      ⟨gridAfter libm G self, configured self effect_image sf,
        compute_lic libm (configured self effect_image sf) (gridAfter libm G self) input_image sf
          self.effect_operator⟩ := by
  have hmax : (if self.filter_length < 1 / 10 then (1 / 10 : K) else self.filter_length)
      = max self.filter_length (1 / 10) := by
    split
    · next h => rw [max_eq_right (le_of_lt h)]
    · next h => rw [max_eq_left (not_lt.mp h)]
  unfold compute
  rw [if_neg (not_not.mpr hti), if_neg (not_not.mpr hte)]
  by_cases hfl : self.filter_length < 1 / 10
  · rw [if_pos hfl] at hmax
    simp only [if_pos hfl]
    rcases hch with h | h | h
    · simp only [h, if_true] at hsf ⊢
      simp only [hsf, configured, gridAfter, ← hmax, h]
    · simp only [h, show SATURATION ≠ HUE by decide, if_true, if_false] at hsf ⊢
      simp only [hsf, configured, gridAfter, ← hmax, h]
    · simp only [h, show BRIGHTNESS ≠ HUE by decide, show BRIGHTNESS ≠ SATURATION by decide,
        if_true, if_false] at hsf ⊢
      simp only [hsf, configured, gridAfter, ← hmax, h]
  · rw [if_neg hfl] at hmax
    simp only [if_neg hfl]
    rcases hch with h | h | h
    · simp only [h, if_true] at hsf ⊢
      simp only [hsf, configured, gridAfter, ← hmax, h]
    · simp only [h, show SATURATION ≠ HUE by decide, if_true, if_false] at hsf ⊢
      simp only [hsf, configured, gridAfter, ← hmax, h]
    · simp only [h, show BRIGHTNESS ≠ HUE by decide, show BRIGHTNESS ≠ SATURATION by decide,
        if_true, if_false] at hsf ⊢
      simp only [hsf, configured, gridAfter, ← hmax, h]

end VanGoghLIC

namespace VanGoghLIC

theorem compute_bad_input_type {K : Type} [LinearOrderedField K] [FloorRing K] (libm : Libm K)
    (G : Grid K) (self : VanGoghLIC K) (input_image effect_image : Mat K)
    (h : input_image.type ≠ CV_64FC4) :
    (compute libm G self input_image effect_image).output = .error .invalidArgument := by
  unfold compute
  rw [if_pos h]

theorem compute_bad_effect_type {K : Type} [LinearOrderedField K] [FloorRing K] (libm : Libm K)
    (G : Grid K) (self : VanGoghLIC K) (input_image effect_image : Mat K)
    (hti : input_image.type = CV_64FC4) (h : effect_image.type ≠ CV_64FC4) :
    (compute libm G self input_image effect_image).output = .error .invalidArgument := by
  unfold compute
  rw [if_neg (not_not.mpr hti), if_pos h]

theorem compute_bad_channel {K : Type} [LinearOrderedField K] [FloorRing K] (libm : Libm K)
    (G : Grid K) (self : VanGoghLIC K) (input_image effect_image : Mat K)
    (hti : input_image.type = CV_64FC4) (hte : effect_image.type = CV_64FC4)
    (h0 : self.effect_channel ≠ HUE) (h1 : self.effect_channel ≠ SATURATION)
    (h2 : self.effect_channel ≠ BRIGHTNESS) :
    (compute libm G self input_image effect_image).output = .error .invalidArgument := by
  unfold compute
  rw [if_neg (not_not.mpr hti), if_neg (not_not.mpr hte)]
  by_cases hfl : self.filter_length < 1 / 10
  · simp only [if_pos hfl, h0, h1, h2, if_false]
  · simp only [if_neg hfl, h0, h1, h2, if_false]

theorem compute_field_fault {K : Type} [LinearOrderedField K] [FloorRing K] (libm : Libm K)
    (G : Grid K) (self : VanGoghLIC K) (input_image effect_image : Mat K) (e : Fault)
    (hti : input_image.type = CV_64FC4) (hte : effect_image.type = CV_64FC4)
    (hch : self.effect_channel = HUE ∨ self.effect_channel = SATURATION
      ∨ self.effect_channel = BRIGHTNESS)
    (hsf : rgb_to_hsl libm effect_image self.effect_channel = .error e) :
    (compute libm G self input_image effect_image).output = .error e := by
  unfold compute
  rw [if_neg (not_not.mpr hti), if_neg (not_not.mpr hte)]
  by_cases hfl : self.filter_length < 1 / 10
  · simp only [if_pos hfl]
    rcases hch with h | h | h
    · simp only [h, if_true] at hsf ⊢
      simp only [hsf]
    · simp only [h, show SATURATION ≠ HUE by decide, if_true, if_false] at hsf ⊢
      simp only [hsf]
    · simp only [h, show BRIGHTNESS ≠ HUE by decide, show BRIGHTNESS ≠ SATURATION by decide,
        if_true, if_false] at hsf ⊢
      simp only [hsf]
  · simp only [if_neg hfl]
    rcases hch with h | h | h
    · simp only [h, if_true] at hsf ⊢
      simp only [hsf]
    · simp only [h, show SATURATION ≠ HUE by decide, if_true, if_false] at hsf ⊢
      simp only [hsf]
    · simp only [h, show BRIGHTNESS ≠ HUE by decide, show BRIGHTNESS ≠ SATURATION by decide,
        if_true, if_false] at hsf ⊢
      simp only [hsf]

/-- When `compute` returns an image, both inputs were `CV_64FC4`, the channel
selector was valid, the scalar field was extracted and `compute_lic` returned
that image. -/
theorem compute_ok_inv {K : Type} [LinearOrderedField K] [FloorRing K] (libm : Libm K)
    (G : Grid K) (self : VanGoghLIC K) (input_image effect_image out : Mat K)
    (h : (compute libm G self input_image effect_image).output = .ok out) :
    input_image.type = CV_64FC4 ∧ effect_image.type = CV_64FC4 ∧
      (self.effect_channel = HUE ∨ self.effect_channel = SATURATION
        ∨ self.effect_channel = BRIGHTNESS) ∧
      ∃ sf, rgb_to_hsl libm effect_image self.effect_channel = .ok sf ∧
        compute_lic libm (configured self effect_image sf) (gridAfter libm G self) input_image sf
          self.effect_operator = .ok out := by
  by_cases hti : input_image.type = CV_64FC4
  swap
  · rw [compute_bad_input_type libm G self _ _ hti] at h; cases h
  by_cases hte : effect_image.type = CV_64FC4
  swap
  · rw [compute_bad_effect_type libm G self _ _ hti hte] at h; cases h
  by_cases hch : self.effect_channel = HUE ∨ self.effect_channel = SATURATION
      ∨ self.effect_channel = BRIGHTNESS
  swap
  · rw [compute_bad_channel libm G self _ _ hti hte (fun h0 => hch (Or.inl h0))
      (fun h1 => hch (Or.inr (Or.inl h1))) (fun h2 => hch (Or.inr (Or.inr h2)))] at h
    cases h
  cases hsf : rgb_to_hsl libm effect_image self.effect_channel with
  | error e => rw [compute_field_fault libm G self _ _ e hti hte hch hsf] at h; cases h
  | ok sf =>
    rw [compute_eq libm G self _ _ sf hti hte hch hsf] at h
    exact ⟨hti, hte, hch, sf, rfl, h⟩

/-- An image returned by `compute_lic` has the type `CV_64FC4` and the size of
the input image, and its pixels are the colours computed position by position. -/
theorem compute_lic_ok_inv {K : Type} [LinearOrderedField K] [FloorRing K] (libm : Libm K)
    (self : VanGoghLIC K) (G : Grid K) (input_image : Mat K) (sf : List Nat)
    (op : EffectOperator) (out : Mat K)
    (h : compute_lic libm self G input_image sf op = .ok out) :
    out.type = CV_64FC4 ∧ out.rows = input_image.rows ∧ out.cols = input_image.cols ∧
      forEachPixel input_image.rows input_image.cols
        (fun x y => compute_lic_pixel libm self G input_image sf op x y) = .ok out.data := by
  simp only [compute_lic, bind, Except.bind, pure, Except.pure] at h
  split at h
  · cases h
  · next colors hc =>
    cases h
    exact ⟨rfl, rfl, rfl, hc⟩

theorem compute_lic_of_pixels {K : Type} [LinearOrderedField K] [FloorRing K] (libm : Libm K)
    (self : VanGoghLIC K) (G : Grid K) (input_image : Mat K) (sf : List Nat)
    (op : EffectOperator) (colors : List (Vec4d K))
    (h : forEachPixel input_image.rows input_image.cols
        (fun x y => compute_lic_pixel libm self G input_image sf op x y) = .ok colors) :
    compute_lic libm self G input_image sf op =
      .ok ⟨CV_64FC4, input_image.rows, input_image.cols, colors⟩ := by
  simp only [compute_lic, bind, Except.bind, pure, Except.pure, h]

end VanGoghLIC


namespace VanGoghLIC

/-! ## No function below `compute` throws `std::invalid_argument` -/

theorem bind_ne_invalid {α β : Type} (a : Except Fault α) (f : α → Except Fault β)
    (ha : a ≠ .error .invalidArgument) (hf : ∀ v, f v ≠ .error .invalidArgument) :
    (a >>= f) ≠ .error .invalidArgument := by
  cases a with
  | error e =>
    intro h
    have h2 : (Except.error e : Except Fault β) = .error .invalidArgument := h
    cases h2
    exact ha rfl
  | ok v => exact hf v

theorem ok_ne_invalid {α : Type} (a : α) :
    (Except.ok a : Except Fault α) ≠ .error .invalidArgument := by
  intro h; cases h

theorem map_ne_invalid {α β : Type} (a : Except Fault α) (f : α → β)
    (ha : a ≠ .error .invalidArgument) : a.map f ≠ .error .invalidArgument := by
  cases a with
  | error e => intro h; apply ha; cases h; rfl
  | ok v => intro h; cases h

theorem peek_ne_invalid {K : Type} (buffer : Mat K) (x y : Int) :
    peek buffer x y ≠ .error .invalidArgument := by
  unfold peek
  split
  · split <;> (intro h; cases h)
  · intro h; cases h

theorem cmod_ne_invalid (a b : Int) : cmod a b ≠ .error .invalidArgument := by
  unfold cmod
  split <;> (intro h; cases h)

theorem wrap_ne_invalid (w x : Int) : wrap w x ≠ .error .invalidArgument := by
  unfold wrap
  split
  · intro h; cases h
  · exact cmod_ne_invalid _ _

theorem peekmap_ne_invalid {K : Type} [LinearOrderedField K] [FloorRing K] (self : VanGoghLIC K)
    (f : List Nat) (x y : Int) : peekmap self f x y ≠ .error .invalidArgument := by
  unfold peekmap
  have hx := wrap_ne_invalid self.effect_width x
  have hy := wrap_ne_invalid self.effect_height y
  split
  · next e he => intro h; cases h; exact hx he
  · split
    · next e he => intro h; cases h; exact hy he
    · split
      · split <;> (intro h; cases h)
      · intro h; cases h

theorem gradx_ne_invalid {K : Type} [LinearOrderedField K] [FloorRing K] (self : VanGoghLIC K)
    (f : List Nat) (x y : Int) : gradx self f x y ≠ .error .invalidArgument := by
  unfold gradx
  refine bind_ne_invalid _ _ (peekmap_ne_invalid _ _ _ _) fun _ => ?_
  refine bind_ne_invalid _ _ (peekmap_ne_invalid _ _ _ _) fun _ => ?_
  refine bind_ne_invalid _ _ (peekmap_ne_invalid _ _ _ _) fun _ => ?_
  refine bind_ne_invalid _ _ (peekmap_ne_invalid _ _ _ _) fun _ => ?_
  refine bind_ne_invalid _ _ (peekmap_ne_invalid _ _ _ _) fun _ => ?_
  refine bind_ne_invalid _ _ (peekmap_ne_invalid _ _ _ _) fun _ => ?_
  exact ok_ne_invalid _

theorem grady_ne_invalid {K : Type} [LinearOrderedField K] [FloorRing K] (self : VanGoghLIC K)
    (f : List Nat) (x y : Int) : grady self f x y ≠ .error .invalidArgument := by
  unfold grady
  refine bind_ne_invalid _ _ (peekmap_ne_invalid _ _ _ _) fun _ => ?_
  refine bind_ne_invalid _ _ (peekmap_ne_invalid _ _ _ _) fun _ => ?_
  refine bind_ne_invalid _ _ (peekmap_ne_invalid _ _ _ _) fun _ => ?_
  refine bind_ne_invalid _ _ (peekmap_ne_invalid _ _ _ _) fun _ => ?_
  refine bind_ne_invalid _ _ (peekmap_ne_invalid _ _ _ _) fun _ => ?_
  refine bind_ne_invalid _ _ (peekmap_ne_invalid _ _ _ _) fun _ => ?_
  exact ok_ne_invalid _

theorem lic_noise_loop_ne_invalid {K : Type} [LinearOrderedField K] [FloorRing K]
    (self : VanGoghLIC K) (G : Grid K) (xx yy c s step : K) :
    ∀ (fuel : Nat) (u f1 i : K),
      lic_noise_loop self G xx yy c s step fuel u f1 i ≠ .error .invalidArgument := by
  intro fuel
  induction fuel with
  | zero =>
    intro u f1 i
    unfold lic_noise_loop
    split <;> (intro h; cases h)
  | succ n ih =>
    intro u f1 i
    unfold lic_noise_loop
    split
    · rw [noise_eq]
      exact ih _ _ _
    · intro h; cases h

theorem lic_noise_ne_invalid {K : Type} [LinearOrderedField K] [FloorRing K]
    (self : VanGoghLIC K) (G : Grid K) (x y : Int) (vx vy : K) :
    lic_noise self G x y vx vy ≠ .error .invalidArgument := by
  unfold lic_noise
  simp only [noise_eq]
  refine bind_ne_invalid _ _ (ok_ne_invalid _) fun _ => ?_
  refine bind_ne_invalid _ _ (lic_noise_loop_ne_invalid _ _ _ _ _ _ _ _ _ _ _) fun _ => ?_
  exact ok_ne_invalid _

theorem getpixel_ne_invalid {K : Type} [LinearOrderedField K] [FloorRing K] (buffer : Mat K)
    (u v : K) : getpixel buffer u v ≠ .error .invalidArgument := by
  unfold getpixel
  refine bind_ne_invalid _ _ ?_ fun _ => ?_
  · split
    · exact map_ne_invalid _ _ (cmod_ne_invalid _ _)
    · exact cmod_ne_invalid _ _
  refine bind_ne_invalid _ _ ?_ fun _ => ?_
  · split
    · exact map_ne_invalid _ _ (cmod_ne_invalid _ _)
    · exact cmod_ne_invalid _ _
  refine bind_ne_invalid _ _ (cmod_ne_invalid _ _) fun _ => ?_
  refine bind_ne_invalid _ _ (cmod_ne_invalid _ _) fun _ => ?_
  refine bind_ne_invalid _ _ (peek_ne_invalid _ _ _) fun _ => ?_
  refine bind_ne_invalid _ _ (peek_ne_invalid _ _ _) fun _ => ?_
  refine bind_ne_invalid _ _ (peek_ne_invalid _ _ _) fun _ => ?_
  refine bind_ne_invalid _ _ (peek_ne_invalid _ _ _) fun _ => ?_
  exact ok_ne_invalid _

theorem lic_image_loop_ne_invalid {K : Type} [LinearOrderedField K] [FloorRing K]
    (self : VanGoghLIC K) (buffer : Mat K) (xx yy c s step : K) :
    ∀ (fuel : Nat) (u : K) (col1 col : GimpRGBA K),
      lic_image_loop self buffer xx yy c s step fuel u col1 col ≠ .error .invalidArgument := by
  intro fuel
  induction fuel with
  | zero =>
    intro u col1 col
    unfold lic_image_loop
    split <;> (intro h; cases h)
  | succ n ih =>
    intro u col1 col
    unfold lic_image_loop
    split
    · split
      · next e he => intro h; cases h; exact getpixel_ne_invalid _ _ _ he
      · exact ih _ _ _
    · intro h; cases h

theorem lic_image_ne_invalid {K : Type} [LinearOrderedField K] [FloorRing K]
    (self : VanGoghLIC K) (buffer : Mat K) (x y : Int) (vx vy : K) :
    lic_image self buffer x y vx vy ≠ .error .invalidArgument := by
  unfold lic_image
  refine bind_ne_invalid _ _ (getpixel_ne_invalid _ _ _) fun _ => ?_
  refine bind_ne_invalid _ _ (lic_image_loop_ne_invalid _ _ _ _ _ _ _ _ _ _ _) fun _ => ?_
  exact ok_ne_invalid _

theorem compute_lic_pixel_ne_invalid {K : Type} [LinearOrderedField K] [FloorRing K]
    (libm : Libm K) (self : VanGoghLIC K) (G : Grid K) (input_image : Mat K) (sf : List Nat)
    (op : EffectOperator) (x y : Nat) :
    compute_lic_pixel libm self G input_image sf op x y ≠ .error .invalidArgument := by
  unfold compute_lic_pixel
  refine bind_ne_invalid _ _ (gradx_ne_invalid _ _ _ _) fun _ => ?_
  refine bind_ne_invalid _ _ (grady_ne_invalid _ _ _ _) fun _ => ?_
  split
  · refine bind_ne_invalid _ _ (peek_ne_invalid _ _ _) fun _ => ?_
    refine bind_ne_invalid _ _ (lic_noise_ne_invalid _ _ _ _ _ _) fun _ => ?_
    exact ok_ne_invalid _
  · exact lic_image_ne_invalid _ _ _ _ _ _

theorem compute_lic_ne_invalid {K : Type} [LinearOrderedField K] [FloorRing K]
    (libm : Libm K) (self : VanGoghLIC K) (G : Grid K) (input_image : Mat K) (sf : List Nat)
    (op : EffectOperator) :
    compute_lic libm self G input_image sf op ≠ .error .invalidArgument := by
  unfold compute_lic
  refine bind_ne_invalid _ _ ?_ fun _ => ok_ne_invalid _
  intro h
  obtain ⟨y, _, x, _, hb⟩ := forEachPixel_error _ _ _ _ h
  exact compute_lic_pixel_ne_invalid _ _ _ _ _ _ _ _ hb

theorem rgb_to_hsl_ne_invalid {K : Type} [LinearOrderedField K] [FloorRing K] (libm : Libm K)
    (effect_image : Mat K) (ch : Int) (hch : ch = HUE ∨ ch = SATURATION ∨ ch = BRIGHTNESS) :
    rgb_to_hsl libm effect_image ch ≠ .error .invalidArgument := by
  rw [rgb_to_hsl_of_valid libm effect_image ch hch]
  intro h
  obtain ⟨y, _, x, _, hb⟩ := forEachPixel_error _ _ _ _ h
  exact map_ne_invalid _ _ (peek_ne_invalid _ _ _) hb

end VanGoghLIC


namespace VanGoghLIC

/-! ## A run in `WHITE_NOISE` mode -/

theorem configured_l_pos {K : Type} [LinearOrderedField K] (self : VanGoghLIC K)
    (effect_image : Mat K) (sf : List Nat) : 0 < (configured self effect_image sf).l :=
  lt_max_of_lt_right (by norm_num)

/-- In `WHITE_NOISE` mode, with a positive step count, a non-empty well-formed
effect image and a well-formed input image, the body of the pixel loop returns
the input pixel times the scalar of the specification. -/
theorem compute_lic_pixel_white_noise {K : Type} [LinearOrderedField K] [FloorRing K]
    (libm : Libm K) (G : Grid K) (self : VanGoghLIC K) (input_image effect_image : Mat K)
    (sf : List Nat) (hwfi : input_image.WF) (hec : 1 ≤ effect_image.cols)
    (her : 1 ≤ effect_image.rows) (hlen : sf.length = effect_image.cols * effect_image.rows)
    (hmode : self.convolve_with = .WHITE_NOISE) (hsteps : 0 < self.integration_steps)
    (x y : Nat) (hx : x < input_image.cols) (hy : y < input_image.rows) :
    compute_lic_pixel libm (configured self effect_image sf) G input_image sf
        self.effect_operator x y =
      .ok (gimp_rgba_multiply (input_image.pix x y)
        (noiseScalar (configured self effect_image sf) G x y
          (flow libm self.effect_operator
            (gradXSpec effect_image.cols effect_image.rows sf x y)
            (gradYSpec effect_image.cols effect_image.rows sf x y)).1
          (flow libm self.effect_operator
            (gradXSpec effect_image.cols effect_image.rows sf x y)
            (gradYSpec effect_image.cols effect_image.rows sf x y)).2)) := by
  have hgx : gradx (configured self effect_image sf) sf x y
      = .ok (gradXSpec effect_image.cols effect_image.rows sf x y) :=
    gradx_eq (configured self effect_image sf) sf effect_image.cols effect_image.rows
      hec her rfl rfl hlen x y
  have hgy : grady (configured self effect_image sf) sf x y
      = .ok (gradYSpec effect_image.cols effect_image.rows sf x y) :=
    grady_eq (configured self effect_image sf) sf effect_image.cols effect_image.rows
      hec her rfl rfl hlen x y
  have hm : (configured self effect_image sf).convolve_with = .WHITE_NOISE := hmode
  have hn : ∀ vx vy : K, lic_noise (configured self effect_image sf) G (x : Int) (y : Int) vx vy
      = .ok (noiseScalar (configured self effect_image sf) G x y vx vy) := by
    intro vx vy
    rw [lic_noise_eq (configured self effect_image sf) G (x : Int) (y : Int) vx vy
      (configured_l_pos self effect_image sf) hsteps]
    simp only [Int.cast_natCast, noiseScalar]
  simp only [compute_lic_pixel, hgx, hgy, bind, Except.bind, hm,
    peek_of_WF input_image hwfi x y hx hy, pure, Except.pure, hn]


theorem pix_of_get? {K : Type} [Zero K] (m : Mat K) (x y : Nat) (p : Vec4d K)
    (h : m.data.get? (y * m.cols + x) = some p) : m.pix x y = p := by
  simp only [List.get?_eq_getElem?] at h
  simp only [Mat.pix, List.getD_eq_getElem?_getD, h, Option.getD_some]

/-- In `WHITE_NOISE` mode, with a positive step count, a valid channel
selector, `CV_64FC4` images, a non-empty well-formed effect image and a
well-formed input image, `compute` returns an image of the size of the input
whose pixel `(x, y)` is the input pixel times the scalar of the specification. -/
theorem compute_white_noise_run {K : Type} [LinearOrderedField K] [FloorRing K]
    (libm : Libm K) (G : Grid K) (self : VanGoghLIC K) (input_image effect_image : Mat K)
    (hti : input_image.type = CV_64FC4) (hte : effect_image.type = CV_64FC4)
    (hwfi : input_image.WF) (hwfe : effect_image.WF)
    (hec : 1 ≤ effect_image.cols) (her : 1 ≤ effect_image.rows)
    (hch : self.effect_channel = HUE ∨ self.effect_channel = SATURATION
      ∨ self.effect_channel = BRIGHTNESS)
    (hmode : self.convolve_with = .WHITE_NOISE) (hsteps : 0 < self.integration_steps) :
    ∃ sf out, rgb_to_hsl libm effect_image self.effect_channel = .ok sf ∧
      (compute libm G self input_image effect_image).output = .ok out ∧
      out.rows = input_image.rows ∧ out.cols = input_image.cols ∧
      ∀ x y, x < input_image.cols → y < input_image.rows →
        out.pix x y = gimp_rgba_multiply (input_image.pix x y)
          (noiseScalar (configured self effect_image sf) (gridAfter libm G self) x y
            (flow libm self.effect_operator
              (gradXSpec effect_image.cols effect_image.rows sf x y)
              (gradYSpec effect_image.cols effect_image.rows sf x y)).1
            (flow libm self.effect_operator
              (gradXSpec effect_image.cols effect_image.rows sf x y)
              (gradYSpec effect_image.cols effect_image.rows sf x y)).2) := by
  obtain ⟨sf, hsf, hlen⟩ := rgb_to_hsl_returns libm effect_image hwfe self.effect_channel hch
  obtain ⟨L, hL, _, hget⟩ := forEachPixel_ok input_image.rows input_image.cols
    (fun x y => compute_lic_pixel libm (configured self effect_image sf) (gridAfter libm G self)
      input_image sf self.effect_operator x y) _
    (fun y hy x hx => compute_lic_pixel_white_noise libm (gridAfter libm G self) self input_image
      effect_image sf hwfi hec her hlen hmode hsteps x y hx hy)
  refine ⟨sf, ⟨CV_64FC4, input_image.rows, input_image.cols, L⟩, hsf, ?_, rfl, rfl, ?_⟩
  · rw [compute_eq libm G self _ _ sf hti hte hch hsf]
    exact compute_lic_of_pixels _ _ _ _ _ _ _ hL
  · intro x y hx hy
    exact pix_of_get? _ x y _ (hget y hy x hx)

end VanGoghLIC


namespace VanGoghLIC

end VanGoghLIC

namespace VanGoghLIC

end VanGoghLIC


namespace VanGoghLIC

/-! ## Every output channel lies in `[0, 1]` -/

/-- Every value in the list a loop nest returns was returned by the body at
some position. -/
theorem forEachPixel_mem {β : Type} (rows cols : Nat) (body : Nat → Nat → Except Fault β)
    (L : List β) (h : forEachPixel rows cols body = .ok L) (p : β) (hp : p ∈ L) :
    ∃ x y, x < cols ∧ y < rows ∧ body x y = .ok p := by
  obtain ⟨hlen, hget⟩ := forEachPixel_inv rows cols body L h
  obtain ⟨i, hi, rfl⟩ := List.getElem_of_mem hp
  rw [hlen] at hi
  have hc : 0 < cols := by
    rcases Nat.eq_zero_or_pos cols with h0 | h0
    · rw [h0] at hi; simp at hi
    · exact h0
  have hy : i / cols < rows := Nat.div_lt_of_lt_mul (by rw [Nat.mul_comm]; exact hi)
  have hx : i % cols < cols := Nat.mod_lt _ hc
  obtain ⟨v, hv, hLv⟩ := hget (i / cols) hy (i % cols) hx
  have hidx : i / cols * cols + i % cols = i := Nat.div_add_mod' i cols
  rw [hidx, List.get?_eq_getElem?, List.getElem?_eq_getElem (by rw [hlen]; exact hi)] at hLv
  cases hLv
  exact ⟨i % cols, i / cols, hx, hy, hv⟩

theorem peek_mem {K : Type} (buffer : Mat K) (x y : Int) (p : Vec4d K)
    (h : peek buffer x y = .ok p) : p ∈ buffer.data := by
  unfold peek at h
  split at h
  · split at h
    · next color hc =>
      cases h
      exact List.get?_mem hc
    · cases h
  · cases h

theorem CLAMP_In01 {K : Type} [LinearOrderedField K] (c : Vec4d K) : (gimp_rgba_clamp c).In01 :=
  ⟨CLAMP_unit _, CLAMP_unit _, CLAMP_unit _, CLAMP_unit _⟩

theorem lic_image_In01 {K : Type} [LinearOrderedField K] [FloorRing K] (self : VanGoghLIC K)
    (buffer : Mat K) (x y : Int) (vx vy : K) (p : Vec4d K)
    (h : lic_image self buffer x y vx vy = .ok p) : p.In01 := by
  simp only [lic_image, bind, Except.bind, pure, Except.pure] at h
  split at h
  · cases h
  · split at h
    · cases h
    · cases h
      exact CLAMP_In01 _

theorem multiply_In01 {K : Type} [LinearOrderedField K] (c : Vec4d K) (s : K) (hc : c.In01)
    (h1 : 1 / 2 ≤ s) (h2 : s ≤ 1) : (gimp_rgba_multiply c s).In01 := by
  obtain ⟨⟨a0, a1⟩, ⟨b0, b1⟩, ⟨c0, c1⟩, ⟨d0, d1⟩⟩ := hc
  have hs : 0 ≤ s := by linarith
  refine ⟨⟨?_, ?_⟩, ⟨?_, ?_⟩, ⟨?_, ?_⟩, ⟨?_, ?_⟩⟩ <;> simp only [gimp_rgba_multiply] <;>
    first
      | exact mul_nonneg (by assumption) hs
      | exact mul_le_one₀ (by assumption) hs h2

/-- C2: whenever `compute` returns an image for an input image whose channels
all lie in `[0, 1]`, every channel of every output pixel lies in `[0, 1]`, in
`WHITE_NOISE` mode as well as in `SOURCE_IMAGE` mode. -/
theorem compute_output_In01 {K : Type} [LinearOrderedField K] [FloorRing K]
    (libm : Libm K) (G : Grid K) (self : VanGoghLIC K) (input_image effect_image out : Mat K)
    (hin : ∀ p ∈ input_image.data, p.In01)
    (hout : (compute libm G self input_image effect_image).output = .ok out) :
    ∀ p ∈ out.data, p.In01 := by
  intro p hp
  obtain ⟨_, _, _, sf, _, hlic⟩ := compute_ok_inv libm G self input_image effect_image out hout
  obtain ⟨_, _, _, hpixels⟩ := compute_lic_ok_inv libm _ _ input_image sf _ out hlic
  obtain ⟨x, y, _, _, hbody⟩ := forEachPixel_mem _ _ _ _ hpixels p hp
  simp only [compute_lic_pixel, bind, Except.bind] at hbody
  split at hbody
  · cases hbody
  · split at hbody
    · cases hbody
    · split at hbody
      · split at hbody
        · cases hbody
        · next color hcolor =>
          split at hbody
          · cases hbody
          · next s hs =>
            cases hbody
            have hr := lic_noise_range _ _ _ _ _ _ s hs
            exact multiply_In01 color s (hin color (peek_mem _ _ _ _ hcolor)) hr.1 hr.2
      · exact lic_image_In01 _ _ _ _ _ _ p hbody

/-- C2 at a concrete input: a 2x2 gray input and effect image in `WHITE_NOISE`
mode with two integration steps; every output pixel is `(3/8, 3/8, 3/8, 3/4)`. -/
theorem compute_output_In01_witness :
    (compute libq Grid.start selfNoise (uniformImage 2 2 gray) (uniformImage 2 2 gray)).output
        = .ok (uniformImage 2 2 ⟨3 / 8, 3 / 8, 3 / 8, 3 / 4⟩) ∧
      ∀ p ∈ (uniformImage 2 2 (⟨3 / 8, 3 / 8, 3 / 8, 3 / 4⟩ : Vec4d ℚ)).data, p.In01 := by
  have hout : (compute libq Grid.start selfNoise (uniformImage 2 2 gray)
      (uniformImage 2 2 gray)).output = .ok (uniformImage 2 2 ⟨3 / 8, 3 / 8, 3 / 8, 3 / 4⟩) := by
    decide!
  refine ⟨hout, compute_output_In01 libq Grid.start selfNoise _ _ _ ?_ hout⟩
  intro p hp
  have hp2 : p = gray := by
    simp only [uniformImage, List.mem_replicate] at hp
    exact hp.2
  subst hp2
  simp only [Vec4d.In01, gray]
  norm_num

end VanGoghLIC


namespace VanGoghLIC

/-- C3, amended: `compute` ends with `std::invalid_argument` exactly when the
input image is not `CV_64FC4`, or the effect image is not, or `effect_channel`
is none of `HUE`, `SATURATION`, `BRIGHTNESS`; whenever it returns an image, that
image has the row and column counts of the input image, whatever the size of
the effect image; and it does return one for every other combination of inputs
in `WHITE_NOISE` mode with a positive step count, well-formed images and a
non-empty effect image. -/
theorem compute_invalid_argument_iff {K : Type} [LinearOrderedField K] [FloorRing K]
    (libm : Libm K) (G : Grid K) (self : VanGoghLIC K) (input_image effect_image : Mat K) :
    ((compute libm G self input_image effect_image).output = .error .invalidArgument ↔
      (input_image.type ≠ CV_64FC4 ∨ effect_image.type ≠ CV_64FC4 ∨
        (self.effect_channel ≠ HUE ∧ self.effect_channel ≠ SATURATION
          ∧ self.effect_channel ≠ BRIGHTNESS))) ∧
    (∀ out, (compute libm G self input_image effect_image).output = .ok out →
      out.rows = input_image.rows ∧ out.cols = input_image.cols) ∧
    (input_image.type = CV_64FC4 → effect_image.type = CV_64FC4 →
      (self.effect_channel = HUE ∨ self.effect_channel = SATURATION
        ∨ self.effect_channel = BRIGHTNESS) →
      input_image.WF → effect_image.WF → 1 ≤ effect_image.cols → 1 ≤ effect_image.rows →
      self.convolve_with = .WHITE_NOISE → 0 < self.integration_steps →
      ∃ out, (compute libm G self input_image effect_image).output = .ok out ∧
        out.rows = input_image.rows ∧ out.cols = input_image.cols) := by
  refine ⟨⟨fun h => ?_, fun h => ?_⟩, fun out hout => ?_, ?_⟩
  · by_contra hcon
    push_neg at hcon
    obtain ⟨hti, hte, hch⟩ := hcon
    have hch2 : self.effect_channel = HUE ∨ self.effect_channel = SATURATION
        ∨ self.effect_channel = BRIGHTNESS := by
      by_cases h0 : self.effect_channel = HUE
      · exact Or.inl h0
      · by_cases h1 : self.effect_channel = SATURATION
        · exact Or.inr (Or.inl h1)
        · exact Or.inr (Or.inr (hch h0 h1))
    cases hsf : rgb_to_hsl libm effect_image self.effect_channel with
    | error e =>
      rw [compute_field_fault libm G self _ _ e hti hte hch2 hsf] at h
      cases h
      exact rgb_to_hsl_ne_invalid libm effect_image _ hch2 hsf
    | ok sf =>
      rw [compute_eq libm G self _ _ sf hti hte hch2 hsf] at h
      exact compute_lic_ne_invalid _ _ _ _ _ _ h
  · by_cases hti : input_image.type = CV_64FC4
    swap
    · exact compute_bad_input_type libm G self _ _ hti
    by_cases hte : effect_image.type = CV_64FC4
    swap
    · exact compute_bad_effect_type libm G self _ _ hti hte
    rcases h with h | h | ⟨h0, h1, h2⟩
    · exact absurd hti h
    · exact absurd hte h
    · exact compute_bad_channel libm G self _ _ hti hte h0 h1 h2
  · obtain ⟨_, _, _, sf, _, hlic⟩ := compute_ok_inv libm G self input_image effect_image out hout
    obtain ⟨_, hr, hc, _⟩ := compute_lic_ok_inv libm _ _ input_image sf _ out hlic
    exact ⟨hr, hc⟩
  · intro hti hte hch hwfi hwfe hec her hmode hsteps
    obtain ⟨sf, out, _, hout, hr, hc, _⟩ := compute_white_noise_run libm G self input_image
      effect_image hti hte hwfi hwfe hec her hch hmode hsteps
    exact ⟨out, hout, hr, hc⟩

/-- C3 as stated fails: with the step count `-1` and two `CV_64FC4` images of
one pixel, `compute` does not return an image; the loop of `lic_image` never ends. -/
theorem compute_negative_steps_counterexample :
    (onePixel (gray : Vec4d ℚ)).type = CV_64FC4 ∧
      selfNegativeSteps.effect_channel = BRIGHTNESS ∧
      (compute libq Grid.start selfNegativeSteps (onePixel gray) (onePixel gray)).output
        = .error .nonTermination := by
  decide!

end VanGoghLIC


namespace VanGoghLIC

/-! ## The trapezoidal rule on the tent filter, even step counts -/

/-- The function `filter` is the tent kernel of the specification for the
half-width `l` of the object. -/
theorem filter_eq_tent {K : Type} [LinearOrderedField K] [FloorRing K] (self : VanGoghLIC K)
    (u : K) : filter self u = tent self.l u := by
  simp only [filter, tent]
  split
  · next h => rw [max_eq_left (le_of_lt h)]
  · next h => rw [max_eq_right (not_lt.mp h)]

theorem node_even {K : Type} [LinearOrderedField K] (l : K) (m i : Nat) (hm : 0 < m) :
    node l (2 * l / ((2 * m : Nat) : K)) i = l * ((i : K) - m) / m := by
  have hm0 : (m : K) ≠ 0 := by exact_mod_cast (Nat.pos_iff_ne_zero.mp hm)
  simp only [node]
  push_cast
  field_simp
  ring

/-- On the rising half of the tent, `filter (u_i) = i / m`. -/
theorem tent_node_left {K : Type} [LinearOrderedField K] (l : K) (hl : 0 < l) (m i : Nat)
    (hm : 0 < m) (hi : i ≤ m) :
    tent l (node l (2 * l / ((2 * m : Nat) : K)) i) = (i : K) / m := by
  have hmK : (0 : K) < m := by exact_mod_cast hm
  have hiK : (i : K) ≤ m := by exact_mod_cast hi
  have hnonpos : l * ((i : K) - m) / m ≤ 0 :=
    div_nonpos_of_nonpos_of_nonneg (mul_nonpos_of_nonneg_of_nonpos (le_of_lt hl) (by linarith))
      (le_of_lt hmK)
  have hval : 1 - |l * ((i : K) - m) / m| / l = (i : K) / m := by
    rw [abs_of_nonpos hnonpos]
    field_simp
    ring
  simp only [tent, node_even l m i hm, hval]
  exact max_eq_right (div_nonneg (Nat.cast_nonneg i) (le_of_lt hmK))

/-- On the falling half of the tent, `filter (u_i) = (2 m - i) / m`. -/
theorem tent_node_right {K : Type} [LinearOrderedField K] (l : K) (hl : 0 < l) (m i : Nat)
    (hm : 0 < m) (hi : m ≤ i) (hi2 : i ≤ 2 * m) :
    tent l (node l (2 * l / ((2 * m : Nat) : K)) i) = (2 * (m : K) - i) / m := by
  have hmK : (0 : K) < m := by exact_mod_cast hm
  have hiK : (m : K) ≤ i := by exact_mod_cast hi
  have hiK2 : (i : K) ≤ 2 * m := by exact_mod_cast hi2
  have hnonneg : 0 ≤ l * ((i : K) - m) / m :=
    div_nonneg (mul_nonneg (le_of_lt hl) (by linarith)) (le_of_lt hmK)
  have hval : 1 - |l * ((i : K) - m) / m| / l = (2 * (m : K) - i) / m := by
    rw [abs_of_nonneg hnonneg]
    field_simp
    ring
  simp only [tent, node_even l m i hm, hval]
  exact max_eq_right (div_nonneg (by linarith) (le_of_lt hmK))

theorem trapezoid_succ {K : Type} [LinearOrderedField K] (g : K → K) (l step : K) (k : Nat) :
    trapezoid g l step (k + 1) =
      trapezoid g l step k + (g (node l step k) + g (node l step (k + 1))) * (1 / 2 * step) := by
  simp only [trapezoid, Finset.sum_range_succ]

theorem trapezoid_tent_left {K : Type} [LinearOrderedField K] (l : K) (hl : 0 < l) (m : Nat)
    (hm : 0 < m) :
    ∀ k : Nat, k ≤ m →
      trapezoid (tent l) l (2 * l / ((2 * m : Nat) : K)) k =
        2 * l / ((2 * m : Nat) : K) * ((k : K) * k / (2 * m)) := by
  have hm0 : (m : K) ≠ 0 := by exact_mod_cast (Nat.pos_iff_ne_zero.mp hm)
  intro k
  induction k with
  | zero => intro _; simp [trapezoid]
  | succ k ih =>
    intro hk
    rw [trapezoid_succ, ih (by omega), tent_node_left l hl m k hm (by omega),
      tent_node_left l hl m (k + 1) hm hk]
    push_cast
    field_simp
    ring

theorem trapezoid_tent_right {K : Type} [LinearOrderedField K] (l : K) (hl : 0 < l) (m : Nat)
    (hm : 0 < m) :
    ∀ d : Nat, d ≤ m →
      trapezoid (tent l) l (2 * l / ((2 * m : Nat) : K)) (m + d) =
        2 * l / ((2 * m : Nat) : K) * (((m : K) * m + 2 * m * d - (d : K) * d) / (2 * m)) := by
  have hm0 : (m : K) ≠ 0 := by exact_mod_cast (Nat.pos_iff_ne_zero.mp hm)
  intro d
  induction d with
  | zero =>
    intro _
    rw [Nat.add_zero, trapezoid_tent_left l hl m hm m (le_refl m)]
    push_cast
    field_simp
  | succ d ih =>
    intro hd
    rw [← Nat.add_assoc, trapezoid_succ, ih (by omega),
      tent_node_right l hl m (m + d) hm (by omega) (by omega),
      tent_node_right l hl m (m + d + 1) hm (by omega) (by omega)]
    push_cast
    field_simp
    ring

/-- The trapezoidal weights of the tent filter over an even number `2 m` of
panels sum to exactly `l`. -/
theorem tentSum_even {K : Type} [LinearOrderedField K] [FloorRing K] (l : K) (hl : 0 < l)
    (m : Nat) (hm : 0 < m) : tentSum l ((2 * m : Nat) : K) = l := by
  have hm0 : (m : K) ≠ 0 := by exact_mod_cast (Nat.pos_iff_ne_zero.mp hm)
  have h := trapezoid_tent_right l hl m hm m (le_refl m)
  rw [show m + m = 2 * m by omega] at h
  rw [tentSum, Nat.floor_natCast, h]
  push_cast
  field_simp
  ring

end VanGoghLIC


namespace VanGoghLIC

/-! ## Sampling an image of one colour -/

/-- A pixel returned by `getpixel` is the bilinear blend of four stored pixels. -/
theorem getpixel_ok_inv {K : Type} [LinearOrderedField K] [FloorRing K] (buffer : Mat K)
    (u v : K) (q : Vec4d K) (h : getpixel buffer u v = .ok q) :
    ∃ p0 p1 p2 p3, p0 ∈ buffer.data ∧ p1 ∈ buffer.data ∧ p2 ∈ buffer.data ∧ p3 ∈ buffer.data ∧
      q = gimp_bilinear_rgba u v p0 p1 p2 p3 := by
  simp only [getpixel, bind, Except.bind, pure, Except.pure] at h
  split at h
  · cases h
  split at h
  · cases h
  split at h
  · cases h
  split at h
  · cases h
  split at h
  · cases h
  next p0 h0 =>
  split at h
  · cases h
  next p1 h1 =>
  split at h
  · cases h
  next p2 h2 =>
  split at h
  · cases h
  next p3 h3 =>
  cases h
  exact ⟨p0, p1, p2, p3, peek_mem _ _ _ _ h0, peek_mem _ _ _ _ h1, peek_mem _ _ _ _ h2,
    peek_mem _ _ _ _ h3, rfl⟩

/-- The bilinear blend of four equal pixels of positive alpha is that pixel. -/
theorem gimp_bilinear_rgba_same {K : Type} [LinearOrderedField K] [FloorRing K] (u v : K)
    (p : GimpRGBA K) (hp : 0 < p.v3) : gimp_bilinear_rgba u v p p p p = p := by
  have hne : p.v3 ≠ 0 := ne_of_gt hp
  simp only [gimp_bilinear_rgba]
  have halpha : ∀ a b : K, (1 - b) * ((1 - a) * p.v3 + a * p.v3) + b * ((1 - a) * p.v3 + a * p.v3)
      = p.v3 := fun a b => by ring
  have hch : ∀ a b c : K,
      ((1 - b) * ((1 - a) * p.v3 * c + a * p.v3 * c) + b * ((1 - a) * p.v3 * c + a * p.v3 * c))
        / p.v3 = c := fun a b c => by field_simp; ring
  simp only [halpha, hch, hp, if_true]

/-- On an image whose every pixel is `p`, of positive alpha, every sample that
`getpixel` returns is `p`. -/
theorem getpixel_uniform {K : Type} [LinearOrderedField K] [FloorRing K] (buffer : Mat K)
    (p : Vec4d K) (hp : 0 < p.v3) (hall : ∀ q ∈ buffer.data, q = p) (u v : K) (q : Vec4d K)
    (h : getpixel buffer u v = .ok q) : q = p := by
  obtain ⟨p0, p1, p2, p3, h0, h1, h2, h3, rfl⟩ := getpixel_ok_inv buffer u v q h
  rw [hall p0 h0, hall p1 h1, hall p2 h2, hall p3 h3]
  exact gimp_bilinear_rgba_same u v p hp

theorem rgba_accumulate {K : Type} [LinearOrderedField K] (p : Vec4d K) (acc f1 f2 w : K) :
    gimp_rgba_add (gimp_rgba_multiply p acc)
        (gimp_rgba_multiply (gimp_rgba_add (gimp_rgba_multiply p f1) (gimp_rgba_multiply p f2)) w)
      = gimp_rgba_multiply p (acc + (f1 + f2) * w) := by
  simp only [gimp_rgba_add, gimp_rgba_multiply, Vec4d.mk.injEq]
  refine ⟨?_, ?_, ?_, ?_⟩ <;> ring

/-- The loop of `lic_image` on an image whose samples, wherever they succeed,
are all `p`: either it returns `p` times the trapezoidal sum of the filter
weights, or a sample at one of its nodes ended with a fault. -/
theorem lic_image_loop_uniform {K : Type} [LinearOrderedField K] [FloorRing K]
    (self : VanGoghLIC K) (buffer : Mat K) (xx yy c s step : K) (p : Vec4d K)
    (hsame : ∀ u v q, getpixel buffer u v = .ok q → q = p) :
    ∀ (m j : Nat) (acc : K),
      (∀ i : Nat, i ≤ j + m → node self.l step i ≤ self.l) →
      self.l < node self.l step (j + m + 1) →
      lic_image_loop self buffer xx yy c s step m (node self.l step (j + 1))
          (gimp_rgba_multiply p (filter self (node self.l step j))) (gimp_rgba_multiply p acc)
        = .ok (gimp_rgba_multiply p (acc + ∑ i ∈ Finset.range m,
            (filter self (node self.l step (j + i)) + filter self (node self.l step (j + i + 1)))
              * (1 / 2 * step)))
      ∨ ∃ i e, j < i ∧ i ≤ j + m ∧
          getpixel buffer (xx - node self.l step i * c) (yy - node self.l step i * s) = .error e ∧
          lic_image_loop self buffer xx yy c s step m (node self.l step (j + 1))
            (gimp_rgba_multiply p (filter self (node self.l step j))) (gimp_rgba_multiply p acc)
            = .error e := by
  intro m
  induction m with
  | zero =>
    intro j acc _ hlast
    left
    simp only [lic_image_loop, Nat.add_zero] at hlast ⊢
    rw [if_neg (not_le.mpr hlast)]
    simp
  | succ m ih =>
    intro j acc hle hlast
    have hguard : node self.l step (j + 1) ≤ self.l := hle (j + 1) (by omega)
    simp only [lic_image_loop, if_pos hguard]
    cases hg : getpixel buffer (xx - node self.l step (j + 1) * c)
        (yy - node self.l step (j + 1) * s) with
    | error e => exact Or.inr ⟨j + 1, e, by omega, by omega, hg, rfl⟩
    | ok q =>
      have hq : q = p := hsame _ _ q hg
      subst hq
      simp only [rgba_accumulate, node_succ]
      rcases ih (j + 1) (acc + (filter self (node self.l step j)
          + filter self (node self.l step (j + 1))) * (1 / 2 * step))
        (fun i hi => hle i (by omega)) (by
          have : j + 1 + m + 1 = j + (m + 1) + 1 := by omega
          rw [this]; exact hlast) with hok | ⟨i, e, hi1, hi2, hge, hloop⟩
      · left
        rw [hok]
        congr 2
        rw [Finset.sum_range_succ' _ m]
        simp only [Nat.add_zero]
        have hidx : ∀ i : Nat, j + 1 + i = j + (i + 1) := fun i => by omega
        simp only [hidx]
        ring
      · exact Or.inr ⟨i, e, by omega, by omega, hge, hloop⟩

end VanGoghLIC


namespace VanGoghLIC

theorem CLAMP_of_unit {K : Type} [LinearOrderedField K] (a : K) (h0 : 0 ≤ a) (h1 : a ≤ 1) :
    CLAMP a 0 1 = a := by
  simp only [CLAMP, min_eq_right h1, max_eq_right h0]

theorem gimp_rgba_clamp_of_In01 {K : Type} [LinearOrderedField K] (p : Vec4d K) (hp : p.In01) :
    gimp_rgba_clamp p = p := by
  obtain ⟨⟨a0, a1⟩, ⟨b0, b1⟩, ⟨c0, c1⟩, ⟨d0, d1⟩⟩ := hp
  simp only [gimp_rgba_clamp, CLAMP_of_unit _ a0 a1, CLAMP_of_unit _ b0 b1, CLAMP_of_unit _ c0 c1,
    CLAMP_of_unit _ d0 d1]

/-- On an image whose every pixel is `p` (alpha positive), with `l > 0` and a
positive step count, `lic_image` either returns `p` times the trapezoidal sum
of the filter weights, divided by `l` and clamped, or one of its samples along
the flow ended with a fault. -/
theorem lic_image_uniform_sum {K : Type} [LinearOrderedField K] [FloorRing K]
    (self : VanGoghLIC K) (buffer : Mat K) (p : Vec4d K) (hp : 0 < p.v3)
    (hall : ∀ q ∈ buffer.data, q = p) (hl : 0 < self.l) (hspos : 0 < self.isteps)
    (x y : Int) (vx vy : K) :
    lic_image self buffer x y vx vy = .ok (gimp_rgba_clamp (gimp_rgba_multiply
        (gimp_rgba_multiply p (tentSum self.l self.isteps)) (1 / self.l))) ∨
      ∃ u e, getpixel buffer ((x : K) - u * vx) ((y : K) - u * vy) = .error e ∧
        lic_image self buffer x y vx vy = .error e := by
  have hsame : ∀ u v q, getpixel buffer u v = .ok q → q = p :=
    fun u v q h => getpixel_uniform buffer p hp hall u v q h
  obtain ⟨hle, hlast⟩ := node_guard self.l self.isteps hl hspos
  have e1 : -self.l + 2 * self.l / self.isteps = node self.l (2 * self.l / self.isteps) (0 + 1) := by
    simp [node]
  have e0 : -self.l = node self.l (2 * self.l / self.isteps) 0 := by simp [node]
  have ez : (⟨0, 0, 0, 0⟩ : Vec4d K) = gimp_rgba_multiply p 0 := by
    simp [gimp_rgba_multiply]
  have ec : ∀ u : K, (x : K) + u * vx = (x : K) - (-u) * vx := fun u => by ring
  have ed : ∀ u : K, (y : K) + u * vy = (y : K) - (-u) * vy := fun u => by ring
  simp only [lic_image, bind, Except.bind, pure, Except.pure]
  cases hg : getpixel buffer ((x : K) + self.l * vx) ((y : K) + self.l * vy) with
  | error e =>
    right
    refine ⟨-self.l, e, ?_, rfl⟩
    rw [← ec, ← ed]; exact hg
  | ok q =>
    have hq : q = p := hsame _ _ q hg
    subst hq
    simp only []
    have e2 : filter self (-self.l) = filter self (node self.l (2 * self.l / self.isteps) 0) :=
      congrArg (filter self) e0
    rw [e1, ez, e2]
    rcases lic_image_loop_uniform self buffer (x : K) (y : K) vx vy (2 * self.l / self.isteps) q
        hsame ⌊self.isteps⌋₊ 0 0 (fun i hi => hle i (by omega)) (by simpa using hlast)
      with hok | ⟨i, e, _, _, hge, hloop⟩
    · left
      rw [hok]
      have htr : (0 : K) + ∑ i ∈ Finset.range ⌊self.isteps⌋₊,
          (filter self (node self.l (2 * self.l / self.isteps) (0 + i))
            + filter self (node self.l (2 * self.l / self.isteps) (0 + i + 1)))
            * (1 / 2 * (2 * self.l / self.isteps)) = tentSum self.l self.isteps := by
        simp only [tentSum, trapezoid, filter_eq_tent, zero_add]
      rw [htr]
    · right
      refine ⟨node self.l (2 * self.l / self.isteps) i, e, hge, ?_⟩
      rw [hloop]

end VanGoghLIC


namespace VanGoghLIC

/-! ## A constant scalar field and a run on an image of one colour -/

theorem lookup_const (W H : Nat) (hW : 1 ≤ W) (hH : 1 ≤ H) (f : List Nat)
    (hlen : f.length = W * H) (c0 : Nat) (hall : ∀ v ∈ f, v = c0) (a b : Int) :
    lookup W H f a b = c0 := by
  obtain ⟨_, hlt⟩ := toroidal_index_lt W H hW hH a b
  rw [← hlen] at hlt
  simp only [lookup, List.getD_eq_getElem?_getD, List.getElem?_eq_getElem hlt, Option.getD_some]
  exact_mod_cast hall _ (List.getElem_mem hlt)

/-- On a constant scalar field both gradients of the specification vanish. -/
theorem grad_const (W H : Nat) (hW : 1 ≤ W) (hH : 1 ≤ H) (f : List Nat)
    (hlen : f.length = W * H) (c0 : Nat) (hall : ∀ v ∈ f, v = c0) (x y : Int) :
    gradXSpec W H f x y = 0 ∧ gradYSpec W H f x y = 0 := by
  simp only [gradXSpec, gradYSpec, lookup_const W H hW hH f hlen c0 hall]
  constructor <;> ring

theorem flow_zero {K : Type} [LinearOrderedField K] [FloorRing K] (libm : Libm K)
    (op : EffectOperator) : flow libm op 0 0 = ((0 : K), (0 : K)) := by
  cases op
  · rw [flow_derivative]; split <;> simp
  · rw [flow_gradient]; split <;> simp

end VanGoghLIC


namespace VanGoghLIC

end VanGoghLIC


namespace VanGoghLIC

/-! ## The kernels `cubic` and `filter`, and the HSL conversion of a gray colour -/

theorem cubic_of_abs_lt {K : Type} [LinearOrderedField K] (t : K) (h : |t| < 1) :
    cubic t = |t| * |t| * (2 * |t| - 3) + 1 := by
  simp only [cubic, if_pos h]

theorem cubic_of_le_abs {K : Type} [LinearOrderedField K] (t : K) (h : 1 ≤ |t|) :
    cubic t = 0 := by
  simp only [cubic, if_neg (not_lt.mpr h)]

theorem cubic_of_unit {K : Type} [LinearOrderedField K] (t : K) (h0 : 0 ≤ t) (h1 : t < 1) :
    cubic t = t * t * (2 * t - 3) + 1 := by
  rw [cubic_of_abs_lt t (by rw [abs_of_nonneg h0]; exact h1), abs_of_nonneg h0]

/-- C14: `cubic` is even, `cubic (0) = 1`, `cubic (1) = cubic (-1) = 0`,
`cubic (t) = 0` whenever `|t| ≥ 1`, and `cubic` is monotonically decreasing on
`[0, 1]`. -/
theorem cubic_properties {K : Type} [LinearOrderedField K] :
    (∀ t : K, cubic (-t) = cubic t) ∧ cubic (0 : K) = 1 ∧ cubic (1 : K) = 0 ∧
      cubic (-1 : K) = 0 ∧ (∀ t : K, 1 ≤ |t| → cubic t = 0) ∧
      (∀ s t : K, 0 ≤ s → s ≤ t → t ≤ 1 → cubic t ≤ cubic s) := by
  refine ⟨fun t => ?_, ?_, ?_, ?_, fun t ht => cubic_of_le_abs t ht, fun s t hs hst ht => ?_⟩
  · simp only [cubic, abs_neg]
  · rw [cubic_of_unit 0 (le_refl 0) (by norm_num)]; norm_num
  · exact cubic_of_le_abs 1 (by rw [abs_one])
  · exact cubic_of_le_abs (-1) (by rw [abs_neg, abs_one])
  · rcases eq_or_lt_of_le ht with h1 | h1
    · rw [h1, cubic_of_le_abs 1 (by rw [abs_one])]
      rcases eq_or_lt_of_le (hst.trans ht) with hs1 | hs1
      · rw [hs1, cubic_of_le_abs 1 (by rw [abs_one])]
      · rw [cubic_of_unit s hs hs1]
        nlinarith [mul_nonneg (mul_self_nonneg (1 - s)) (by linarith : (0 : K) ≤ 1 + 2 * s)]
    · have hs1 : s < 1 := lt_of_le_of_lt hst h1
      have ht0 : 0 ≤ t := hs.trans hst
      rw [cubic_of_unit s hs hs1, cubic_of_unit t ht0 h1]
      have hfac : s * s * (2 * s - 3) + 1 - (t * t * (2 * t - 3) + 1)
          = (t - s) * (3 * (s + t) - 2 * (s * s + s * t + t * t)) := by ring
      have h2 : 0 ≤ 3 * (s + t) - 2 * (s * s + s * t + t * t) := by
        nlinarith [mul_nonneg hs (by linarith : (0 : K) ≤ 1 - s),
          mul_nonneg ht0 (by linarith : (0 : K) ≤ 1 - t),
          mul_nonneg hs (by linarith : (0 : K) ≤ 1 - t),
          mul_nonneg ht0 (by linarith : (0 : K) ≤ 1 - s)]
      have h3 := mul_nonneg (by linarith : (0 : K) ≤ t - s) h2
      linarith

/-- C15: for a half-width `l ≥ 0.1`, `filter` is symmetric, `filter (0) = 1`,
`filter (l) = filter (-l) = 0`, `filter (u) = 0` for `|u| > l`, and for
`|u| ≤ l` it is `1 - |u| / l`, a value in `[0, 1]`. -/
theorem filter_properties {K : Type} [LinearOrderedField K] [FloorRing K] (self : VanGoghLIC K)
    (hl : 1 / 10 ≤ self.l) :
    (∀ u : K, filter self (-u) = filter self u) ∧ filter self 0 = 1 ∧
      filter self self.l = 0 ∧ filter self (-self.l) = 0 ∧
      (∀ u : K, self.l < |u| → filter self u = 0) ∧
      (∀ u : K, |u| ≤ self.l →
        filter self u = 1 - |u| / self.l ∧ 0 ≤ filter self u ∧ filter self u ≤ 1) := by
  have hpos : 0 < self.l := lt_of_lt_of_le (by norm_num) hl
  have hne : self.l ≠ 0 := ne_of_gt hpos
  have hin : ∀ u : K, |u| ≤ self.l → filter self u = 1 - |u| / self.l := by
    intro u hu
    have : ¬ (1 - |u| / self.l < 0) := by
      rw [not_lt, sub_nonneg, div_le_one hpos]
      exact hu
    simp only [filter, if_neg this]
  refine ⟨fun u => ?_, ?_, ?_, ?_, fun u hu => ?_, fun u hu => ⟨hin u hu, ?_, ?_⟩⟩
  · simp only [filter, abs_neg]
  · rw [hin 0 (by rw [abs_zero]; exact le_of_lt hpos)]; simp
  · rw [hin self.l (by rw [abs_of_pos hpos]), abs_of_pos hpos, div_self hne, sub_self]
  · rw [hin (-self.l) (by rw [abs_neg, abs_of_pos hpos]), abs_neg, abs_of_pos hpos, div_self hne,
      sub_self]
  · have : 1 - |u| / self.l < 0 := by
      rw [sub_neg, one_lt_div hpos]
      exact hu
    simp only [filter, if_pos this]
  · rw [hin u hu, sub_nonneg, div_le_one hpos]
    exact hu
  · rw [hin u hu]
    have : 0 ≤ |u| / self.l := div_nonneg (abs_nonneg u) (le_of_lt hpos)
    linarith

/-- C15 at a concrete input: the object of the constructor, whose `l` is `10`. -/
theorem filter_properties_witness :
    filter (VanGoghLIC.new : VanGoghLIC ℚ) 0 = 1 ∧ filter (VanGoghLIC.new : VanGoghLIC ℚ) 10 = 0 ∧
      filter (VanGoghLIC.new : VanGoghLIC ℚ) 11 = 0 ∧
      filter (VanGoghLIC.new : VanGoghLIC ℚ) (-5) = 1 - |(-5 : ℚ)| / 10 := by
  have h := filter_properties (VanGoghLIC.new : VanGoghLIC ℚ) (by decide!)
  refine ⟨h.2.1, h.2.2.1, h.2.2.2.2.1 11 (by decide!), (h.2.2.2.2.2 (-5) (by decide!)).1⟩

theorem gimp_rgba_max_ge {K : Type} [LinearOrderedField K] (rgb : GimpRGBA K) :
    rgb.v0 ≤ gimp_rgba_max rgb ∧ rgb.v1 ≤ gimp_rgba_max rgb ∧ rgb.v2 ≤ gimp_rgba_max rgb := by
  unfold gimp_rgba_max
  split_ifs <;> refine ⟨?_, ?_, ?_⟩ <;> linarith

theorem gimp_rgba_min_le {K : Type} [LinearOrderedField K] (rgb : GimpRGBA K) :
    gimp_rgba_min rgb ≤ rgb.v0 ∧ gimp_rgba_min rgb ≤ rgb.v1 ∧ gimp_rgba_min rgb ≤ rgb.v2 := by
  unfold gimp_rgba_min
  split_ifs <;> refine ⟨?_, ?_, ?_⟩ <;> linarith

/-- C17: for a colour whose red, green and blue channels have equal maximum
and minimum, `gimp_rgba_to_hsl` returns the hue `GIMP_HSL_UNDEFINED = -1`, the
saturation `0`, the lightness equal to the common value of the three channels,
and the alpha unchanged. -/
theorem gimp_rgba_to_hsl_gray {K : Type} [LinearOrderedField K] (rgb : GimpRGBA K)
    (h : gimp_rgba_max rgb = gimp_rgba_min rgb) :
    (gimp_rgba_to_hsl rgb).v0 = -1 ∧ (gimp_rgba_to_hsl rgb).v0 = GIMP_HSL_UNDEFINED ∧
      (gimp_rgba_to_hsl rgb).v1 = 0 ∧
      (gimp_rgba_to_hsl rgb).v2 = rgb.v0 ∧ rgb.v0 = rgb.v1 ∧ rgb.v1 = rgb.v2 ∧
      (gimp_rgba_to_hsl rgb).v3 = rgb.v3 := by
  obtain ⟨a0, a1, a2⟩ := gimp_rgba_max_ge rgb
  obtain ⟨b0, b1, b2⟩ := gimp_rgba_min_le rgb
  have e0 : rgb.v0 = gimp_rgba_max rgb := le_antisymm a0 (h ▸ b0)
  have e1 : rgb.v1 = gimp_rgba_max rgb := le_antisymm a1 (h ▸ b1)
  have e2 : rgb.v2 = gimp_rgba_max rgb := le_antisymm a2 (h ▸ b2)
  have hhsl : gimp_rgba_to_hsl rgb
      = ⟨GIMP_HSL_UNDEFINED, 0, (gimp_rgba_max rgb + gimp_rgba_min rgb) / 2, rgb.v3⟩ := by
    simp only [gimp_rgba_to_hsl, if_pos h]
  rw [hhsl]
  refine ⟨rfl, rfl, rfl, ?_, by rw [e0, e1], by rw [e1, e2], rfl⟩
  show (gimp_rgba_max rgb + gimp_rgba_min rgb) / 2 = rgb.v0
  rw [← h, e0]
  ring

/-- C17 at a concrete input: the gray `(0.5, 0.5, 0.5, 1)`. -/
theorem gimp_rgba_to_hsl_gray_witness :
    gimp_rgba_to_hsl (gray : Vec4d ℚ) = ⟨-1, 0, 1 / 2, 1⟩ := by
  obtain ⟨h0, _, h1, h2, _, _, h3⟩ := gimp_rgba_to_hsl_gray (gray : Vec4d ℚ) (by decide!)
  cases hh : gimp_rgba_to_hsl (gray : Vec4d ℚ) with
  | mk a b c d =>
    rw [hh] at h0 h1 h2 h3
    simp only [Vec4d.mk.injEq]
    exact ⟨h0, h1, h2, h3⟩

end VanGoghLIC


namespace VanGoghLIC

/-! ## A constant scalar field; the filter half-width -/

/-- C18: on a spatially constant scalar field of `W` columns and `H` rows (both
at least 1) `gradx` and `grady` return `0` at every pixel, the flow vector
derived from them is exactly `(0, 0)` for both operators and every square
root, and that is the vector the pixel loop hands to the integrator. -/
theorem constant_field_zero_flow {K : Type} [LinearOrderedField K] [FloorRing K]
    (self : VanGoghLIC K) (f : List Nat) (W H : Nat) (hW : 1 ≤ W) (hH : 1 ≤ H)
    (hw : self.effect_width = W) (hh : self.effect_height = H) (hlen : f.length = W * H)
    (c0 : Nat) (hall : ∀ v ∈ f, v = c0) :
    (∀ x y : Int, gradx self f x y = .ok 0 ∧ grady self f x y = .ok 0) ∧
    (∀ (libm : Libm K) (op : EffectOperator), flow libm op 0 0 = ((0 : K), (0 : K))) ∧
    (∀ (libm : Libm K) (G : Grid K) (input_image : Mat K) (op : EffectOperator)
        (xcount ycount : Nat),
      compute_lic_pixel libm self G input_image f op xcount ycount =
        match self.convolve_with with
        | .WHITE_NOISE =>
          (peek input_image xcount ycount).bind fun color =>
            (lic_noise self G xcount ycount 0 0).bind fun tmp =>
              .ok (gimp_rgba_multiply color tmp)
        | .SOURCE_IMAGE => lic_image self input_image xcount ycount 0 0) := by
  have hg : ∀ x y : Int, gradx self f x y = .ok 0 ∧ grady self f x y = .ok 0 := by
    intro x y
    have h := grad_const W H hW hH f hlen c0 hall x y
    constructor
    · rw [gradx_eq self f W H hW hH hw hh hlen x y]
      exact congrArg Except.ok h.1
    · rw [grady_eq self f W H hW hH hw hh hlen x y]
      exact congrArg Except.ok h.2
  refine ⟨hg, fun libm op => flow_zero libm op, fun libm G input_image op xcount ycount => ?_⟩
  cases hm : self.convolve_with <;>
    simp only [compute_lic_pixel, hm, (hg xcount ycount).1, (hg xcount ycount).2, bind,
      Except.bind, flow_zero, pure, Except.pure]

/-- C18 at a concrete input: a field of 3 columns and 2 rows with every entry `7`. -/
theorem constant_field_zero_flow_witness :
    gradx self32 fieldConst32 5 (-4) = .ok 0 ∧ grady self32 fieldConst32 5 (-4) = .ok 0 ∧
      flow libq .GRADIENT 0 0 = (0, 0) ∧ flow libq .DERIVATIVE 0 0 = (0, 0) := by
  have h := constant_field_zero_flow self32 fieldConst32 3 2 (by decide) (by decide) rfl rfl rfl 7
    (by decide)
  exact ⟨(h.1 5 (-4)).1, (h.1 5 (-4)).2, h.2.1 libq .GRADIENT, h.2.1 libq .DERIVATIVE⟩

/-- The object that `compute` leaves once both images have passed the type
checks, whatever happens later in the call: its private parameters are set
from the public ones, `l` and `filter_length` floored at `0.1`. -/
theorem compute_self_of_types {K : Type} [LinearOrderedField K] [FloorRing K] (libm : Libm K)
    (G : Grid K) (self : VanGoghLIC K) (input_image effect_image : Mat K)
    (hti : input_image.type = CV_64FC4) (hte : effect_image.type = CV_64FC4) :
    (compute libm G self input_image effect_image).self.l = max self.filter_length (1 / 10) ∧
    (compute libm G self input_image effect_image).self.filter_length
      = max self.filter_length (1 / 10) ∧
    (compute libm G self input_image effect_image).self.isteps = self.integration_steps ∧
    (compute libm G self input_image effect_image).self.integration_steps
      = self.integration_steps ∧
    (compute libm G self input_image effect_image).G = gridAfter libm G self := by
  have hmax : (if self.filter_length < 1 / 10 then (1 / 10 : K) else self.filter_length)
      = max self.filter_length (1 / 10) := by
    split
    · next h => rw [max_eq_right (le_of_lt h)]
    · next h => rw [max_eq_left (not_lt.mp h)]
  unfold compute
  rw [if_neg (not_not.mpr hti), if_neg (not_not.mpr hte)]
  by_cases hfl : self.filter_length < 1 / 10
  · rw [if_pos hfl] at hmax
    simp only [if_pos hfl]
    split <;> exact ⟨hmax, hmax, rfl, rfl, rfl⟩
  · rw [if_neg hfl] at hmax
    simp only [if_neg hfl]
    split <;> exact ⟨hmax, hmax, rfl, rfl, rfl⟩

/-- A call of `compute` that fails a type check leaves the grid and the object
as they were. -/
theorem compute_of_bad_types {K : Type} [LinearOrderedField K] [FloorRing K] (libm : Libm K)
    (G : Grid K) (self : VanGoghLIC K) (input_image effect_image : Mat K)
    (h : input_image.type ≠ CV_64FC4 ∨ effect_image.type ≠ CV_64FC4) :
    (compute libm G self input_image effect_image).G = G ∧
      (compute libm G self input_image effect_image).self = self := by
  unfold compute
  by_cases hti : input_image.type = CV_64FC4
  · have hte : effect_image.type ≠ CV_64FC4 := h.resolve_left (not_not.mpr hti)
    rw [if_neg (not_not.mpr hti), if_pos hte]
    exact ⟨rfl, rfl⟩
  · rw [if_pos hti]
    exact ⟨rfl, rfl⟩

end VanGoghLIC

namespace VanGoghLIC

/-- C20: the half-width `l` is `10` at construction; after every call of
`compute` that passes the image-type checks it is `max (filter_length, 0.1)`,
so at least `0.1`, and `isteps` is `integration_steps`; a call that fails a type
check leaves the object as it was, so `l ≥ 0.1` is kept by every call; the
integrators run on the object so set up, `filter` is the tent of half-width `l`,
and both integrators advance by the step `2 l / isteps`. -/
theorem half_width_at_least_tenth {K : Type} [LinearOrderedField K] [FloorRing K]
    (libm : Libm K) (G : Grid K) (self : VanGoghLIC K) (input_image effect_image : Mat K) :
    (1 / 10 ≤ (VanGoghLIC.new : VanGoghLIC K).l) ∧
    (input_image.type = CV_64FC4 → effect_image.type = CV_64FC4 →
      (compute libm G self input_image effect_image).self.l = max self.filter_length (1 / 10) ∧
      1 / 10 ≤ (compute libm G self input_image effect_image).self.l ∧
      (compute libm G self input_image effect_image).self.isteps = self.integration_steps ∧
      2 * (compute libm G self input_image effect_image).self.l
          / (compute libm G self input_image effect_image).self.isteps
        = 2 * max self.filter_length (1 / 10) / self.integration_steps) ∧
    (1 / 10 ≤ self.l → 1 / 10 ≤ (compute libm G self input_image effect_image).self.l) ∧
    (∀ sf, input_image.type = CV_64FC4 → effect_image.type = CV_64FC4 →
      (self.effect_channel = HUE ∨ self.effect_channel = SATURATION
        ∨ self.effect_channel = BRIGHTNESS) →
      rgb_to_hsl libm effect_image self.effect_channel = .ok sf →
      (compute libm G self input_image effect_image).output =
        compute_lic libm (compute libm G self input_image effect_image).self
          (compute libm G self input_image effect_image).G input_image sf self.effect_operator) ∧
    (∀ (S : VanGoghLIC K) (u : K), filter S u = max 0 (1 - |u| / S.l)) ∧
    (∀ (S : VanGoghLIC K) (buffer : Mat K) (x y : Int) (vx vy : K),
      lic_image S buffer x y vx vy =
        (getpixel buffer ((x : K) + S.l * vx) ((y : K) + S.l * vy)).bind fun col1 =>
          (lic_image_loop S buffer x y vx vy (2 * S.l / S.isteps) ⌊S.isteps⌋₊
              (-S.l + 2 * S.l / S.isteps) (gimp_rgba_multiply col1 (filter S (-S.l)))
              ⟨0, 0, 0, 0⟩).bind fun col =>
            .ok (gimp_rgba_clamp (gimp_rgba_multiply col (1 / S.l)))) ∧
    (∀ (S : VanGoghLIC K) (G1 : Grid K) (x y : Int) (vx vy : K),
      lic_noise S G1 x y vx vy =
        (noise S G1 ((x : K) + S.l * vx) ((y : K) + S.l * vy)).bind fun n =>
          (lic_noise_loop S G1 x y vx vy (2 * S.l / S.isteps) ⌊S.isteps⌋₊
              (-S.l + 2 * S.l / S.isteps) (filter S (-S.l) * n) 0).bind fun i =>
            .ok (CLAMP ((i - S.minv) / (S.maxv - S.minv)) 0 1 / 2 + 1 / 2)) := by
  refine ⟨?_, fun hti hte => ?_, fun hinv => ?_, fun sf hti hte hch hsf => ?_,
    fun S u => ?_, fun S buffer x y vx vy => rfl, fun S G1 x y vx vy => rfl⟩
  · show (1 / 10 : K) ≤ 10
    norm_num
  · obtain ⟨hl, _, hs, _, _⟩ := compute_self_of_types libm G self input_image effect_image hti hte
    exact ⟨hl, by rw [hl]; exact le_max_right _ _, hs, by rw [hl, hs]⟩
  · by_cases hty : input_image.type = CV_64FC4 ∧ effect_image.type = CV_64FC4
    · rw [(compute_self_of_types libm G self input_image effect_image hty.1 hty.2).1]
      exact le_max_right _ _
    · have hbad : input_image.type ≠ CV_64FC4 ∨ effect_image.type ≠ CV_64FC4 := by
        by_contra hcon
        push_neg at hcon
        exact hty hcon
      rw [(compute_of_bad_types libm G self input_image effect_image hbad).2]
      exact hinv
  · rw [compute_eq libm G self input_image effect_image sf hti hte hch hsf]
  · rw [filter_eq_tent]; rfl

/-- C20 at a concrete input: `filter_length = 0.01` is floored to `l = 0.1`, and
the step for 25 steps is `2 * 0.1 / 25`. -/
theorem half_width_at_least_tenth_witness :
    (compute libq Grid.start selfShortFilter (onePixel gray) (onePixel gray)).self.l = 1 / 10 ∧
      2 * (compute libq Grid.start selfShortFilter (onePixel gray) (onePixel gray)).self.l
          / (compute libq Grid.start selfShortFilter (onePixel gray) (onePixel gray)).self.isteps
        = 1 / 125 := by
  obtain ⟨hl, _, _, hstep⟩ :=
    (half_width_at_least_tenth libq Grid.start selfShortFilter (onePixel gray) (onePixel gray)).2.1
      rfl rfl
  exact ⟨hl.trans (by decide!), hstep.trans (by decide!)⟩

end VanGoghLIC


namespace VanGoghLIC

/-! ## The shared grid -/

theorem generatevectors_cell {K : Type} [LinearOrderedField K] [FloorRing K] (libm : Libm K)
    (G : Grid K) (i j : Nat) (hi : i < 40) (hj : j < 40) :
    generatevectors libm G i j =
      (libm.cos (libm.uniform1 (i * 40 + j) * 2 * libm.pi),
        libm.sin (libm.uniform1 (i * 40 + j) * 2 * libm.pi)) := by
  simp [generatevectors, numx, numy, hi, hj]

/-- The grid that a call of `compute` leaves: the grid as it was, or, in
`WHITE_NOISE` mode after both type checks, the freshly generated one. -/
theorem compute_grid_cases {K : Type} [LinearOrderedField K] [FloorRing K] (libm : Libm K)
    (G : Grid K) (self : VanGoghLIC K) (input_image effect_image : Mat K) :
    (compute libm G self input_image effect_image).G = G ∨
      (self.convolve_with = .WHITE_NOISE ∧ input_image.type = CV_64FC4 ∧
        effect_image.type = CV_64FC4 ∧
        (compute libm G self input_image effect_image).G = generatevectors libm G) := by
  by_cases hty : input_image.type = CV_64FC4 ∧ effect_image.type = CV_64FC4
  · have hG := (compute_self_of_types libm G self input_image effect_image hty.1 hty.2).2.2.2.2
    cases hm : self.convolve_with with
    | WHITE_NOISE =>
      right
      refine ⟨rfl, hty.1, hty.2, ?_⟩
      rw [hG, gridAfter, if_pos hm]
    | SOURCE_IMAGE =>
      left
      rw [hG, gridAfter, if_neg (by rw [hm]; decide)]
  · left
    have hbad : input_image.type ≠ CV_64FC4 ∨ effect_image.type ≠ CV_64FC4 := by
      by_contra hcon
      push_neg at hcon
      exact hty hcon
    exact (compute_of_bad_types libm G self input_image effect_image hbad).1

/-- C11: `compute` rewrites the shared 40x40 grid if and only if
`convolve_with = WHITE_NOISE`: for every call with `convolve_with =
SOURCE_IMAGE` every grid entry after the call equals its value before the
call, and a call with `convolve_with = WHITE_NOISE`, once accepted by the two
image-type checks that precede everything else, assigns each of the 1600
entries its fresh `(cos, sin)` pair.  A call that a type check rejects does
nothing at all, so it leaves the grid as it was in either mode. -/
theorem compute_grid_frame {K : Type} [LinearOrderedField K] [FloorRing K] (libm : Libm K)
    (G : Grid K) (self : VanGoghLIC K) (input_image effect_image : Mat K) :
    (self.convolve_with = .SOURCE_IMAGE →
      (compute libm G self input_image effect_image).G = G) ∧
    ((input_image.type ≠ CV_64FC4 ∨ effect_image.type ≠ CV_64FC4) →
      (compute libm G self input_image effect_image).G = G) ∧
    (self.convolve_with = .WHITE_NOISE → input_image.type = CV_64FC4 →
      effect_image.type = CV_64FC4 →
      (compute libm G self input_image effect_image).G = generatevectors libm G ∧
      ∀ i j, i < 40 → j < 40 →
        (compute libm G self input_image effect_image).G i j =
          (libm.cos (libm.uniform1 (i * 40 + j) * 2 * libm.pi),
            libm.sin (libm.uniform1 (i * 40 + j) * 2 * libm.pi))) := by
  refine ⟨fun hm => ?_, fun hbad => ?_, fun hm hti hte => ?_⟩
  · rcases compute_grid_cases libm G self input_image effect_image with h | ⟨hw, _⟩
    · exact h
    · rw [hm] at hw; cases hw
  · exact (compute_of_bad_types libm G self input_image effect_image hbad).1
  · have hG : (compute libm G self input_image effect_image).G = generatevectors libm G := by
      rw [(compute_self_of_types libm G self input_image effect_image hti hte).2.2.2.2, gridAfter,
        if_pos hm]
    refine ⟨hG, fun i j hi hj => ?_⟩
    rw [hG, generatevectors_cell libm G i j hi hj]

/-- A call that the first type check rejects, evaluated: the input image is
not `CV_64FC4`, the call ends with `invalid_argument`, and the entry `(0, 0)`
of the grid keeps its value `(0, 0)`; an accepted `WHITE_NOISE` call would put
`(1, 0)` there. -/
theorem compute_rejected_call_grid :
    selfNoise.convolve_with = .WHITE_NOISE ∧
      (compute libq Grid.start selfNoise badTypeImage (onePixel gray)).output
        = .error .invalidArgument ∧
      (compute libq Grid.start selfNoise badTypeImage (onePixel gray)).G 0 0 = (0, 0) ∧
      generatevectors libq Grid.start 0 0 = (1, 0) := by
  decide!

/-- C12, amended: when the cosine and sine of the 1600 angles drawn by
`generatevectors` satisfy `cos² + sin² = 1`, every entry of the 40x40 grid has
unit length after every call of `compute` in `WHITE_NOISE` mode that passes the
type checks, which are the calls that read the grid; and in every state
reachable from process start the 1600 entries are either all still `(0, 0)`,
as the static array starts, or all of unit length. -/
theorem grid_unit_after_white_noise {K : Type} [LinearOrderedField K] [FloorRing K]
    (libm : Libm K)
    (hunit : ∀ i j, i < 40 → j < 40 →
      libm.cos (libm.uniform1 (i * 40 + j) * 2 * libm.pi)
          * libm.cos (libm.uniform1 (i * 40 + j) * 2 * libm.pi)
        + libm.sin (libm.uniform1 (i * 40 + j) * 2 * libm.pi)
          * libm.sin (libm.uniform1 (i * 40 + j) * 2 * libm.pi) = 1) :
    (∀ (G : Grid K) (self : VanGoghLIC K) (input_image effect_image : Mat K),
      self.convolve_with = .WHITE_NOISE → input_image.type = CV_64FC4 →
      effect_image.type = CV_64FC4 →
      ∀ i j, i < 40 → j < 40 →
        unitLength ((compute libm G self input_image effect_image).G i j)) ∧
    (∀ G : Grid K, ReachableGrid libm G →
      (∀ i j, i < 40 → j < 40 → G i j = (0, 0)) ∨
      (∀ i j, i < 40 → j < 40 → unitLength (G i j))) := by
  have hgen : ∀ (G : Grid K) i j, i < 40 → j < 40 → unitLength (generatevectors libm G i j) := by
    intro G i j hi hj
    rw [generatevectors_cell libm G i j hi hj]
    exact hunit i j hi hj
  constructor
  · intro G self input_image effect_image hm hti hte i j hi hj
    rcases compute_grid_cases libm G self input_image effect_image with h | ⟨_, _, _, h⟩
    · have hG := (compute_self_of_types libm G self input_image effect_image hti hte).2.2.2.2
      rw [hG, gridAfter, if_pos hm]
      exact hgen G i j hi hj
    · rw [h]
      exact hgen G i j hi hj
  · intro G hG
    induction hG with
    | start => exact Or.inl (fun _ _ _ _ => rfl)
    | call G self input_image effect_image _ ih =>
      rcases compute_grid_cases libm G self input_image effect_image with h | ⟨_, _, _, h⟩
      · rw [h]; exact ih
      · rw [h]; exact Or.inr (fun i j hi hj => hgen G i j hi hj)

/-- C12, amended, at a concrete input: after a `WHITE_NOISE` call with the
angles all `0`, the entry `(3, 7)` is `(1, 0)`, of unit length. -/
theorem grid_unit_after_white_noise_witness :
    unitLength ((compute libq Grid.start selfNoise (onePixel gray) (onePixel gray)).G 3 7) :=
  (grid_unit_after_white_noise libq (fun i j _ _ => by simp [libq])).1 Grid.start selfNoise
    (onePixel gray) (onePixel gray) rfl rfl rfl 3 7 (by decide) (by decide)

/-- C12 as stated fails: at process start, and still after a call of `compute`
in `SOURCE_IMAGE` mode, the entry `(0, 0)` of the grid is `(0, 0)`, of length
`0`, not `1`. -/
theorem grid_start_counterexample :
    ReachableGrid libq Grid.start ∧
      ReachableGrid libq
        (compute libq Grid.start VanGoghLIC.new (onePixel gray) (onePixel gray)).G ∧
      (Grid.start : Grid ℚ) 0 0 = (0, 0) ∧
      (compute libq Grid.start VanGoghLIC.new (onePixel gray) (onePixel gray)).G 0 0 = (0, 0) ∧
      ¬ unitLength ((0, 0) : ℚ × ℚ) := by
  refine ⟨ReachableGrid.start, ReachableGrid.call _ _ _ _ ReachableGrid.start, rfl, by decide!,
    ?_⟩
  simp [unitLength]

end VanGoghLIC


namespace VanGoghLIC

/-! ## Reproducibility -/

theorem wrapped_cell_lt (i : Int) : (i % 40).toNat < 40 := by
  have h0 : 0 ≤ i % 40 := Int.emod_nonneg i (by decide)
  have h1 : i % 40 < 40 := Int.emod_lt_of_pos i (by decide)
  omega

/-- The noise field reads only the 40x40 cells of the grid. -/
theorem noise_congr_grid {K : Type} [LinearOrderedField K] [FloorRing K] (self : VanGoghLIC K)
    (G1 G2 : Grid K) (hG : ∀ i j, i < 40 → j < 40 → G1 i j = G2 i j) (x y : K) :
    noise self G1 x y = noise self G2 x y := by
  have hc : ∀ i j : Int, G1 (i % 40).toNat (j % 40).toNat = G2 (i % 40).toNat (j % 40).toNat :=
    fun i j => hG _ _ (wrapped_cell_lt i) (wrapped_cell_lt j)
  simp only [noise_eq, noiseSpec, hc]

theorem lic_noise_loop_congr_grid {K : Type} [LinearOrderedField K] [FloorRing K]
    (self : VanGoghLIC K) (G1 G2 : Grid K) (hG : ∀ i j, i < 40 → j < 40 → G1 i j = G2 i j)
    (xx yy c s step : K) (fuel : Nat) (u f1 i : K) :
    lic_noise_loop self G1 xx yy c s step fuel u f1 i
      = lic_noise_loop self G2 xx yy c s step fuel u f1 i := by
  induction fuel generalizing u f1 i with
  | zero => rfl
  | succ n ih =>
    simp only [lic_noise_loop, noise_congr_grid self G1 G2 hG, ih]

theorem lic_noise_congr_grid {K : Type} [LinearOrderedField K] [FloorRing K]
    (self : VanGoghLIC K) (G1 G2 : Grid K) (hG : ∀ i j, i < 40 → j < 40 → G1 i j = G2 i j)
    (x y : Int) (vx vy : K) :
    lic_noise self G1 x y vx vy = lic_noise self G2 x y vx vy := by
  simp only [lic_noise, noise_congr_grid self G1 G2 hG, lic_noise_loop_congr_grid self G1 G2 hG]

/-- The output image depends on the grid through its 40x40 cells only, and in
`SOURCE_IMAGE` mode not at all. -/
theorem compute_lic_congr_grid {K : Type} [LinearOrderedField K] [FloorRing K] (libm : Libm K)
    (self : VanGoghLIC K) (G1 G2 : Grid K) (input_image : Mat K) (scalarfield : List Nat)
    (effect_operator : EffectOperator)
    (hG : self.convolve_with = .WHITE_NOISE → ∀ i j, i < 40 → j < 40 → G1 i j = G2 i j) :
    compute_lic libm self G1 input_image scalarfield effect_operator
      = compute_lic libm self G2 input_image scalarfield effect_operator := by
  have hpix : ∀ xcount ycount : Nat,
      compute_lic_pixel libm self G1 input_image scalarfield effect_operator xcount ycount
        = compute_lic_pixel libm self G2 input_image scalarfield effect_operator xcount ycount := by
    intro xcount ycount
    unfold compute_lic_pixel
    cases hm : self.convolve_with with
    | WHITE_NOISE => simp only [lic_noise_congr_grid self G1 G2 (hG hm)]
    | SOURCE_IMAGE => rfl
  simp only [compute_lic, hpix]

theorem generatevectors_congr {K : Type} [LinearOrderedField K] [FloorRing K] (libm : Libm K)
    (G1 G2 : Grid K) (i j : Nat) (hi : i < 40) (hj : j < 40) :
    generatevectors libm G1 i j = generatevectors libm G2 i j := by
  rw [generatevectors_cell libm G1 i j hi hj, generatevectors_cell libm G2 i j hi hj]

/-- The object and the output that a call of `compute` leaves do not depend on
the grid the process held before the call. -/
theorem compute_grid_free {K : Type} [LinearOrderedField K] [FloorRing K] (libm : Libm K)
    (G1 G2 : Grid K) (self : VanGoghLIC K) (input_image effect_image : Mat K) :
    (compute libm G1 self input_image effect_image).self
        = (compute libm G2 self input_image effect_image).self ∧
      (compute libm G1 self input_image effect_image).output
        = (compute libm G2 self input_image effect_image).output := by
  have hgrid : ∀ S : VanGoghLIC K, S.convolve_with = self.convolve_with →
      S.convolve_with = .WHITE_NOISE → ∀ i j, i < 40 → j < 40 →
      (if self.convolve_with = .WHITE_NOISE then generatevectors libm G1 else G1) i j
        = (if self.convolve_with = .WHITE_NOISE then generatevectors libm G2 else G2) i j := by
    intro S hS hm i j hi hj
    rw [if_pos (hS ▸ hm), if_pos (hS ▸ hm)]
    exact generatevectors_congr libm G1 G2 i j hi hj
  unfold compute
  by_cases hti : input_image.type = CV_64FC4
  · by_cases hte : effect_image.type = CV_64FC4
    · rw [if_neg (not_not.mpr hti), if_neg (not_not.mpr hte), if_neg (not_not.mpr hti),
        if_neg (not_not.mpr hte)]
      dsimp only
      split
      · exact ⟨rfl, rfl⟩
      · refine ⟨rfl, ?_⟩
        exact compute_lic_congr_grid libm _ _ _ _ _ _ (hgrid _ (by split <;> rfl))
    · rw [if_neg (not_not.mpr hti), if_pos hte, if_neg (not_not.mpr hti), if_pos hte]
      exact ⟨rfl, rfl⟩
  · rw [if_pos hti, if_pos hti]
    exact ⟨rfl, rfl⟩

/-- C19, amended: the engines of `generatevectors` and `rgb_to_hsl` are
default-constructed, so each call draws the same numbers and `compute` is
reproducible: two executions with the same object, the same input image and
the same effect image, started from any two process states `G1` and `G2`,
leave the same object (so the same scalar field) and the same output image
or fault, and, when the grid is regenerated (`WHITE_NOISE` mode, both type
checks passed), the same 1600 grid entries. -/
theorem compute_reproducible {K : Type} [LinearOrderedField K] [FloorRing K] (libm : Libm K)
    (G1 G2 : Grid K) (self : VanGoghLIC K) (input_image effect_image : Mat K) :
    (compute libm G1 self input_image effect_image).output
        = (compute libm G2 self input_image effect_image).output ∧
      (compute libm G1 self input_image effect_image).self
        = (compute libm G2 self input_image effect_image).self ∧
      (compute libm G1 self input_image effect_image).self.scalarfield
        = (compute libm G2 self input_image effect_image).self.scalarfield ∧
      (self.convolve_with = .WHITE_NOISE → input_image.type = CV_64FC4 →
        effect_image.type = CV_64FC4 → ∀ i j, i < 40 → j < 40 →
        (compute libm G1 self input_image effect_image).G i j
          = (compute libm G2 self input_image effect_image).G i j) := by
  obtain ⟨hself, hout⟩ := compute_grid_free libm G1 G2 self input_image effect_image
  refine ⟨hout, hself, congrArg (fun S => S.scalarfield) hself, ?_⟩
  intro hm hti hte i j hi hj
  rw [(compute_self_of_types libm G1 self input_image effect_image hti hte).2.2.2.2,
    (compute_self_of_types libm G2 self input_image effect_image hti hte).2.2.2.2, gridAfter,
    gridAfter, if_pos hm, if_pos hm]
  exact generatevectors_congr libm G1 G2 i j hi hj

/-- C19 as stated fails: no two executions of `compute` with the same object
and the same two images differ in the output, in the scalar field or in a
regenerated grid entry, whatever the random stream of the default-seeded
engine is and whatever grids the two processes held before; so for the
`WHITE_NOISE` run on the one-pixel gray image, started once from the zero grid
and once from the grid of entries `(3, 4)`. -/
theorem compute_irreproducible_counterexample :
    (¬ ∃ (libm : Libm ℚ) (G1 G2 : Grid ℚ) (self : VanGoghLIC ℚ) (input_image effect_image : Mat ℚ),
      (compute libm G1 self input_image effect_image).output
          ≠ (compute libm G2 self input_image effect_image).output ∨
        (compute libm G1 self input_image effect_image).self.scalarfield
          ≠ (compute libm G2 self input_image effect_image).self.scalarfield ∨
        (self.convolve_with = .WHITE_NOISE ∧ input_image.type = CV_64FC4 ∧
          effect_image.type = CV_64FC4 ∧ ∃ i j, i < 40 ∧ j < 40 ∧
          (compute libm G1 self input_image effect_image).G i j
            ≠ (compute libm G2 self input_image effect_image).G i j)) ∧
      (compute libq Grid.start selfNoise (onePixel gray) (onePixel gray)).output
        = (compute libq gridThreeFour selfNoise (onePixel gray) (onePixel gray)).output ∧
      (compute libq Grid.start selfNoise (onePixel gray) (onePixel gray)).self.scalarfield = [127] ∧
      (compute libq gridThreeFour selfNoise (onePixel gray) (onePixel gray)).self.scalarfield
        = [127] ∧
      (compute libq Grid.start selfNoise (onePixel gray) (onePixel gray)).G 0 0 = (1, 0) ∧
      (compute libq gridThreeFour selfNoise (onePixel gray) (onePixel gray)).G 0 0 = (1, 0) := by
  refine ⟨?_, by decide!, by decide!, by decide!, by decide!, by decide!⟩
  rintro ⟨libm, G1, G2, self, input_image, effect_image, h | h | ⟨hm, hti, hte, i, j, hi, hj, h⟩⟩
  · exact h (compute_grid_free libm G1 G2 self input_image effect_image).2
  · exact h (congrArg (fun S => S.scalarfield)
      (compute_grid_free libm G1 G2 self input_image effect_image).1)
  · apply h
    rw [(compute_self_of_types libm G1 self input_image effect_image hti hte).2.2.2.2,
      (compute_self_of_types libm G2 self input_image effect_image hti hte).2.2.2.2, gridAfter,
      gridAfter, if_pos hm, if_pos hm]
    exact generatevectors_congr libm G1 G2 i j hi hj

end VanGoghLIC


namespace VanGoghLIC

/-! ## The neighbour indices of `getpixel` -/

/-- The wrapped index of one coordinate of `getpixel` for a size `w ≥ 1`: inside
`0 .. w - 1` when the truncated coordinate `t` is non-negative or not a
multiple of `w`, and equal to `w` itself when `t` is a negative multiple of `w`. -/
theorem getpixel_index_cases (w : Nat) (hw : 0 < w) (t : Int) :
    ((0 ≤ t ∨ ¬ (w : Int) ∣ t) →
      ∃ a : Nat, a < w ∧
        (if t < 0 then (cmod (-t) w).map (fun r => (w : Int) - r) else cmod t w) = .ok (a : Int)) ∧
    (t < 0 → (w : Int) ∣ t →
      (if t < 0 then (cmod (-t) w).map (fun r => (w : Int) - r) else cmod t w) = .ok (w : Int)) := by
  have hne : (w : Int) ≠ 0 := by omega
  constructor
  · intro h
    by_cases ht : t < 0
    · have hnd : ¬ (w : Int) ∣ t := h.resolve_left (by omega)
      have hmod : (-t).tmod w = (-t) % w := Int.tmod_eq_emod (by omega) (by omega)
      have h0 : 0 ≤ (-t) % (w : Int) := Int.emod_nonneg _ hne
      have h1 : (-t) % (w : Int) < w := Int.emod_lt_of_pos _ (by omega)
      have h2 : (-t) % (w : Int) ≠ 0 := by
        intro h3
        exact hnd ((Int.dvd_neg).mp (Int.dvd_of_emod_eq_zero h3))
      refine ⟨((w : Int) - (-t) % w).toNat, by omega, ?_⟩
      simp only [if_pos ht, cmod, hne, if_false, Except.map, hmod]
      congr 1
      omega
    · have hmod : t.tmod w = t % w := Int.tmod_eq_emod (by omega) (by omega)
      have h0 : 0 ≤ t % (w : Int) := Int.emod_nonneg _ hne
      have h1 : t % (w : Int) < w := Int.emod_lt_of_pos _ (by omega)
      refine ⟨(t % w).toNat, by omega, ?_⟩
      simp only [if_neg ht, cmod, hne, if_false, hmod]
      congr 1
      omega
  · intro ht hd
    have hmod : (-t).tmod w = (-t) % w := Int.tmod_eq_emod (by omega) (by omega)
    have h3 : (-t) % (w : Int) = 0 := Int.emod_eq_zero_of_dvd ((Int.dvd_neg).mpr hd)
    simp only [if_pos ht, cmod, hne, if_false, Except.map, hmod, h3, sub_zero]

/-- On a well-formed image with `W, H ≥ 1` the four reads of `getpixel` are in
range whenever neither truncated coordinate is a negative multiple of the
size; when the truncated `u` is a negative multiple of `W`, the first read is
at column `W` and faults, and when the truncated `v` is a negative multiple of
`H` (and the column is in range), the first read is at row `H` and faults. -/
theorem getpixel_range_cases {K : Type} [LinearOrderedField K] [FloorRing K] (buffer : Mat K)
    (hwf : buffer.WF) (hc : 0 < buffer.cols) (hr : 0 < buffer.rows) (u v : K) :
    ((0 ≤ toGint u ∨ ¬ (buffer.cols : Int) ∣ toGint u) →
      (0 ≤ toGint v ∨ ¬ (buffer.rows : Int) ∣ toGint v) →
      ∃ a b : Nat, a < buffer.cols ∧ b < buffer.rows ∧
        getpixel buffer u v = .ok (blendAt buffer u v a b)) ∧
    (toGint u < 0 → (buffer.cols : Int) ∣ toGint u →
      getpixel buffer u v = .error .outOfRange) ∧
    (toGint v < 0 → (buffer.rows : Int) ∣ toGint v →
      getpixel buffer u v = .error .outOfRange) := by
  have hcne : (buffer.cols : Int) ≠ 0 := by omega
  have hrne : (buffer.rows : Int) ≠ 0 := by omega
  have hxok : ∃ x1 : Int,
      (if toGint u < 0 then (cmod (-toGint u) buffer.cols).map (fun r => (buffer.cols : Int) - r)
        else cmod (toGint u) buffer.cols) = .ok x1 := by
    by_cases ht : toGint u < 0
    · simp only [if_pos ht, cmod, hcne, if_false, Except.map]
      exact ⟨_, rfl⟩
    · simp only [if_neg ht, cmod, hcne, if_false]
      exact ⟨_, rfl⟩
  have hyok : ∃ y1 : Int,
      (if toGint v < 0 then (cmod (-toGint v) buffer.rows).map (fun r => (buffer.rows : Int) - r)
        else cmod (toGint v) buffer.rows) = .ok y1 := by
    by_cases ht : toGint v < 0
    · simp only [if_pos ht, cmod, hrne, if_false, Except.map]
      exact ⟨_, rfl⟩
    · simp only [if_neg ht, cmod, hrne, if_false]
      exact ⟨_, rfl⟩
  refine ⟨fun hu hv => ?_, fun hu hd => ?_, fun hv hd => ?_⟩
  · obtain ⟨a, ha, hx⟩ := (getpixel_index_cases buffer.cols hc (toGint u)).1 hu
    obtain ⟨b, hb, hy⟩ := (getpixel_index_cases buffer.rows hr (toGint v)).1 hv
    exact ⟨a, b, ha, hb, getpixel_of_cells buffer hwf u v a b ha hb hx hy⟩
  · have hx := (getpixel_index_cases buffer.cols hc (toGint u)).2 hu hd
    obtain ⟨y1, hy⟩ := hyok
    have hp : peek buffer (buffer.cols : Int) y1 = .error .outOfRange := by
      simp only [peek, lt_self_iff_false, false_and, and_false, if_false]
    simp only [getpixel, hx, hy, bind, Except.bind]
    simp only [cmod, hcne, hrne, if_false, hp]
  · have hy := (getpixel_index_cases buffer.rows hr (toGint v)).2 hv hd
    obtain ⟨x1, hx⟩ := hxok
    have hp : peek buffer x1 (buffer.rows : Int) = .error .outOfRange := by
      simp only [peek, lt_self_iff_false, false_and, and_false, if_false]
    simp only [getpixel, hx, hy, bind, Except.bind]
    simp only [cmod, hcne, hrne, if_false, hp]

/-- C13 at its failing inputs, on an image of 2 columns and 2 rows: for
`u = -2`, an exact negative multiple of `W = 2`, the wrapped index is
`x1 = W - (2 % 2) = 2`, outside `0 .. 1`, and the read faults; so it does for
`u = -5/2`, which truncates to `-2`, and for `v = -4`, where `y1 = 2 = H`; at
`(-1, -1)`, not a multiple, the four reads are in range. -/
theorem getpixel_reads_outside :
    image22.cols = 2 ∧ image22.rows = 2 ∧
      (if toGint (-2 : ℚ) < 0
        then (cmod (-toGint (-2 : ℚ)) image22.cols).map (fun r => (image22.cols : Int) - r)
        else cmod (toGint (-2 : ℚ)) image22.cols) = .ok 2 ∧
      getpixel image22 (-2) 0 = .error .outOfRange ∧
      getpixel image22 (-5 / 2) (1 / 2) = .error .outOfRange ∧
      getpixel image22 0 (-4) = .error .outOfRange ∧
      getpixel image22 (-1) (-1) = .ok ⟨1, 1, 1, 1⟩ := by
  decide!

end VanGoghLIC


namespace VanGoghLIC

/-! ## Continuity of the noise field -/

/-- The fade polynomial as one expression without a case split. -/
theorem cubic_eq_min {K : Type} [LinearOrderedField K] (t : K) :
    cubic t = min |t| 1 * min |t| 1 * (2 * min |t| 1 - 3) + 1 := by
  by_cases h : |t| < 1
  · rw [cubic_of_abs_lt t h, min_eq_left h.le]
  · rw [cubic_of_le_abs t (not_lt.mp h), min_eq_right (not_lt.mp h)]
    ring

theorem cubic_continuous : Continuous (fun t : ℝ => cubic t) := by
  have h : (fun t : ℝ => cubic t)
      = fun t : ℝ => min |t| 1 * min |t| 1 * (2 * min |t| 1 - 3) + 1 := by
    funext t
    exact cubic_eq_min t
  rw [h]
  have hm : Continuous (fun t : ℝ => min |t| 1) := continuous_abs.min continuous_const
  exact ((hm.mul hm).mul ((continuous_const.mul hm).sub continuous_const)).add continuous_const

/-- The fade factor of a cell that is not one of the two cells next to the
coordinate is zero. -/
theorem cubic_far_cell (d x : ℝ) (hd : 0 < d) (i : Int) (hi : i ≠ ⌊x / d⌋)
    (hi1 : i ≠ ⌊x / d⌋ + 1) : cubic ((x - (i : ℝ) * d) / d) = 0 := by
  have he : (x - (i : ℝ) * d) / d = x / d - i := by
    field_simp
    ring
  rw [he]
  apply cubic_of_le_abs
  have hfl : ((⌊x / d⌋ : Int) : ℝ) ≤ x / d := Int.floor_le _
  have hlt : x / d < (⌊x / d⌋ : Int) + 1 := Int.lt_floor_add_one _
  rcases lt_or_gt_of_ne hi with h | h
  · have h1 : (i : ℝ) + 1 ≤ (⌊x / d⌋ : Int) := by exact_mod_cast h
    rw [abs_of_nonneg (by linarith)]
    linarith
  · have h2 : ⌊x / d⌋ + 2 ≤ i := by omega
    have h1 : ((⌊x / d⌋ : Int) : ℝ) + 2 ≤ (i : ℝ) := by exact_mod_cast h2
    rw [abs_of_nonpos (by linarith)]
    linarith

/-- A sum over four consecutive indices of a function that vanishes away from
`s` and `s + 1`, one of which lies among them, has the two terms `s`, `s + 1`. -/
theorem sum_four_cells (h : Int → ℝ) (a s : Int) (hs1 : a - 1 ≤ s) (hs2 : s ≤ a + 1)
    (hz : ∀ i, i ≠ s → i ≠ s + 1 → h i = 0) :
    h (a - 1) + h a + h (a + 1) + h (a + 2) = h s + h (s + 1) := by
  have hcases : s = a - 1 ∨ s = a ∨ s = a + 1 := by omega
  rcases hcases with rfl | rfl | rfl
  · rw [hz (a + 1) (by omega) (by omega), hz (a + 2) (by omega) (by omega),
      show a - 1 + 1 = a by ring]
    ring
  · rw [hz (s - 1) (by omega) (by omega), hz (s + 2) (by omega) (by omega)]
    ring
  · rw [hz (a - 1) (by omega) (by omega), hz a (by omega) (by omega),
      show a + 1 + 1 = a + 2 by ring]
    ring

theorem floor_near (a : Int) (t : ℝ) (h1 : (a : ℝ) - 1 < t) (h2 : t < (a : ℝ) + 2) :
    a - 1 ≤ ⌊t⌋ ∧ ⌊t⌋ ≤ a + 1 := by
  constructor
  · apply Int.le_floor.mpr
    push_cast
    linarith
  · have : ⌊t⌋ < a + 2 := by
      apply Int.floor_lt.mpr
      push_cast
      linarith
    omega

/-- The noise field of the source is a continuous function on the plane, for
every grid and every positive spacing. -/
theorem noiseSpec_continuous (G : Grid ℝ) (dx dy : ℝ) (hdx : 0 < dx) (hdy : 0 < dy) :
    Continuous (fun p : ℝ × ℝ => noiseSpec G dx dy p.1 p.2) := by
  let c : Int → Int → ℝ × ℝ → ℝ := fun i j p =>
    cubic ((p.1 - (i : ℝ) * dx) / dx) * cubic ((p.2 - (j : ℝ) * dy) / dy) *
      ((G (i % 40).toNat (j % 40).toNat).1 * ((p.1 - (i : ℝ) * dx) / dx)
        + (G (i % 40).toNat (j % 40).toNat).2 * ((p.2 - (j : ℝ) * dy) / dy))
  have hspec : ∀ p : ℝ × ℝ, noiseSpec G dx dy p.1 p.2 =
      c ⌊p.1 / dx⌋ ⌊p.2 / dy⌋ p + c ⌊p.1 / dx⌋ (⌊p.2 / dy⌋ + 1) p
        + c (⌊p.1 / dx⌋ + 1) ⌊p.2 / dy⌋ p + c (⌊p.1 / dx⌋ + 1) (⌊p.2 / dy⌋ + 1) p := by
    intro p
    simp only [noiseSpec, c, Int.cast_add, Int.cast_one]
  have hu : ∀ i : Int, Continuous (fun p : ℝ × ℝ => (p.1 - (i : ℝ) * dx) / dx) := fun i =>
    (continuous_fst.sub continuous_const).div_const _
  have hv : ∀ j : Int, Continuous (fun p : ℝ × ℝ => (p.2 - (j : ℝ) * dy) / dy) := fun j =>
    (continuous_snd.sub continuous_const).div_const _
  have hc : ∀ i j : Int, Continuous (c i j) := fun i j =>
    ((cubic_continuous.comp (hu i)).mul (cubic_continuous.comp (hv j))).mul
      ((continuous_const.mul (hu i)).add (continuous_const.mul (hv j)))
  have hcx : ∀ (p : ℝ × ℝ) (i j : Int), i ≠ ⌊p.1 / dx⌋ → i ≠ ⌊p.1 / dx⌋ + 1 → c i j p = 0 := by
    intro p i j h1 h2
    simp only [c, cubic_far_cell dx p.1 hdx i h1 h2, zero_mul]
  have hcy : ∀ (p : ℝ × ℝ) (i j : Int), j ≠ ⌊p.2 / dy⌋ → j ≠ ⌊p.2 / dy⌋ + 1 → c i j p = 0 := by
    intro p i j h1 h2
    simp only [c, cubic_far_cell dy p.2 hdy j h1 h2, mul_zero, zero_mul]
  rw [continuous_iff_continuousAt]
  intro p0
  let a : Int := ⌊p0.1 / dx⌋
  let b : Int := ⌊p0.2 / dy⌋
  let row : Int → ℝ × ℝ → ℝ := fun i p => c i (b - 1) p + c i b p + c i (b + 1) p + c i (b + 2) p
  let F : ℝ × ℝ → ℝ := fun p => row (a - 1) p + row a p + row (a + 1) p + row (a + 2) p
  have hrow : ∀ i, Continuous (row i) := fun i =>
    (((hc i (b - 1)).add (hc i b)).add (hc i (b + 1))).add (hc i (b + 2))
  have hF : Continuous F :=
    (((hrow (a - 1)).add (hrow a)).add (hrow (a + 1))).add (hrow (a + 2))
  let U : Set (ℝ × ℝ) :=
    {p | ((a : ℝ) - 1 < p.1 / dx ∧ p.1 / dx < (a : ℝ) + 2) ∧
      ((b : ℝ) - 1 < p.2 / dy ∧ p.2 / dy < (b : ℝ) + 2)}
  have hx : Continuous (fun p : ℝ × ℝ => p.1 / dx) := continuous_fst.div_const _
  have hy : Continuous (fun p : ℝ × ℝ => p.2 / dy) := continuous_snd.div_const _
  have hU : IsOpen U :=
    ((isOpen_lt continuous_const hx).inter (isOpen_lt hx continuous_const)).inter
      ((isOpen_lt continuous_const hy).inter (isOpen_lt hy continuous_const))
  have hp0 : p0 ∈ U := by
    have h1 : ((a : Int) : ℝ) ≤ p0.1 / dx := Int.floor_le _
    have h2 : p0.1 / dx < (a : Int) + 1 := Int.lt_floor_add_one _
    have h3 : ((b : Int) : ℝ) ≤ p0.2 / dy := Int.floor_le _
    have h4 : p0.2 / dy < (b : Int) + 1 := Int.lt_floor_add_one _
    exact ⟨⟨by linarith, by linarith⟩, ⟨by linarith, by linarith⟩⟩
  have heq : ∀ p ∈ U, noiseSpec G dx dy p.1 p.2 = F p := by
    intro p hp
    obtain ⟨hs1, hs2⟩ := floor_near a (p.1 / dx) hp.1.1 hp.1.2
    obtain ⟨ht1, ht2⟩ := floor_near b (p.2 / dy) hp.2.1 hp.2.2
    have hrows : ∀ i, row i p = c i ⌊p.2 / dy⌋ p + c i (⌊p.2 / dy⌋ + 1) p := fun i =>
      sum_four_cells (fun j => c i j p) b ⌊p.2 / dy⌋ ht1 ht2 (fun j h1 h2 => hcy p i j h1 h2)
    have hsum := sum_four_cells (fun i => row i p) a ⌊p.1 / dx⌋ hs1 hs2 (fun i h1 h2 => by
      show row i p = 0
      rw [hrows i, hcx p i _ h1 h2, hcx p i _ h1 h2, add_zero])
    beta_reduce at hsum
    show noiseSpec G dx dy p.1 p.2 = row (a - 1) p + row a p + row (a + 1) p + row (a + 2) p
    rw [hsum, hrows, hrows, hspec p]
    ring
  exact hF.continuousAt.congr
    (Filter.eventually_of_mem (hU.mem_nhds hp0) (fun p hp => (heq p hp).symm))

/-- C16: for every grid, so for every grid of unit vectors, and every cell
spacing `dx, dy > 0`, so for `dx = dy > 0`, the function `noise (x, y)` returns
a value at every point and is continuous on the whole plane, in particular at
every point with `x` an integer multiple of `dx` or `y` an integer multiple of
`dy`, where the four contributing cells change. -/
theorem noise_continuous (self : VanGoghLIC ℝ) (G : Grid ℝ) (hdx : 0 < self.dx)
    (hdy : 0 < self.dy) :
    ∃ f : ℝ × ℝ → ℝ, (∀ x y : ℝ, noise self G x y = .ok (f (x, y))) ∧
      (∀ x y : ℝ, f (x, y) = noiseSpec G self.dx self.dy x y) ∧ Continuous f ∧
      (∀ (k : Int) (y : ℝ), ContinuousAt f ((k : ℝ) * self.dx, y)) ∧
      (∀ (x : ℝ) (k : Int), ContinuousAt f (x, (k : ℝ) * self.dy)) := by
  have hcont := noiseSpec_continuous G self.dx self.dy hdx hdy
  exact ⟨fun p => noiseSpec G self.dx self.dy p.1 p.2, fun x y => noise_eq self G x y,
    fun _ _ => rfl, hcont, fun _ _ => hcont.continuousAt, fun _ _ => hcont.continuousAt⟩

/-- C16 at a concrete input: the default spacing `dx = dy = 2` and the grid
whose every entry is the unit vector `(1, 0)`. -/
theorem noise_continuous_witness :
    ∃ f : ℝ × ℝ → ℝ,
      (∀ x y : ℝ, noise (VanGoghLIC.new : VanGoghLIC ℝ) (fun _ _ => (1, 0)) x y = .ok (f (x, y))) ∧
      (∀ x y : ℝ, f (x, y) = noiseSpec (fun _ _ => (1, 0)) 2 2 x y) ∧ Continuous f ∧
      (∀ (k : Int) (y : ℝ), ContinuousAt f ((k : ℝ) * 2, y)) ∧
      (∀ (x : ℝ) (k : Int), ContinuousAt f (x, (k : ℝ) * 2)) :=
  noise_continuous (VanGoghLIC.new : VanGoghLIC ℝ) (fun _ _ => (1, 0))
    (by norm_num [VanGoghLIC.new]) (by norm_num [VanGoghLIC.new])

end VanGoghLIC


namespace VanGoghLIC

/-! ## The range of the HSL conversion -/

theorem gimp_rgba_max_mem {K : Type} [LinearOrderedField K] (rgb : GimpRGBA K) :
    gimp_rgba_max rgb = rgb.v0 ∨ gimp_rgba_max rgb = rgb.v1 ∨ gimp_rgba_max rgb = rgb.v2 := by
  unfold gimp_rgba_max
  split_ifs <;> simp

theorem gimp_rgba_min_mem {K : Type} [LinearOrderedField K] (rgb : GimpRGBA K) :
    gimp_rgba_min rgb = rgb.v0 ∨ gimp_rgba_min rgb = rgb.v1 ∨ gimp_rgba_min rgb = rgb.v2 := by
  unfold gimp_rgba_min
  split_ifs <;> simp

/-- The last two steps of the hue, `h /= 6; if (h < 0) h += 1`, take a sector
value in `[-1, 5]` into `[0, 1)`. -/
theorem hue_wrap_range {K : Type} [LinearOrderedField K] (h : K) (h1 : -1 ≤ h) (h2 : h ≤ 5) :
    0 ≤ (if h / 6 < 0 then h / 6 + 1 else h / 6) ∧ (if h / 6 < 0 then h / 6 + 1 else h / 6) < 1 := by
  have e : h / 6 = h * (1 / 6) := by ring
  split
  · next hneg => constructor <;> linarith
  · next hpos => exact ⟨not_lt.mp hpos, by linarith⟩

/-- A quotient of two differences of channels by the spread `max - min > 0`
lies in `[-1, 1]`. -/
theorem channel_quotient_range {K : Type} [LinearOrderedField K] (a b lo hi : K)
    (ha0 : lo ≤ a) (ha1 : a ≤ hi) (hb0 : lo ≤ b) (hb1 : b ≤ hi) (hd : 0 < hi - lo) :
    -1 ≤ (a - b) / (hi - lo) ∧ (a - b) / (hi - lo) ≤ 1 := by
  constructor
  · rw [le_div_iff₀ hd]; linarith
  · rw [div_le_iff₀ hd]; linarith

/-- C23: for every RGBA colour whose red, green and blue channels lie in
`[0, 1]`, `gimp_rgba_to_hsl` returns the lightness `(max + min) / 2`, in
`[0, 1]`, a saturation in `[0, 1]` and, whenever `max != min`, a hue in
`[0, 1)`; a hue outside `[0, 1]` occurs only as the sentinel `-1` for
`max == min`.  The alpha is the alpha of the input. -/
theorem gimp_rgba_to_hsl_range {K : Type} [LinearOrderedField K] (rgb : GimpRGBA K)
    (hr0 : 0 ≤ rgb.v0) (hr1 : rgb.v0 ≤ 1) (hg0 : 0 ≤ rgb.v1) (hg1 : rgb.v1 ≤ 1)
    (hb0 : 0 ≤ rgb.v2) (hb1 : rgb.v2 ≤ 1) :
    (gimp_rgba_to_hsl rgb).v2 = (gimp_rgba_max rgb + gimp_rgba_min rgb) / 2 ∧
      (0 ≤ (gimp_rgba_to_hsl rgb).v2 ∧ (gimp_rgba_to_hsl rgb).v2 ≤ 1) ∧
      (0 ≤ (gimp_rgba_to_hsl rgb).v1 ∧ (gimp_rgba_to_hsl rgb).v1 ≤ 1) ∧
      (gimp_rgba_max rgb ≠ gimp_rgba_min rgb →
        0 ≤ (gimp_rgba_to_hsl rgb).v0 ∧ (gimp_rgba_to_hsl rgb).v0 < 1) ∧
      (gimp_rgba_max rgb = gimp_rgba_min rgb → (gimp_rgba_to_hsl rgb).v0 = -1) ∧
      (((gimp_rgba_to_hsl rgb).v0 < 0 ∨ 1 < (gimp_rgba_to_hsl rgb).v0) →
        gimp_rgba_max rgb = gimp_rgba_min rgb ∧ (gimp_rgba_to_hsl rgb).v0 = -1) ∧
      (gimp_rgba_to_hsl rgb).v3 = rgb.v3 := by
  obtain ⟨a0, a1, a2⟩ := gimp_rgba_max_ge rgb
  obtain ⟨b0, b1, b2⟩ := gimp_rgba_min_le rgb
  have hM1 : gimp_rgba_max rgb ≤ 1 := by
    rcases gimp_rgba_max_mem rgb with h | h | h <;> rw [h] <;> assumption
  have hm0 : 0 ≤ gimp_rgba_min rgb := by
    rcases gimp_rgba_min_mem rgb with h | h | h <;> rw [h] <;> assumption
  have hmM : gimp_rgba_min rgb ≤ gimp_rgba_max rgb := b0.trans a0
  by_cases h : gimp_rgba_max rgb = gimp_rgba_min rgb
  · have hhsl : gimp_rgba_to_hsl rgb
        = ⟨GIMP_HSL_UNDEFINED, 0, (gimp_rgba_max rgb + gimp_rgba_min rgb) / 2, rgb.v3⟩ := by
      simp only [gimp_rgba_to_hsl, if_pos h]
    rw [hhsl]
    refine ⟨rfl, ⟨?_, ?_⟩, ⟨le_refl _, zero_le_one⟩, fun hne => absurd h hne, fun _ => rfl,
      fun _ => ⟨h, rfl⟩, rfl⟩
    · show 0 ≤ (gimp_rgba_max rgb + gimp_rgba_min rgb) / 2
      linarith
    · show (gimp_rgba_max rgb + gimp_rgba_min rgb) / 2 ≤ 1
      linarith
  · have hd : 0 < gimp_rgba_max rgb - gimp_rgba_min rgb :=
      sub_pos.mpr (lt_of_le_of_ne hmM (Ne.symm h))
    have hdne : ¬ gimp_rgba_max rgb - gimp_rgba_min rgb = 0 := ne_of_gt hd
    have hsat : 0 ≤ (if (gimp_rgba_max rgb + gimp_rgba_min rgb) / 2 ≤ 1 / 2
          then (gimp_rgba_max rgb - gimp_rgba_min rgb) / (gimp_rgba_max rgb + gimp_rgba_min rgb)
          else (gimp_rgba_max rgb - gimp_rgba_min rgb)
            / (2 - gimp_rgba_max rgb - gimp_rgba_min rgb)) ∧
        (if (gimp_rgba_max rgb + gimp_rgba_min rgb) / 2 ≤ 1 / 2
          then (gimp_rgba_max rgb - gimp_rgba_min rgb) / (gimp_rgba_max rgb + gimp_rgba_min rgb)
          else (gimp_rgba_max rgb - gimp_rgba_min rgb)
            / (2 - gimp_rgba_max rgb - gimp_rgba_min rgb)) ≤ 1 := by
      split
      · have hpos : 0 < gimp_rgba_max rgb + gimp_rgba_min rgb := by linarith
        exact ⟨div_nonneg hd.le hpos.le, by rw [div_le_one hpos]; linarith⟩
      · have hpos : 0 < 2 - gimp_rgba_max rgb - gimp_rgba_min rgb := by linarith
        exact ⟨div_nonneg hd.le hpos.le, by rw [div_le_one hpos]; linarith⟩
    have hq1 := channel_quotient_range rgb.v1 rgb.v2 _ _ b1 a1 b2 a2 hd
    have hq2 := channel_quotient_range rgb.v2 rgb.v0 _ _ b2 a2 b0 a0 hd
    have hq3 := channel_quotient_range rgb.v0 rgb.v1 _ _ b0 a0 b1 a1 hd
    have hsector : -1 ≤ (if rgb.v0 = gimp_rgba_max rgb
            then (rgb.v1 - rgb.v2) / (gimp_rgba_max rgb - gimp_rgba_min rgb)
          else if rgb.v1 = gimp_rgba_max rgb
            then 2 + (rgb.v2 - rgb.v0) / (gimp_rgba_max rgb - gimp_rgba_min rgb)
          else 4 + (rgb.v0 - rgb.v1) / (gimp_rgba_max rgb - gimp_rgba_min rgb)) ∧
        (if rgb.v0 = gimp_rgba_max rgb
            then (rgb.v1 - rgb.v2) / (gimp_rgba_max rgb - gimp_rgba_min rgb)
          else if rgb.v1 = gimp_rgba_max rgb
            then 2 + (rgb.v2 - rgb.v0) / (gimp_rgba_max rgb - gimp_rgba_min rgb)
          else 4 + (rgb.v0 - rgb.v1) / (gimp_rgba_max rgb - gimp_rgba_min rgb)) ≤ 5 := by
      split_ifs
      · exact ⟨hq1.1, by linarith [hq1.2]⟩
      · exact ⟨by linarith [hq2.1], by linarith [hq2.2]⟩
      · exact ⟨by linarith [hq3.1], by linarith [hq3.2]⟩
    have hhue := hue_wrap_range _ hsector.1 hsector.2
    have hhsl : gimp_rgba_to_hsl rgb
        = ⟨(if (if rgb.v0 = gimp_rgba_max rgb
                then (rgb.v1 - rgb.v2) / (gimp_rgba_max rgb - gimp_rgba_min rgb)
              else if rgb.v1 = gimp_rgba_max rgb
                then 2 + (rgb.v2 - rgb.v0) / (gimp_rgba_max rgb - gimp_rgba_min rgb)
              else 4 + (rgb.v0 - rgb.v1) / (gimp_rgba_max rgb - gimp_rgba_min rgb)) / 6 < 0
            then (if rgb.v0 = gimp_rgba_max rgb
                then (rgb.v1 - rgb.v2) / (gimp_rgba_max rgb - gimp_rgba_min rgb)
              else if rgb.v1 = gimp_rgba_max rgb
                then 2 + (rgb.v2 - rgb.v0) / (gimp_rgba_max rgb - gimp_rgba_min rgb)
              else 4 + (rgb.v0 - rgb.v1) / (gimp_rgba_max rgb - gimp_rgba_min rgb)) / 6 + 1
            else (if rgb.v0 = gimp_rgba_max rgb
                then (rgb.v1 - rgb.v2) / (gimp_rgba_max rgb - gimp_rgba_min rgb)
              else if rgb.v1 = gimp_rgba_max rgb
                then 2 + (rgb.v2 - rgb.v0) / (gimp_rgba_max rgb - gimp_rgba_min rgb)
              else 4 + (rgb.v0 - rgb.v1) / (gimp_rgba_max rgb - gimp_rgba_min rgb)) / 6),
          (if (gimp_rgba_max rgb + gimp_rgba_min rgb) / 2 ≤ 1 / 2
            then (gimp_rgba_max rgb - gimp_rgba_min rgb) / (gimp_rgba_max rgb + gimp_rgba_min rgb)
            else (gimp_rgba_max rgb - gimp_rgba_min rgb)
              / (2 - gimp_rgba_max rgb - gimp_rgba_min rgb)),
          (gimp_rgba_max rgb + gimp_rgba_min rgb) / 2, rgb.v3⟩ := by
      simp only [gimp_rgba_to_hsl, if_neg h, if_neg hdne]
    rw [hhsl]
    refine ⟨rfl, ⟨?_, ?_⟩, hsat, fun _ => hhue, fun he => absurd he h, fun hout => ?_, rfl⟩
    · show 0 ≤ (gimp_rgba_max rgb + gimp_rgba_min rgb) / 2
      linarith
    · show (gimp_rgba_max rgb + gimp_rgba_min rgb) / 2 ≤ 1
      linarith
    · exfalso
      rcases hout with hlt | hgt
      · exact absurd hhue.1 (not_le.mpr hlt)
      · exact absurd (lt_trans hgt hhue.2) (lt_irrefl _)

/-- C23 at a concrete input: the colour `(1, 0.5, 0.25, 1)` has the hue `1/18`,
the saturation `1` and the lightness `5/8`. -/
theorem gimp_rgba_to_hsl_range_witness :
    gimp_rgba_to_hsl (⟨1, 1 / 2, 1 / 4, 1⟩ : GimpRGBA ℚ) = ⟨1 / 18, 1, 5 / 8, 1⟩ ∧
      (0 ≤ (gimp_rgba_to_hsl (⟨1, 1 / 2, 1 / 4, 1⟩ : GimpRGBA ℚ)).v0 ∧
        (gimp_rgba_to_hsl (⟨1, 1 / 2, 1 / 4, 1⟩ : GimpRGBA ℚ)).v0 < 1) ∧
      (0 ≤ (gimp_rgba_to_hsl (⟨1, 1 / 2, 1 / 4, 1⟩ : GimpRGBA ℚ)).v1 ∧
        (gimp_rgba_to_hsl (⟨1, 1 / 2, 1 / 4, 1⟩ : GimpRGBA ℚ)).v1 ≤ 1) ∧
      (0 ≤ (gimp_rgba_to_hsl (⟨1, 1 / 2, 1 / 4, 1⟩ : GimpRGBA ℚ)).v2 ∧
        (gimp_rgba_to_hsl (⟨1, 1 / 2, 1 / 4, 1⟩ : GimpRGBA ℚ)).v2 ≤ 1) := by
  have h := gimp_rgba_to_hsl_range (⟨1, 1 / 2, 1 / 4, 1⟩ : GimpRGBA ℚ) (by decide!) (by decide!)
    (by decide!) (by decide!) (by decide!) (by decide!)
  exact ⟨by decide!, h.2.2.2.1 (by decide!), h.2.2.1, h.2.1⟩

end VanGoghLIC


namespace VanGoghLIC

/-! ## The trapezoidal weights for an odd number of steps -/

theorem node_odd {K : Type} [LinearOrderedField K] (l : K) (m i : Nat) :
    node l (2 * l / ((2 * m + 1 : Nat) : K)) i
      = l * (2 * (i : K) - (2 * m + 1)) / (2 * m + 1) := by
  have hn0 : (2 * (m : K) + 1) ≠ 0 := by positivity
  simp only [node]
  push_cast
  field_simp
  ring

/-- On the rising half of the tent, `filter (u_i) = 2 i / (2 m + 1)`. -/
theorem tent_node_left_odd {K : Type} [LinearOrderedField K] (l : K) (hl : 0 < l) (m i : Nat)
    (hi : i ≤ m) :
    tent l (node l (2 * l / ((2 * m + 1 : Nat) : K)) i) = 2 * (i : K) / (2 * m + 1) := by
  have hnK : (0 : K) < 2 * m + 1 := by positivity
  have hiK : (i : K) ≤ m := by exact_mod_cast hi
  have hnonpos : l * (2 * (i : K) - (2 * m + 1)) / (2 * m + 1) ≤ 0 :=
    div_nonpos_of_nonpos_of_nonneg (mul_nonpos_of_nonneg_of_nonpos (le_of_lt hl) (by linarith))
      (le_of_lt hnK)
  have hval : 1 - |l * (2 * (i : K) - (2 * m + 1)) / (2 * m + 1)| / l
      = 2 * (i : K) / (2 * m + 1) := by
    rw [abs_of_nonpos hnonpos]
    field_simp
    ring
  simp only [tent, node_odd l m i, hval]
  exact max_eq_right (div_nonneg (by positivity) (le_of_lt hnK))

/-- On the falling half of the tent, `filter (u_i) = 2 (2 m + 1 - i) / (2 m + 1)`. -/
theorem tent_node_right_odd {K : Type} [LinearOrderedField K] (l : K) (hl : 0 < l) (m i : Nat)
    (hi : m + 1 ≤ i) (hi2 : i ≤ 2 * m + 1) :
    tent l (node l (2 * l / ((2 * m + 1 : Nat) : K)) i)
      = 2 * (2 * (m : K) + 1 - i) / (2 * m + 1) := by
  have hnK : (0 : K) < 2 * m + 1 := by positivity
  have hiK : (m : K) + 1 ≤ i := by exact_mod_cast hi
  have hiK2 : (i : K) ≤ 2 * m + 1 := by exact_mod_cast hi2
  have hnonneg : 0 ≤ l * (2 * (i : K) - (2 * m + 1)) / (2 * m + 1) :=
    div_nonneg (mul_nonneg (le_of_lt hl) (by linarith)) (le_of_lt hnK)
  have hval : 1 - |l * (2 * (i : K) - (2 * m + 1)) / (2 * m + 1)| / l
      = 2 * (2 * (m : K) + 1 - i) / (2 * m + 1) := by
    rw [abs_of_nonneg hnonneg]
    field_simp
    ring
  simp only [tent, node_odd l m i, hval]
  exact max_eq_right (div_nonneg (by linarith) (le_of_lt hnK))

theorem trapezoid_tent_left_odd {K : Type} [LinearOrderedField K] (l : K) (hl : 0 < l) (m : Nat) :
    ∀ k : Nat, k ≤ m →
      trapezoid (tent l) l (2 * l / ((2 * m + 1 : Nat) : K)) k =
        2 * l / ((2 * m + 1 : Nat) : K) * ((k : K) * k / (2 * m + 1)) := by
  have hn0 : (2 * (m : K) + 1) ≠ 0 := by positivity
  intro k
  induction k with
  | zero => intro _; simp [trapezoid]
  | succ k ih =>
    intro hk
    rw [trapezoid_succ, ih (by omega), tent_node_left_odd l hl m k (by omega),
      tent_node_left_odd l hl m (k + 1) hk]
    push_cast
    field_simp
    ring

theorem trapezoid_tent_right_odd {K : Type} [LinearOrderedField K] (l : K) (hl : 0 < l) (m : Nat) :
    ∀ d : Nat, d ≤ m →
      trapezoid (tent l) l (2 * l / ((2 * m + 1 : Nat) : K)) (m + 1 + d) =
        2 * l / ((2 * m + 1 : Nat) : K)
          * (((m : K) * m + 2 * m + 2 * m * d - (d : K) * d) / (2 * m + 1)) := by
  have hn0 : (2 * (m : K) + 1) ≠ 0 := by positivity
  intro d
  induction d with
  | zero =>
    intro _
    rw [Nat.add_zero, trapezoid_succ, trapezoid_tent_left_odd l hl m m (le_refl m),
      tent_node_left_odd l hl m m (le_refl m),
      tent_node_right_odd l hl m (m + 1) (le_refl _) (by omega)]
    push_cast
    field_simp
    ring
  | succ d ih =>
    intro hd
    rw [← Nat.add_assoc, trapezoid_succ, ih (by omega),
      tent_node_right_odd l hl m (m + 1 + d) (by omega) (by omega),
      tent_node_right_odd l hl m (m + 1 + d + 1) (by omega) (by omega)]
    push_cast
    field_simp
    ring

/-- The trapezoidal weights of the tent filter over an odd number `n = 2 m + 1`
of panels sum to `l * (1 - 1 / n²)`. -/
theorem tentSum_odd {K : Type} [LinearOrderedField K] [FloorRing K] (l : K) (hl : 0 < l)
    (m : Nat) :
    tentSum l ((2 * m + 1 : Nat) : K) = l * (1 - 1 / (((2 * m + 1 : Nat) : K)) ^ 2) := by
  have hn0 : (2 * (m : K) + 1) ≠ 0 := by positivity
  have h := trapezoid_tent_right_odd l hl m m (le_refl m)
  rw [show m + 1 + m = 2 * m + 1 by omega] at h
  rw [tentSum, Nat.floor_natCast, h]
  push_cast
  field_simp
  ring

/-- The sum of the trapezoidal weights for a positive integer step count. -/
theorem tentSum_parity {K : Type} [LinearOrderedField K] [FloorRing K] (l : K) (hl : 0 < l)
    (n : Nat) (hn : 0 < n) :
    tentSum l (n : K) = l * (if n % 2 = 0 then 1 else 1 - 1 / (n : K) ^ 2) := by
  rcases Nat.even_or_odd' n with ⟨m, rfl | rfl⟩
  · rw [tentSum_even l hl m (by omega), if_pos (by omega), mul_one]
  · rw [tentSum_odd l hl m, if_neg (by omega)]

theorem gimp_rgba_multiply_back {K : Type} [LinearOrderedField K] (p : Vec4d K) (l f : K)
    (hl : l ≠ 0) :
    gimp_rgba_multiply (gimp_rgba_multiply p (l * f)) (1 / l) = gimp_rgba_multiply p f := by
  simp only [gimp_rgba_multiply, Vec4d.mk.injEq]
  refine ⟨?_, ?_, ?_, ?_⟩ <;> field_simp <;> ring

theorem parity_factor_range {K : Type} [LinearOrderedField K] (n : Nat) (hn : 0 < n) :
    0 ≤ (if n % 2 = 0 then (1 : K) else 1 - 1 / (n : K) ^ 2) ∧
      (if n % 2 = 0 then (1 : K) else 1 - 1 / (n : K) ^ 2) ≤ 1 := by
  have hn1 : (1 : K) ≤ n := by exact_mod_cast hn
  have hsq : (1 : K) ≤ (n : K) ^ 2 := by nlinarith
  have hinv0 : 0 ≤ 1 / (n : K) ^ 2 := by positivity
  have hinv1 : 1 / (n : K) ^ 2 ≤ 1 := by
    rw [div_le_one (by positivity)]
    exact hsq
  split
  · exact ⟨zero_le_one, le_refl _⟩
  · exact ⟨by linarith, by linarith⟩

/-- C21: in exact arithmetic, for every half-width `L ≥ 0.1` and every
positive integer step count `n`, the trapezoidal weights that `lic_image`
applies, the sum over the `n` panels of `(filter (u_(k-1)) + filter (u_k)) *
step / 2` with `u_k = -L + k * 2 L / n`, sum to `L` when `n` is even and to
`L * (1 - 1 / n²)` when `n` is odd; so on an image of one colour `c` with
`alpha > 0` what `lic_image` returns is the clamp of `c` for even `n` and of
`c * (1 - 1 / n²)` for odd `n` (of `0` for `n = 1`), the clamp changing nothing
for channels in `[0, 1]`; and it does return it whenever its samples are read,
as they are for zero flow at a pixel of the image. -/
theorem trapezoid_weights_sum {K : Type} [LinearOrderedField K] [FloorRing K]
    (self : VanGoghLIC K) (hl : 1 / 10 ≤ self.l) (n : Nat) (hn : 0 < n)
    (hsteps : self.isteps = (n : K)) :
    trapezoid (filter self) self.l (2 * self.l / (n : K)) n
        = (if n % 2 = 0 then self.l else self.l * (1 - 1 / (n : K) ^ 2)) ∧
      (∀ (buffer : Mat K) (p : Vec4d K), 0 < p.v3 → (∀ q ∈ buffer.data, q = p) →
        ∀ (x y : Int) (vx vy : K),
          lic_image self buffer x y vx vy = .ok (gimp_rgba_clamp (gimp_rgba_multiply p
              (if n % 2 = 0 then 1 else 1 - 1 / (n : K) ^ 2))) ∨
            ∃ u e, getpixel buffer ((x : K) - u * vx) ((y : K) - u * vy) = .error e ∧
              lic_image self buffer x y vx vy = .error e) ∧
      (∀ (buffer : Mat K) (p : Vec4d K), 0 < p.v3 → (∀ q ∈ buffer.data, q = p) →
        buffer.WF → 0 < buffer.cols → 0 < buffer.rows → ∀ x y : Nat,
          lic_image self buffer x y 0 0 = .ok (gimp_rgba_clamp (gimp_rgba_multiply p
              (if n % 2 = 0 then 1 else 1 - 1 / (n : K) ^ 2)))) ∧
      (∀ p : Vec4d K, p.In01 →
        gimp_rgba_clamp (gimp_rgba_multiply p (if n % 2 = 0 then 1 else 1 - 1 / (n : K) ^ 2))
          = gimp_rgba_multiply p (if n % 2 = 0 then 1 else 1 - 1 / (n : K) ^ 2)) ∧
      (n = 1 → (if n % 2 = 0 then (1 : K) else 1 - 1 / (n : K) ^ 2) = 0) := by
  have hpos : 0 < self.l := lt_of_lt_of_le (by norm_num) hl
  have hspos : 0 < self.isteps := by rw [hsteps]; exact_mod_cast hn
  have hfilter : filter self = tent self.l := funext (filter_eq_tent self)
  have hsum := tentSum_parity self.l hpos n hn
  have himage : ∀ (buffer : Mat K) (p : Vec4d K), 0 < p.v3 → (∀ q ∈ buffer.data, q = p) →
      ∀ (x y : Int) (vx vy : K),
        lic_image self buffer x y vx vy = .ok (gimp_rgba_clamp (gimp_rgba_multiply p
            (if n % 2 = 0 then 1 else 1 - 1 / (n : K) ^ 2))) ∨
          ∃ u e, getpixel buffer ((x : K) - u * vx) ((y : K) - u * vy) = .error e ∧
            lic_image self buffer x y vx vy = .error e := by
    intro buffer p hp hall x y vx vy
    have h := lic_image_uniform_sum self buffer p hp hall hpos hspos x y vx vy
    rw [hsteps, hsum, gimp_rgba_multiply_back p self.l _ (ne_of_gt hpos)] at h
    exact h
  refine ⟨?_, himage, ?_, ?_, ?_⟩
  · rw [hfilter]
    have h := hsum
    rw [tentSum, Nat.floor_natCast] at h
    rw [h]
    split
    · rw [mul_one]
    · rfl
  · intro buffer p hp hall hwf hc hr x y
    rcases himage buffer p hp hall x y 0 0 with h | ⟨u, e, hg, _⟩
    · exact h
    · rw [mul_zero, sub_zero, sub_zero, getpixel_of_nonneg buffer hwf hc hr _ _
        (by exact_mod_cast Int.natCast_nonneg x) (by exact_mod_cast Int.natCast_nonneg y)] at hg
      cases hg
  · intro p hIn
    obtain ⟨hf0, hf1⟩ := parity_factor_range (K := K) n hn
    obtain ⟨⟨a0, a1⟩, ⟨b0, b1⟩, ⟨c0, c1⟩, ⟨d0, d1⟩⟩ := hIn
    apply gimp_rgba_clamp_of_In01
    simp only [Vec4d.In01, gimp_rgba_multiply]
    exact ⟨⟨mul_nonneg a0 hf0, mul_le_one₀ a1 hf0 hf1⟩, ⟨mul_nonneg b0 hf0, mul_le_one₀ b1 hf0 hf1⟩,
      ⟨mul_nonneg c0 hf0, mul_le_one₀ c1 hf0 hf1⟩, ⟨mul_nonneg d0 hf0, mul_le_one₀ d1 hf0 hf1⟩⟩
  · intro h1
    subst h1
    norm_num

/-- C21 at a concrete input: the object that `compute` configures from the
constructor's parameters has `L = 5` and 25 steps; the weights sum to
`5 * (1 - 1/625)` and the gray one-pixel image gives `gray * (1 - 1/625)`. -/
theorem trapezoid_weights_sum_witness :
    trapezoid
        (filter (compute libq Grid.start VanGoghLIC.new (onePixel gray) (onePixel gray)).self) 5
        (2 * 5 / 25) 25 = 5 * (1 - 1 / 625) ∧
      lic_image (compute libq Grid.start VanGoghLIC.new (onePixel gray) (onePixel gray)).self
        (onePixel gray) 0 0 0 0 = .ok ⟨312 / 625, 312 / 625, 312 / 625, 624 / 625⟩ := by
  have h := trapezoid_weights_sum
    (compute libq Grid.start VanGoghLIC.new (onePixel gray) (onePixel gray)).self (by decide!) 25
    (by decide) (by decide!)
  refine ⟨?_, ?_⟩
  · have h1 := h.1
    rw [if_neg (by decide)] at h1
    exact (by decide! : _ = _).symm.trans (h1.trans (by decide!))
  · have h2 := h.2.2.1 (onePixel gray) gray (by decide!) (by decide!) (by unfold Mat.WF; rfl)
      (by decide) (by decide) 0 0
    exact h2.trans (by decide!)

end VanGoghLIC


namespace VanGoghLIC

/-! ## Termination of the integration loops -/

theorem bind_ne_fault {α β : Type} (e0 : Fault) (a : Except Fault α) (f : α → Except Fault β)
    (ha : a ≠ .error e0) (hf : ∀ v, f v ≠ .error e0) : (a >>= f) ≠ .error e0 := by
  cases a with
  | error e =>
    intro h
    have h2 : (Except.error e : Except Fault β) = .error e0 := h
    cases h2
    exact ha rfl
  | ok v => exact hf v

theorem map_ne_fault {α β : Type} (e0 : Fault) (a : Except Fault α) (f : α → β)
    (ha : a ≠ .error e0) : a.map f ≠ .error e0 := by
  cases a with
  | error e => intro h; apply ha; cases h; rfl
  | ok v => intro h; cases h

theorem peek_ne_nonTermination {K : Type} (buffer : Mat K) (x y : Int) :
    peek buffer x y ≠ .error .nonTermination := by
  unfold peek
  split
  · split <;> (intro h; cases h)
  · intro h; cases h

theorem cmod_ne_nonTermination (a b : Int) : cmod a b ≠ .error .nonTermination := by
  unfold cmod
  split <;> (intro h; cases h)

/-- A sample of `getpixel` always ends: it returns a colour or stops with
`divideByZero` or `outOfRange`. -/
theorem getpixel_ne_nonTermination {K : Type} [LinearOrderedField K] [FloorRing K]
    (buffer : Mat K) (u v : K) : getpixel buffer u v ≠ .error .nonTermination := by
  unfold getpixel
  refine bind_ne_fault _ _ _ ?_ fun _ => ?_
  · split
    · exact map_ne_fault _ _ _ (cmod_ne_nonTermination _ _)
    · exact cmod_ne_nonTermination _ _
  refine bind_ne_fault _ _ _ ?_ fun _ => ?_
  · split
    · exact map_ne_fault _ _ _ (cmod_ne_nonTermination _ _)
    · exact cmod_ne_nonTermination _ _
  refine bind_ne_fault _ _ _ (cmod_ne_nonTermination _ _) fun _ => ?_
  refine bind_ne_fault _ _ _ (cmod_ne_nonTermination _ _) fun _ => ?_
  refine bind_ne_fault _ _ _ (peek_ne_nonTermination _ _ _) fun _ => ?_
  refine bind_ne_fault _ _ _ (peek_ne_nonTermination _ _ _) fun _ => ?_
  refine bind_ne_fault _ _ _ (peek_ne_nonTermination _ _ _) fun _ => ?_
  refine bind_ne_fault _ _ _ (peek_ne_nonTermination _ _ _) fun _ => ?_
  intro h; cases h

/-- While the guard `u <= l` holds at the nodes `u_(j+1) .. u_(j+m+1)`, `m`
rounds do not end the loop of `lic_noise`. -/
theorem lic_noise_loop_out_of_fuel {K : Type} [LinearOrderedField K] [FloorRing K]
    (self : VanGoghLIC K) (G : Grid K) (xx yy c s step : K) :
    ∀ (m j : Nat) (f1 acc : K),
      (∀ i : Nat, j < i → i ≤ j + m + 1 → node self.l step i ≤ self.l) →
      lic_noise_loop self G xx yy c s step m (node self.l step (j + 1)) f1 acc
        = .error .nonTermination := by
  intro m
  induction m with
  | zero =>
    intro j f1 acc hle
    simp only [lic_noise_loop, if_pos (hle (j + 1) (by omega) (by omega))]
  | succ m ih =>
    intro j f1 acc hle
    have hguard : node self.l step (j + 1) ≤ self.l := hle (j + 1) (by omega) (by omega)
    simp only [lic_noise_loop, if_pos hguard, noise_eq, node_succ]
    exact ih (j + 1) _ _ (fun i h1 h2 => hle i (by omega) (by omega))

/-- When the guard holds at the nodes `u_(j+1) .. u_(j+m)` and fails at
`u_(j+m+1)`, the loop of `lic_noise` ends after exactly `m` rounds: with `m` or
more rounds of fuel it returns the value it returns with `m`. -/
theorem lic_noise_loop_enough_fuel {K : Type} [LinearOrderedField K] [FloorRing K]
    (self : VanGoghLIC K) (G : Grid K) (xx yy c s step : K) :
    ∀ (m j extra : Nat) (f1 acc : K),
      (∀ i : Nat, j < i → i ≤ j + m → node self.l step i ≤ self.l) →
      self.l < node self.l step (j + m + 1) →
      ∃ v, lic_noise_loop self G xx yy c s step m (node self.l step (j + 1)) f1 acc = .ok v ∧
        lic_noise_loop self G xx yy c s step (m + extra) (node self.l step (j + 1)) f1 acc
          = .ok v := by
  intro m
  induction m with
  | zero =>
    intro j extra f1 acc _ hlast
    have hg : ¬ node self.l step (j + 1) ≤ self.l := not_le.mpr hlast
    refine ⟨acc, by simp only [lic_noise_loop, if_neg hg], ?_⟩
    cases extra with
    | zero => simp only [lic_noise_loop, Nat.add_zero, if_neg hg]
    | succ e => simp only [Nat.zero_add, lic_noise_loop, if_neg hg]
  | succ m ih =>
    intro j extra f1 acc hle hlast
    have hguard : node self.l step (j + 1) ≤ self.l := hle (j + 1) (by omega) (by omega)
    have hfuel : m + 1 + extra = (m + extra) + 1 := by omega
    rw [hfuel]
    simp only [lic_noise_loop, if_pos hguard, noise_eq, node_succ]
    exact ih (j + 1) extra _ _ (fun i h1 h2 => hle i (by omega) (by omega))
      (by rw [show j + 1 + m + 1 = j + (m + 1) + 1 by omega]; exact hlast)

/-- While the guard holds at the nodes `u_(j+1) .. u_(j+m+1)`, `m` rounds of
the loop of `lic_image` return no colour. -/
theorem lic_image_loop_out_of_fuel {K : Type} [LinearOrderedField K] [FloorRing K]
    (self : VanGoghLIC K) (buffer : Mat K) (xx yy c s step : K) :
    ∀ (m j : Nat) (col1 col q : GimpRGBA K),
      (∀ i : Nat, j < i → i ≤ j + m + 1 → node self.l step i ≤ self.l) →
      lic_image_loop self buffer xx yy c s step m (node self.l step (j + 1)) col1 col ≠ .ok q := by
  intro m
  induction m with
  | zero =>
    intro j col1 col q hle
    simp only [lic_image_loop, if_pos (hle (j + 1) (by omega) (by omega))]
    intro h; cases h
  | succ m ih =>
    intro j col1 col q hle
    have hguard : node self.l step (j + 1) ≤ self.l := hle (j + 1) (by omega) (by omega)
    simp only [lic_image_loop, if_pos hguard, node_succ]
    split
    · intro h; cases h
    · exact ih (j + 1) _ _ q (fun i h1 h2 => hle i (by omega) (by omega))

/-- When the guard fails at `u_(j+m+1)`, the loop of `lic_image` ends within
`m` rounds, with `m` or more rounds of fuel: it does not run out of fuel, and
it returns a colour when every sample is read. -/
theorem lic_image_loop_enough_fuel {K : Type} [LinearOrderedField K] [FloorRing K]
    (self : VanGoghLIC K) (buffer : Mat K) (xx yy c s step : K) :
    ∀ (m j extra : Nat) (col1 col : GimpRGBA K),
      self.l < node self.l step (j + m + 1) →
      lic_image_loop self buffer xx yy c s step (m + extra) (node self.l step (j + 1)) col1 col
          ≠ .error .nonTermination ∧
        ((∀ u, ∃ q, getpixel buffer (xx - u * c) (yy - u * s) = .ok q) →
          ∃ q, lic_image_loop self buffer xx yy c s step (m + extra) (node self.l step (j + 1))
            col1 col = .ok q) := by
  intro m
  induction m with
  | zero =>
    intro j extra col1 col hlast
    have hg : ¬ node self.l step (j + 1) ≤ self.l := not_le.mpr hlast
    have hval : lic_image_loop self buffer xx yy c s step (0 + extra) (node self.l step (j + 1))
        col1 col = .ok col := by
      cases extra with
      | zero => simp only [lic_image_loop, Nat.add_zero, if_neg hg]
      | succ e => simp only [Nat.zero_add, lic_image_loop, if_neg hg]
    rw [hval]
    exact ⟨fun h => (by cases h), fun _ => ⟨col, rfl⟩⟩
  | succ m ih =>
    intro j extra col1 col hlast
    have hfuel : m + 1 + extra = (m + extra) + 1 := by omega
    rw [hfuel]
    by_cases hguard : node self.l step (j + 1) ≤ self.l
    · simp only [lic_image_loop, if_pos hguard, node_succ]
      cases hg : getpixel buffer (xx - node self.l step (j + 1) * c)
          (yy - node self.l step (j + 1) * s) with
      | error e =>
        refine ⟨?_, fun hall => ?_⟩
        · intro h
          cases h
          exact getpixel_ne_nonTermination _ _ _ hg
        · obtain ⟨q, hq⟩ := hall (node self.l step (j + 1))
          rw [hg] at hq
          cases hq
      | ok col2 =>
        exact ih (j + 1) extra _ _
          (by rw [show j + 1 + m + 1 = j + (m + 1) + 1 by omega]; exact hlast)
    · have hval : lic_image_loop self buffer xx yy c s step (m + extra + 1)
          (node self.l step (j + 1)) col1 col = .ok col := by
        simp only [lic_image_loop, if_neg hguard]
      rw [hval]
      exact ⟨fun h => (by cases h), fun _ => ⟨col, rfl⟩⟩

end VanGoghLIC


namespace VanGoghLIC

theorem node_one {K : Type} [LinearOrderedField K] (l step : K) : -l + step = node l step (0 + 1) := by
  simp [node]

/-- With `l > 0` and `isteps > 0` the guard `u_k <= l` holds exactly for
`k ≤ ⌊isteps⌋`. -/
theorem node_le_iff_floor {K : Type} [LinearOrderedField K] [FloorRing K] (l isteps : K)
    (hl : 0 < l) (hs : 0 < isteps) (k : Nat) :
    node l (2 * l / isteps) k ≤ l ↔ k ≤ ⌊isteps⌋₊ := by
  rw [node_le_iff l isteps hl hs, Nat.le_floor_iff (le_of_lt hs)]

/-- For an integer step count `n > 0` the `n`-th node is `l` itself. -/
theorem node_last {K : Type} [LinearOrderedField K] (l : K) (n : Nat) (hn : 0 < n) :
    node l (2 * l / (n : K)) n = l := by
  have hn0 : (n : K) ≠ 0 := by exact_mod_cast (Nat.pos_iff_ne_zero.mp hn)
  simp only [node]
  field_simp
  ring

/-- For a negative step count the step is negative and every node passes the
guard `u <= l`. -/
theorem node_negative_steps {K : Type} [LinearOrderedField K] (l isteps : K) (hl : 0 < l)
    (hs : isteps < 0) : 2 * l / isteps < 0 ∧ ∀ k : Nat, node l (2 * l / isteps) k ≤ l := by
  have hstep : 2 * l / isteps < 0 := div_neg_of_pos_of_neg (by linarith) hs
  refine ⟨hstep, fun k => ?_⟩
  have hk : (k : K) * (2 * l / isteps) ≤ 0 :=
    mul_nonpos_of_nonneg_of_nonpos (Nat.cast_nonneg k) (le_of_lt hstep)
  simp only [node]
  linarith

/-- With `l > 0` and `isteps > 0`, `lic_image` does not run out of fuel, and it
returns a colour when every sample along the flow is read. -/
theorem lic_image_terminates {K : Type} [LinearOrderedField K] [FloorRing K]
    (self : VanGoghLIC K) (hl : 0 < self.l) (hs : 0 < self.isteps) (buffer : Mat K)
    (x y : Int) (vx vy : K) :
    lic_image self buffer x y vx vy ≠ .error .nonTermination ∧
      ((∀ u, ∃ q, getpixel buffer ((x : K) - u * vx) ((y : K) - u * vy) = .ok q) →
        ∃ q, lic_image self buffer x y vx vy = .ok q) := by
  obtain ⟨_, hlast⟩ := node_guard self.l self.isteps hl hs
  have hloopfuel := lic_image_loop_enough_fuel self buffer (x : K) (y : K) vx vy
    (2 * self.l / self.isteps) ⌊self.isteps⌋₊ 0 0
  have ec : (x : K) + self.l * vx = (x : K) - (-self.l) * vx := by ring
  have ed : (y : K) + self.l * vy = (y : K) - (-self.l) * vy := by ring
  simp only [lic_image, bind, Except.bind, pure, Except.pure, node_one]
  cases hg : getpixel buffer ((x : K) + self.l * vx) ((y : K) + self.l * vy) with
  | error e =>
    refine ⟨?_, fun hall => ?_⟩
    · intro h
      cases h
      exact getpixel_ne_nonTermination _ _ _ hg
    · obtain ⟨q, hq⟩ := hall (-self.l)
      rw [← ec, ← ed, hg] at hq
      cases hq
  | ok col1 =>
    simp only []
    have h1 := hloopfuel (gimp_rgba_multiply col1 (filter self (-self.l))) ⟨0, 0, 0, 0⟩
      (by simpa using hlast)
    rw [Nat.add_zero] at h1
    cases hloop : lic_image_loop self buffer (x : K) (y : K) vx vy (2 * self.l / self.isteps)
        ⌊self.isteps⌋₊ (node self.l (2 * self.l / self.isteps) (0 + 1))
        (gimp_rgba_multiply col1 (filter self (-self.l))) ⟨0, 0, 0, 0⟩ with
    | error e =>
      refine ⟨?_, fun hall => ?_⟩
      · intro h
        cases h
        exact h1.1 hloop
      · obtain ⟨q, hq⟩ := h1.2 hall
        rw [hloop] at hq
        cases hq
    | ok col => exact ⟨fun h => (by cases h), fun _ => ⟨_, rfl⟩⟩

end VanGoghLIC


namespace VanGoghLIC

/-- With `l > 0` and a negative step count neither integrator ends: for every
number of rounds the loop of `lic_noise` is still running, and `lic_image`
returns no colour. -/
theorem integrators_negative_steps {K : Type} [LinearOrderedField K] [FloorRing K]
    (self : VanGoghLIC K) (hl : 0 < self.l) (hs : self.isteps < 0) :
    (∀ (G : Grid K) (xx yy c s : K) (fuel : Nat) (f1 acc : K),
      lic_noise_loop self G xx yy c s (2 * self.l / self.isteps) fuel
        (-self.l + 2 * self.l / self.isteps) f1 acc = .error .nonTermination) ∧
    (∀ (buffer : Mat K) (xx yy c s : K) (fuel : Nat) (col1 col q : GimpRGBA K),
      lic_image_loop self buffer xx yy c s (2 * self.l / self.isteps) fuel
        (-self.l + 2 * self.l / self.isteps) col1 col ≠ .ok q) ∧
    (∀ (G : Grid K) (x y : Int) (vx vy : K),
      lic_noise self G x y vx vy = .error .nonTermination) ∧
    (∀ (buffer : Mat K) (x y : Int) (vx vy : K) (q : GimpRGBA K),
      lic_image self buffer x y vx vy ≠ .ok q) := by
  obtain ⟨_, hguard⟩ := node_negative_steps self.l self.isteps hl hs
  have hnoise : ∀ (G : Grid K) (xx yy c s : K) (fuel : Nat) (f1 acc : K),
      lic_noise_loop self G xx yy c s (2 * self.l / self.isteps) fuel
        (-self.l + 2 * self.l / self.isteps) f1 acc = .error .nonTermination := by
    intro G xx yy c s fuel f1 acc
    rw [node_one]
    exact lic_noise_loop_out_of_fuel self G xx yy c s _ fuel 0 f1 acc (fun i _ _ => hguard i)
  have himage : ∀ (buffer : Mat K) (xx yy c s : K) (fuel : Nat) (col1 col q : GimpRGBA K),
      lic_image_loop self buffer xx yy c s (2 * self.l / self.isteps) fuel
        (-self.l + 2 * self.l / self.isteps) col1 col ≠ .ok q := by
    intro buffer xx yy c s fuel col1 col q
    rw [node_one]
    exact lic_image_loop_out_of_fuel self buffer xx yy c s _ fuel 0 col1 col q
      (fun i _ _ => hguard i)
  refine ⟨hnoise, himage, ?_, ?_⟩
  · intro G x y vx vy
    simp only [lic_noise, noise_eq, bind, Except.bind, hnoise]
  · intro buffer x y vx vy q
    simp only [lic_image, bind, Except.bind, pure, Except.pure]
    cases hg : getpixel buffer ((x : K) + self.l * vx) ((y : K) + self.l * vy) with
    | error e => intro h; cases h
    | ok col1 =>
      simp only []
      cases hloop : lic_image_loop self buffer (x : K) (y : K) vx vy (2 * self.l / self.isteps)
          ⌊self.isteps⌋₊ (-self.l + 2 * self.l / self.isteps)
          (gimp_rgba_multiply col1 (filter self (-self.l))) ⟨0, 0, 0, 0⟩ with
      | error e => intro h; cases h
      | ok col => exact absurd hloop (himage _ _ _ _ _ _ _ _ _)

/-- C22: with `L ≥ 0.1` the integration loops of `lic_image` and `lic_noise`
(`u` from `-L + step` while `u <= L`, `u += step`, `step = 2 L / n`) end for
every step count `n > 0`: the guard holds exactly at the nodes `u_k` with
`k ≤ ⌊n⌋`, `lic_noise` returns and `lic_image` does not run on (it returns when
its samples are read).  For a positive integer `n` they run exactly `n`
rounds, the last at `u_n = L`: a loop given fewer than `n` rounds is still
running, one given `n` or more has ended.  For `n < 0` the step is negative,
every node passes the guard, and no number of rounds ends either loop.
`compute` places no lower bound on `integration_steps`: it copies any value to
`isteps` and, for valid image types and channel, does not throw
`invalid_argument`. -/
theorem integration_loops_terminate {K : Type} [LinearOrderedField K] [FloorRing K]
    (self : VanGoghLIC K) (hl : 1 / 10 ≤ self.l) :
    (0 < self.isteps →
      (∀ k : Nat, node self.l (2 * self.l / self.isteps) k ≤ self.l ↔ k ≤ ⌊self.isteps⌋₊) ∧
      (∀ (G : Grid K) (x y : Int) (vx vy : K), ∃ v, lic_noise self G x y vx vy = .ok v) ∧
      (∀ (buffer : Mat K) (x y : Int) (vx vy : K),
        lic_image self buffer x y vx vy ≠ .error .nonTermination ∧
        ((∀ u, ∃ q, getpixel buffer ((x : K) - u * vx) ((y : K) - u * vy) = .ok q) →
          ∃ q, lic_image self buffer x y vx vy = .ok q))) ∧
    (∀ n : Nat, 0 < n → self.isteps = (n : K) →
      node self.l (2 * self.l / self.isteps) n = self.l ∧
      (∀ k : Nat, node self.l (2 * self.l / self.isteps) k ≤ self.l ↔ k ≤ n) ∧
      (∀ (G : Grid K) (xx yy c s : K) (fuel : Nat) (f1 acc : K),
        lic_noise_loop self G xx yy c s (2 * self.l / self.isteps) fuel
            (-self.l + 2 * self.l / self.isteps) f1 acc = .error .nonTermination ↔ fuel < n) ∧
      (∀ (buffer : Mat K) (xx yy c s : K) (fuel : Nat) (col1 col : GimpRGBA K),
        (fuel < n → ∀ q, lic_image_loop self buffer xx yy c s (2 * self.l / self.isteps) fuel
            (-self.l + 2 * self.l / self.isteps) col1 col ≠ .ok q) ∧
        (n ≤ fuel → lic_image_loop self buffer xx yy c s (2 * self.l / self.isteps) fuel
            (-self.l + 2 * self.l / self.isteps) col1 col ≠ .error .nonTermination))) ∧
    (self.isteps < 0 →
      2 * self.l / self.isteps < 0 ∧
      (∀ k : Nat, node self.l (2 * self.l / self.isteps) k ≤ self.l) ∧
      (∀ (G : Grid K) (xx yy c s : K) (fuel : Nat) (f1 acc : K),
        lic_noise_loop self G xx yy c s (2 * self.l / self.isteps) fuel
          (-self.l + 2 * self.l / self.isteps) f1 acc = .error .nonTermination) ∧
      (∀ (buffer : Mat K) (xx yy c s : K) (fuel : Nat) (col1 col q : GimpRGBA K),
        lic_image_loop self buffer xx yy c s (2 * self.l / self.isteps) fuel
          (-self.l + 2 * self.l / self.isteps) col1 col ≠ .ok q) ∧
      (∀ (G : Grid K) (x y : Int) (vx vy : K),
        lic_noise self G x y vx vy = .error .nonTermination) ∧
      (∀ (buffer : Mat K) (x y : Int) (vx vy : K) (q : GimpRGBA K),
        lic_image self buffer x y vx vy ≠ .ok q)) ∧
    (∀ (S : VanGoghLIC K) (libm : Libm K) (G : Grid K) (input_image effect_image : Mat K),
      input_image.type = CV_64FC4 → effect_image.type = CV_64FC4 →
      (compute libm G S input_image effect_image).self.isteps = S.integration_steps ∧
      ((S.effect_channel = HUE ∨ S.effect_channel = SATURATION ∨ S.effect_channel = BRIGHTNESS) →
        (compute libm G S input_image effect_image).output ≠ .error .invalidArgument)) := by
  have hpos : 0 < self.l := lt_of_lt_of_le (by norm_num) hl
  refine ⟨fun hs => ⟨fun k => node_le_iff_floor self.l self.isteps hpos hs k,
      fun G x y vx vy => ⟨_, lic_noise_eq self G x y vx vy hpos hs⟩,
      fun buffer x y vx vy => lic_image_terminates self hpos hs buffer x y vx vy⟩,
    fun n hn hsteps => ?_, fun hs => ?_, fun S libm G input_image effect_image hti hte => ?_⟩
  · have hs : 0 < self.isteps := by rw [hsteps]; exact_mod_cast hn
    have hiff : ∀ k : Nat, node self.l (2 * self.l / self.isteps) k ≤ self.l ↔ k ≤ n := by
      intro k
      rw [node_le_iff_floor self.l self.isteps hpos hs k, hsteps, Nat.floor_natCast]
    have hlast : self.l < node self.l (2 * self.l / self.isteps) (n + 1) := by
      rw [← not_le, hiff]
      omega
    refine ⟨by rw [hsteps]; exact node_last self.l n hn, hiff, ?_, ?_⟩
    · intro G xx yy c s fuel f1 acc
      rw [node_one]
      constructor
      · intro h
        by_contra hge
        obtain ⟨extra, rfl⟩ : ∃ extra, fuel = n + extra := ⟨fuel - n, by omega⟩
        obtain ⟨v, _, hv⟩ := lic_noise_loop_enough_fuel self G xx yy c s
          (2 * self.l / self.isteps) n 0 extra f1 acc (fun i _ hi => (hiff i).mpr (by omega))
          (by rw [Nat.zero_add]; exact hlast)
        rw [hv] at h
        cases h
      · intro hlt
        exact lic_noise_loop_out_of_fuel self G xx yy c s _ fuel 0 f1 acc
          (fun i _ hi => (hiff i).mpr (by omega))
    · intro buffer xx yy c s fuel col1 col
      rw [node_one]
      constructor
      · intro hlt q
        exact lic_image_loop_out_of_fuel self buffer xx yy c s _ fuel 0 col1 col q
          (fun i _ hi => (hiff i).mpr (by omega))
      · intro hge
        obtain ⟨extra, rfl⟩ : ∃ extra, fuel = n + extra := ⟨fuel - n, by omega⟩
        exact (lic_image_loop_enough_fuel self buffer xx yy c s (2 * self.l / self.isteps) n 0
          extra col1 col (by rw [Nat.zero_add]; exact hlast)).1
  · obtain ⟨hstep, hguard⟩ := node_negative_steps self.l self.isteps hpos hs
    obtain ⟨h1, h2, h3, h4⟩ := integrators_negative_steps self hpos hs
    exact ⟨hstep, hguard, h1, h2, h3, h4⟩
  · refine ⟨(compute_self_of_types libm G S input_image effect_image hti hte).2.2.1, fun hch => ?_⟩
    cases hsf : rgb_to_hsl libm effect_image S.effect_channel with
    | error e =>
      rw [compute_field_fault libm G S input_image effect_image e hti hte hch hsf]
      intro h
      cases h
      exact rgb_to_hsl_ne_invalid libm effect_image S.effect_channel hch hsf
    | ok sf =>
      rw [compute_eq libm G S input_image effect_image sf hti hte hch hsf]
      exact compute_lic_ne_invalid _ _ _ _ _ _

/-- C22 at concrete inputs: the object that `compute` configures from the
constructor's parameters has `L = 5` and 25 steps, so the 25th node is `5` and
`lic_noise` returns; the object configured with `integration_steps = -1` has
the step `-10`, and `lic_noise` does not end. -/
theorem integration_loops_terminate_witness :
    node 5 (2 * 5 / 25) 25 = (5 : ℚ) ∧
      (∃ v, lic_noise (compute libq Grid.start VanGoghLIC.new (onePixel gray) (onePixel gray)).self
        Grid.start 0 0 1 0 = .ok v) ∧
      (compute libq Grid.start selfNegativeSteps (onePixel gray) (onePixel gray)).self.isteps
        = -1 ∧
      lic_noise (compute libq Grid.start selfNegativeSteps (onePixel gray) (onePixel gray)).self
        Grid.start 0 0 1 0 = .error .nonTermination := by
  have h := integration_loops_terminate
    (compute libq Grid.start VanGoghLIC.new (onePixel gray) (onePixel gray)).self (by decide!)
  have hneg := integration_loops_terminate
    (compute libq Grid.start selfNegativeSteps (onePixel gray) (onePixel gray)).self (by decide!)
  refine ⟨?_, (h.1 (by decide!)).2.1 Grid.start 0 0 1 0, by decide!,
    (hneg.2.2.1 (by decide!)).2.2.2.2.1 Grid.start 0 0 1 0⟩
  have h1 := (h.2.1 25 (by decide) (by decide!)).1
  exact (by decide! : _ = _).symm.trans (h1.trans (by decide!))

end VanGoghLIC
